import Mathlib

/-!
Verification development for the buildaquery compile+execute pipeline.

The definitions below are a shallow embedding of the repository's Python
sources: the query AST (`abstract_syntax_tree/models.py`), the Postgres,
MySQL and MariaDB dialect compilers (`compiler/*/*_compiler.py`), the error
normalization taxonomy (`execution/errors.py`), the retry engine
(`execution/retry.py`) and the SQLite executor lifecycle
(`execution/sqlite.py`, `execution/base.py`).  Python strings become Lean
`String`s, Python exceptions become `Except` errors, the compilers' mutable
`_params` accumulator becomes explicit state passing, and the executor's
mutable fields become an explicit state record together with an effect
trace.
-/

namespace Buildaquery

/-! ## String helpers

`pyJoin` is Python's `sep.join(parts)`.  `countChar`, `followedOk` and
`occPS` support counting placeholder occurrences in compiled SQL text. -/

/-- Python's `sep.join(parts)`. -/
def pyJoin (sep : String) : List String → String
  | [] => ""
  | [s] => s
  | s :: rest => s ++ sep ++ pyJoin sep rest

/-- Number of occurrences of the character `c` in the string `s`. -/
def countChar (c : Char) (s : String) : Nat :=
  s.data.count c

/-- Every occurrence of `m` in the character list is immediately followed by
`f`.  In particular a list satisfying this never ends with `m`. -/
def followedOk (m f : Char) : List Char → Bool
  | [] => true
  | c :: rest =>
      (c ≠ m || (match rest with | f' :: _ => f' = f | [] => false)) && followedOk m f rest

/-- Number of occurrences of the two-character pattern `m, f` in a character
list (occurrences cannot overlap because a placeholder's two characters
differ). -/
def occPS (m f : Char) : List Char → Nat
  | c₁ :: c₂ :: rest => (if c₁ = m ∧ c₂ = f then 1 else 0) + occPS m f (c₂ :: rest)
  | _ => 0

theorem countChar_append (c : Char) (a b : String) :
    countChar c (a ++ b) = countChar c a + countChar c b := by
  simp [countChar, String.data_append, List.count_append]

theorem countChar_eq_zero_iff (c : Char) (s : String) :
    countChar c s = 0 ↔ c ∉ s.data := by
  simp [countChar, List.count_eq_zero]

theorem followedOk_append (m f : Char) :
    ∀ a b : List Char, followedOk m f a = true → followedOk m f b = true →
      followedOk m f (a ++ b) = true := by
  intro a
  induction a with
  | nil => intro b _ hb; simpa using hb
  | cons c rest ih =>
      intro b ha hb
      simp only [followedOk, Bool.and_eq_true] at ha
      obtain ⟨hhead, htail⟩ := ha
      have htailb := ih b htail hb
      simp only [List.cons_append, followedOk, Bool.and_eq_true]
      refine ⟨?_, htailb⟩
      cases rest with
      | nil =>
          simp only [Bool.or_eq_true] at hhead ⊢
          rcases hhead with h | h
          · exact Or.inl h
          · simp at h
      | cons c₂ rest₂ =>
          simpa using hhead

theorem followedOk_of_count_zero (m f : Char) :
    ∀ a : List Char, a.count m = 0 → followedOk m f a = true := by
  intro a
  induction a with
  | nil => intro _; rfl
  | cons c rest ih =>
      intro h
      rw [List.count_cons] at h
      have hc : ¬ c = m := by
        intro hcm
        simp [hcm] at h
      have hrest : rest.count m = 0 := by omega
      simp only [followedOk, Bool.and_eq_true]
      exact ⟨by simp [hc], ih hrest⟩

theorem occPS_eq_count (m f : Char) :
    ∀ a : List Char, followedOk m f a = true → occPS m f a = a.count m := by
  intro a
  induction a with
  | nil => intro _; simp [occPS]
  | cons c rest ih =>
      intro h
      simp only [followedOk, Bool.and_eq_true] at h
      obtain ⟨hhead, htail⟩ := h
      cases rest with
      | nil =>
          have hc : ¬ c = m := by
            simp only [Bool.or_eq_true] at hhead
            rcases hhead with h | h
            · simpa using h
            · simp at h
          simp [occPS, List.count_cons, hc]
      | cons c₂ rest₂ =>
          have hrec := ih htail
          by_cases hc : c = m
          · have hf : c₂ = f := by
              simp only [Bool.or_eq_true] at hhead
              rcases hhead with h | h
              · simp [hc] at h
              · simpa using h
            have h1 : occPS m f (c :: c₂ :: rest₂) = 1 + occPS m f (c₂ :: rest₂) := by
              simp [occPS, hc, hf]
            rw [h1, hrec]
            simp [List.count_cons, hc]
            omega
          · have h1 : occPS m f (c :: c₂ :: rest₂) = occPS m f (c₂ :: rest₂) := by
              simp [occPS, hc]
            rw [h1, hrec]
            simp [List.count_cons, hc]

/-- Strings version of `followedOk`. -/
def followedOkS (m f : Char) (s : String) : Bool :=
  followedOk m f s.data

theorem followedOkS_append (m f : Char) (a b : String)
    (ha : followedOkS m f a = true) (hb : followedOkS m f b = true) :
    followedOkS m f (a ++ b) = true := by
  simpa [followedOkS, String.data_append] using followedOk_append m f a.data b.data ha hb

theorem followedOkS_of_count_zero (m f : Char) (a : String)
    (h : countChar m a = 0) : followedOkS m f a = true :=
  followedOk_of_count_zero m f a.data h

theorem countChar_pyJoin (c : Char) (sep : String) (hsep : countChar c sep = 0) :
    ∀ parts : List String,
      countChar c (pyJoin sep parts) = (parts.map (countChar c)).sum := by
  intro parts
  induction parts with
  | nil => simp [pyJoin, countChar]
  | cons s rest ih =>
      cases rest with
      | nil => simp [pyJoin]
      | cons t rest₂ =>
          simp only [pyJoin, countChar_append, hsep, List.map, List.sum_cons] at ih ⊢
          omega

theorem followedOkS_pyJoin (m f : Char) (sep : String)
    (hsep : followedOkS m f sep = true) :
    ∀ parts : List String, (∀ p ∈ parts, followedOkS m f p = true) →
      followedOkS m f (pyJoin sep parts) = true := by
  intro parts
  induction parts with
  | nil => intro _; rfl
  | cons s rest ih =>
      intro h
      cases rest with
      | nil => exact h s (by simp)
      | cons t rest₂ =>
          have hs := h s (by simp)
          have hrest := ih (fun p hp => h p (by simp [hp]))
          exact followedOkS_append m f _ _ (followedOkS_append m f _ _ hs hsep) hrest

/-! Characters of rendered integers: Python's `str(n)` (Lean's `toString`
on `Int`) never contains a placeholder character. -/

/-- Every character `Nat.digitChar` can produce. -/
def digitChars : List Char :=
  ['0', '1', '2', '3', '4', '5', '6', '7', '8', '9'] ++
    ['a', 'b', 'c', 'd', 'e', 'f', '*']

/-- Every character of a rendered `Int` (a digit or the minus sign). -/
def intReprChars : List Char := digitChars ++ ['-']

theorem digitChar_mem (m : Nat) :
    Nat.digitChar m ∈ digitChars := by
  rcases Nat.lt_or_ge m 16 with h | h
  · interval_cases m <;> decide
  · simp [digitChars, Nat.digitChar, show m ≠ 0 by omega, show m ≠ 1 by omega, show m ≠ 2 by omega,
      show m ≠ 3 by omega, show m ≠ 4 by omega, show m ≠ 5 by omega, show m ≠ 6 by omega,
      show m ≠ 7 by omega, show m ≠ 8 by omega, show m ≠ 9 by omega, show m ≠ 10 by omega,
      show m ≠ 11 by omega, show m ≠ 12 by omega, show m ≠ 13 by omega, show m ≠ 14 by omega,
      show m ≠ 15 by omega]

theorem toDigitsCore_chars (b : Nat) :
    ∀ (fuel n : Nat) (acc : List Char),
      (∀ ch ∈ acc, ch ∈ digitChars) →
      ∀ ch ∈ Nat.toDigitsCore b fuel n acc, ch ∈ digitChars := by
  intro fuel
  induction fuel with
  | zero => intro n acc hacc ch hch; exact hacc ch hch
  | succ fuel ih =>
      intro n acc hacc ch hch
      rw [Nat.toDigitsCore] at hch
      split at hch
      · rcases List.mem_cons.mp hch with h | h
        · rw [h]; exact digitChar_mem _
        · exact hacc ch h
      · refine ih (n / b) _ ?_ ch hch
        intro ch₂ hch₂
        rcases List.mem_cons.mp hch₂ with h | h
        · rw [h]; exact digitChar_mem _
        · exact hacc ch₂ h

theorem countChar_natRepr (c : Char)
    (hc : c ∉ digitChars) (n : Nat) :
    countChar c (Nat.repr n) = 0 := by
  rw [countChar_eq_zero_iff]
  intro hmem
  have : c ∈ Nat.toDigits 10 n := by
    simpa [Nat.repr, List.asString] using hmem
  exact hc (toDigitsCore_chars 10 (n + 1) n [] (by simp) c this)

theorem countChar_intRepr (c : Char)
    (hc : c ∉ intReprChars) (n : Int) :
    countChar c (toString n) = 0 := by
  have hc' : c ∉ digitChars := fun hmem =>
    hc (List.mem_append_left _ hmem)
  cases n with
  | ofNat m =>
      have hts : toString (Int.ofNat m) = Nat.repr m := rfl
      rw [hts]
      exact countChar_natRepr c hc' m
  | negSucc m =>
      have hts : toString (Int.negSucc m) = "-" ++ Nat.repr (m + 1) := rfl
      have h1 : countChar c (Nat.repr (m + 1)) = 0 := countChar_natRepr c hc' (m + 1)
      have h2 : countChar c "-" = 0 := by
        rw [countChar_eq_zero_iff]
        intro hmem
        have hdata : ("-" : String).data = ['-'] := rfl
        rw [hdata] at hmem
        have : c = '-' := by simpa using hmem
        apply hc
        simp [this, intReprChars]
      rw [hts, countChar_append, h1, h2]

/-! ## Values and the query AST

`Value` models the Python values stored in `LiteralNode.value` and bound as
SQL parameters.  The mutual inductive family below embeds the node classes
of `abstract_syntax_tree/models.py` that the three provided dialect
compilers consume.  Note: the `models.py` snapshot declares
`InsertStatementNode` with a mandatory `values` list only, while the
MariaDB compiler and the repository's own tests use the richer form with
optional `values`, `rows`, `upsert_clause` and `returning_clause`; the
embedding uses the richer form (absent fields are `none`, matching the
class used by the compilers). -/

/-- A Python value bound as a query parameter. -/
inductive Value where
  | int (n : Int)
  | str (s : String)
  | bool (b : Bool)
  | pynone
deriving Repr, DecidableEq

/-- `TableNode` of `models.py` (name, optional schema, optional alias). -/
structure Table where
  name : String
  schema : Option String := none
  tableAlias : Option String := none
deriving Repr, DecidableEq

/-- `LockClauseNode` of `models.py`. -/
structure Lock where
  mode : String := "UPDATE"
  nowait : Bool := false
  skip_locked : Bool := false
deriving Repr, DecidableEq

/-- `ColumnNode` in an INSERT column list (the compilers only read `name`). -/
structure ColumnRef where
  name : String
deriving Repr, DecidableEq

/-- `ConflictTargetNode` (the MariaDB compiler only tests its presence). -/
structure ConflictTarget where
  columns : List ColumnRef
deriving Repr, DecidableEq

/-- `UpsertClauseNode` as used by the MariaDB compiler. -/
structure Upsert where
  conflict_target : Option ConflictTarget := none
  update_columns : Option (List String) := none
  do_nothing : Bool := false
deriving Repr, DecidableEq

set_option maxHeartbeats 1600000 in
mutual

/-- Expression nodes of `models.py`. -/
inductive Expr where
  | literalNode (value : Value)
  | columnNode (name : String) (table : Option String)
  | binaryOperationNode (left : Expr) (operator : String) (right : Expr)
  | starNode
  | aliasNode (expression : Expr) (name : String)
  | castNode (expression : Expr) (data_type : String)
  | functionCallNode (name : String) (args : List Expr) (over : Option OverClause)
  | unaryOperationNode (operator : String) (operand : Expr)
  | inNode (expression : Expr) (values : List Expr) (negated : Bool)
  | betweenNode (expression : Expr) (low : Expr) (high : Expr) (negated : Bool)
  | caseExpressionNode (cases : List WhenThen) (else_result : Option Expr)
  | subqueryNode (statement : Select) (subAlias : Option String)

/-- `WhenThenNode`. -/
inductive WhenThen where
  | whenThenNode (condition : Expr) (result : Expr)

/-- `OverClauseNode` for window functions. -/
inductive OverClause where
  | overClauseNode (partition_by : Option (List Expr)) (order_by : Option (List OrderBy))

/-- One item of an ORDER BY clause (`OrderByClauseNode`). -/
inductive OrderBy where
  | orderByClauseNode (expression : Expr) (direction : String)

/-- FROM-position nodes: `TableNode`, `JoinClauseNode` or `SubqueryNode`. -/
inductive FromClause where
  | tableNode (t : Table)
  | joinClauseNode (left : FromClause) (right : FromClause)
      (on_condition : Expr) (join_type : String)
  | subqueryNode (statement : Select) (subAlias : Option String)

/-- `WhereClauseNode`. -/
inductive Where where
  | whereClauseNode (condition : Expr)

/-- `GroupByClauseNode`. -/
inductive GroupByClause where
  | groupByClauseNode (expressions : List Expr)

/-- `HavingClauseNode`. -/
inductive Having where
  | havingClauseNode (condition : Expr)

/-- `TopClauseNode`. -/
inductive Top where
  | topClauseNode (count : Int) (on_expression : Option Expr) (direction : String)

/-- `CTENode`. -/
inductive Cte where
  | cteNode (name : String) (subquery : Select)

/-- `SelectStatementNode` with all of its clause fields. -/
inductive Select where
  | mk (select_list : List Expr) (distinct : Bool) (ctes : Option (List Cte))
      (from_table : Option FromClause) (where_clause : Option Where)
      (group_by : Option GroupByClause) (having_clause : Option Having)
      (order_by_clause : Option (List OrderBy)) (top_clause : Option Top)
      (limit : Option Int) (offset : Option Int) (lock_clause : Option Lock)

/-- Statement roots handled by the provided compilers: SELECT, DELETE,
INSERT, UPDATE and the three set operations. -/
inductive Stmt where
  | selectStatementNode (node : Select)
  | deleteStatementNode (table : Table) (where_clause : Option Where)
      (returning_clause : Option (List Expr))
  | insertStatementNode (table : Table) (values : Option (List Expr))
      (columns : Option (List ColumnRef)) (rows : Option (List (List Expr)))
      (upsert_clause : Option Upsert) (returning_clause : Option (List Expr))
  | updateStatementNode (table : Table) (set_clauses : List (String × Expr))
      (where_clause : Option Where) (returning_clause : Option (List Expr))
  | unionNode (left : Stmt) (right : Stmt) (all : Bool)
  | intersectNode (left : Stmt) (right : Stmt) (all : Bool)
  | exceptNode (left : Stmt) (right : Stmt) (all : Bool)

end

/-! Field accessors for the single-constructor clause nodes. -/

def Select.select_list : Select → List Expr
  | .mk v _ _ _ _ _ _ _ _ _ _ _ => v

def Select.distinct : Select → Bool
  | .mk _ v _ _ _ _ _ _ _ _ _ _ => v

def Select.ctes : Select → Option (List Cte)
  | .mk _ _ v _ _ _ _ _ _ _ _ _ => v

def Select.from_table : Select → Option FromClause
  | .mk _ _ _ v _ _ _ _ _ _ _ _ => v

def Select.where_clause : Select → Option Where
  | .mk _ _ _ _ v _ _ _ _ _ _ _ => v

def Select.group_by : Select → Option GroupByClause
  | .mk _ _ _ _ _ v _ _ _ _ _ _ => v

def Select.having_clause : Select → Option Having
  | .mk _ _ _ _ _ _ v _ _ _ _ _ => v

def Select.order_by_clause : Select → Option (List OrderBy)
  | .mk _ _ _ _ _ _ _ v _ _ _ _ => v

def Select.top_clause : Select → Option Top
  | .mk _ _ _ _ _ _ _ _ v _ _ _ => v

def Select.limit : Select → Option Int
  | .mk _ _ _ _ _ _ _ _ _ v _ _ => v

def Select.offset : Select → Option Int
  | .mk _ _ _ _ _ _ _ _ _ _ v _ => v

def Select.lock_clause : Select → Option Lock
  | .mk _ _ _ _ _ _ _ _ _ _ _ v => v

def Top.count : Top → Int
  | .topClauseNode v _ _ => v

def Top.on_expression : Top → Option Expr
  | .topClauseNode _ v _ => v

def Top.direction : Top → String
  | .topClauseNode _ _ v => v

/-- Python truthiness of an optional list (`None` and `[]` are falsy). -/
def truthyList {α : Type} : Option (List α) → Bool
  | none => false
  | some l => !l.isEmpty

/-! ## Compiler output and raised errors -/

/-- Python exceptions raised during compilation or execution control flow. -/
inductive PyErr where
  | valueError (msg : String)
  | notImplementedError (msg : String)
  | typeError (msg : String)
  | runtimeError (msg : String)
deriving Repr, DecidableEq

/-- `CompiledQuery` of `compiler/compiled_query.py`. -/
structure CompiledQuery where
  sql : String
  params : List Value := []
deriving Repr, DecidableEq

/-- Compiler state: the growing `_params` accumulator. -/
abbrev St := List Value

/-! Clause fragments shared verbatim by the dialect compilers. -/

/-- `LIMIT n` part from `Select.limit` (`str(int)` rendering). -/
def limitParts : Option Int → List String
  | some v => ["LIMIT " ++ toString v]
  | none => []

/-- `OFFSET n` part from `Select.offset`. -/
def offsetParts : Option Int → List String
  | some v => ["OFFSET " ++ toString v]
  | none => []

/-- Trailing `LIMIT top.count` part: the non-SQL-Server dialects translate
a TOP clause to a LIMIT. -/
def topLimitParts : Option Top → List String
  | some t => ["LIMIT " ++ toString t.count]
  | none => []

/-! ## Postgres compiler (`compiler/postgres/postgres_compiler.py`)

Each `visit_X` method becomes a function threading the `_params`
accumulator; `visit` dispatch becomes pattern matching, and the base
visitor's `generic_visit` (for node kinds the class does not handle, such
as `SubqueryNode`) becomes a `notImplementedError` result. -/

/-- `visit_TableNode` (Postgres renders no alias). -/
def pgVisitTableNode (t : Table) : String :=
  match t.schema with
  | some sc => sc ++ "." ++ t.name
  | none => t.name

/-- `visit_ColumnNode`. -/
def pgVisitColumnNode (name : String) (table : Option String) : String :=
  match table with
  | some tb => tb ++ "." ++ name
  | none => name

mutual

def pgVisitExpr : Expr → St → Except PyErr (String × St)
  | .literalNode v, st => .ok ("%s", st ++ [v])
  | .columnNode name table, st => .ok (pgVisitColumnNode name table, st)
  | .binaryOperationNode l op r, st =>
      match pgVisitExpr l st with
      | .error e => .error e
      | .ok (ls, st₁) =>
          match pgVisitExpr r st₁ with
          | .error e => .error e
          | .ok (rs, st₂) => .ok ("(" ++ ls ++ " " ++ op ++ " " ++ rs ++ ")", st₂)
  | .starNode, st => .ok ("*", st)
  | .aliasNode e name, st =>
      match pgVisitExpr e st with
      | .error er => .error er
      | .ok (s, st₁) => .ok (s ++ " AS " ++ name, st₁)
  | .castNode e dt, st =>
      match pgVisitExpr e st with
      | .error er => .error er
      | .ok (s, st₁) => .ok ("CAST(" ++ s ++ " AS " ++ dt ++ ")", st₁)
  | .functionCallNode name args _, st =>
      match pgVisitExprList args st with
      | .error er => .error er
      | .ok (ss, st₁) => .ok (name ++ "(" ++ pyJoin ", " ss ++ ")", st₁)
  | .unaryOperationNode op e, st =>
      match pgVisitExpr e st with
      | .error er => .error er
      | .ok (s, st₁) => .ok ("(" ++ op ++ " " ++ s ++ ")", st₁)
  | .inNode e vals neg, st =>
      match pgVisitExpr e st with
      | .error er => .error er
      | .ok (es, st₁) =>
          match pgVisitExprList vals st₁ with
          | .error er => .error er
          | .ok (vs, st₂) =>
              .ok ("(" ++ es ++ " " ++ (if neg then "NOT IN" else "IN") ++ " (" ++
                pyJoin ", " vs ++ "))", st₂)
  | .betweenNode e lo hi neg, st =>
      match pgVisitExpr e st with
      | .error er => .error er
      | .ok (es, st₁) =>
          match pgVisitExpr lo st₁ with
          | .error er => .error er
          | .ok (los, st₂) =>
              match pgVisitExpr hi st₂ with
              | .error er => .error er
              | .ok (his, st₃) =>
                  .ok ("(" ++ es ++ " " ++ (if neg then "NOT BETWEEN" else "BETWEEN") ++
                    " " ++ los ++ " AND " ++ his ++ ")", st₃)
  | .caseExpressionNode cases else_result, st =>
      match pgVisitWhenThenList cases st with
      | .error er => .error er
      | .ok (cs, st₁) =>
          match pgElseSection else_result st₁ with
          | .error er => .error er
          | .ok (elseL, st₂) =>
              .ok (pyJoin " " (["CASE"] ++ cs ++ elseL ++ ["END"]), st₂)
  | .subqueryNode _ _, _st =>
      .error (.notImplementedError "No visit_SubqueryNode method defined in PostgresCompiler")

/-- The optional `ELSE result` part of a CASE expression. -/
def pgElseSection : Option Expr → St → Except PyErr (List String × St)
  | none, st => .ok ([], st)
  | some e, st =>
      match pgVisitExpr e st with
      | .error er => .error er
      | .ok (es, st₁) => .ok (["ELSE " ++ es], st₁)

def pgVisitExprList : List Expr → St → Except PyErr (List String × St)
  | [], st => .ok ([], st)
  | e :: es, st =>
      match pgVisitExpr e st with
      | .error er => .error er
      | .ok (s, st₁) =>
          match pgVisitExprList es st₁ with
          | .error er => .error er
          | .ok (ss, st₂) => .ok (s :: ss, st₂)

def pgVisitWhenThen : WhenThen → St → Except PyErr (String × St)
  | .whenThenNode c r, st =>
      match pgVisitExpr c st with
      | .error er => .error er
      | .ok (cs, st₁) =>
          match pgVisitExpr r st₁ with
          | .error er => .error er
          | .ok (rs, st₂) => .ok ("WHEN " ++ cs ++ " THEN " ++ rs, st₂)

def pgVisitWhenThenList : List WhenThen → St → Except PyErr (List String × St)
  | [], st => .ok ([], st)
  | w :: ws, st =>
      match pgVisitWhenThen w st with
      | .error er => .error er
      | .ok (s, st₁) =>
          match pgVisitWhenThenList ws st₁ with
          | .error er => .error er
          | .ok (ss, st₂) => .ok (s :: ss, st₂)

def pgVisitFrom : FromClause → St → Except PyErr (String × St)
  | .tableNode t, st => .ok (pgVisitTableNode t, st)
  | .joinClauseNode l r on_c jt, st =>
      match pgVisitFrom l st with
      | .error er => .error er
      | .ok (ls, st₁) =>
          match pgVisitFrom r st₁ with
          | .error er => .error er
          | .ok (rs, st₂) =>
              match pgVisitExpr on_c st₂ with
              | .error er => .error er
              | .ok (os, st₃) =>
                  .ok (ls ++ " " ++ jt ++ " JOIN " ++ rs ++ " ON " ++ os, st₃)
  | .subqueryNode _ _, _st =>
      .error (.notImplementedError "No visit_SubqueryNode method defined in PostgresCompiler")

def pgVisitWhere : Where → St → Except PyErr (String × St)
  | .whereClauseNode c, st =>
      match pgVisitExpr c st with
      | .error er => .error er
      | .ok (s, st₁) => .ok ("WHERE " ++ s, st₁)

def pgVisitGroupBy : GroupByClause → St → Except PyErr (String × St)
  | .groupByClauseNode es, st =>
      match pgVisitExprList es st with
      | .error er => .error er
      | .ok (ss, st₁) => .ok ("GROUP BY " ++ pyJoin ", " ss, st₁)

def pgVisitHaving : Having → St → Except PyErr (String × St)
  | .havingClauseNode c, st =>
      match pgVisitExpr c st with
      | .error er => .error er
      | .ok (s, st₁) => .ok ("HAVING " ++ s, st₁)

def pgVisitOrderBy : OrderBy → St → Except PyErr (String × St)
  | .orderByClauseNode e dir, st =>
      match pgVisitExpr e st with
      | .error er => .error er
      | .ok (s, st₁) => .ok (s ++ " " ++ dir, st₁)

def pgVisitOrderByList : List OrderBy → St → Except PyErr (List String × St)
  | [], st => .ok ([], st)
  | o :: os, st =>
      match pgVisitOrderBy o st with
      | .error er => .error er
      | .ok (s, st₁) =>
          match pgVisitOrderByList os st₁ with
          | .error er => .error er
          | .ok (ss, st₂) => .ok (s :: ss, st₂)

def pgFromSection : Option FromClause → St → Except PyErr (List String × St)
  | none, st => .ok ([], st)
  | some ft, st =>
      match pgVisitFrom ft st with
      | .error er => .error er
      | .ok (s, st₁) => .ok (["FROM", s], st₁)

def pgWhereSection : Option Where → St → Except PyErr (List String × St)
  | none, st => .ok ([], st)
  | some w, st =>
      match pgVisitWhere w st with
      | .error er => .error er
      | .ok (s, st₁) => .ok ([s], st₁)

def pgGroupSection : Option GroupByClause → St → Except PyErr (List String × St)
  | none, st => .ok ([], st)
  | some g, st =>
      match pgVisitGroupBy g st with
      | .error er => .error er
      | .ok (s, st₁) => .ok ([s], st₁)

def pgHavingSection : Option Having → St → Except PyErr (List String × St)
  | none, st => .ok ([], st)
  | some h, st =>
      match pgVisitHaving h st with
      | .error er => .error er
      | .ok (s, st₁) => .ok ([s], st₁)

/-- The `order_by_sql` string of `visit_SelectStatementNode` before TOP
synthesis: empty when the clause is `None` or an empty list. -/
def pgOrderBySection : Option (List OrderBy) → St → Except PyErr (String × St)
  | none, st => .ok ("", st)
  | some items, st =>
      if items.isEmpty then .ok ("", st)
      else
        match pgVisitOrderByList items st with
        | .error er => .error er
        | .ok (ss, st₁) => .ok ("ORDER BY " ++ pyJoin ", " ss, st₁)

/-- Implicit TOP ordering: when a TOP clause carries `on_expression` and no
explicit ORDER BY text was produced, synthesize `ORDER BY expr direction`. -/
def pgTopOrderSection : Option Top → String → St → Except PyErr (String × St)
  | some (.topClauseNode _ (some e) dir), obSql, st =>
      if obSql = "" then
        match pgVisitExpr e st with
        | .error er => .error er
        | .ok (s, st₁) => .ok ("ORDER BY " ++ (s ++ " " ++ dir), st₁)
      else .ok (obSql, st)
  | _, obSql, st => .ok (obSql, st)

def pgVisitSelect : Select → St → Except PyErr (String × St)
  | .mk sl dist _ctes ft wc gb hc ob tc lim off _lk, st =>
      if tc.isSome && (lim.isSome || off.isSome) then
        .error (.valueError "TOP clause is mutually exclusive with LIMIT and OFFSET.")
      else
        match pgVisitExprList sl st with
        | .error er => .error er
        | .ok (items, st₁) =>
            match pgFromSection ft st₁ with
            | .error er => .error er
            | .ok (fromL, st₂) =>
                match pgWhereSection wc st₂ with
                | .error er => .error er
                | .ok (whereL, st₃) =>
                    match pgGroupSection gb st₃ with
                    | .error er => .error er
                    | .ok (groupL, st₄) =>
                        match pgHavingSection hc st₄ with
                        | .error er => .error er
                        | .ok (havL, st₅) =>
                            match pgOrderBySection ob st₅ with
                            | .error er => .error er
                            | .ok (obSql, st₆) =>
                                match pgTopOrderSection tc obSql st₆ with
                                | .error er => .error er
                                | .ok (obSql₂, st₇) =>
                                    .ok (pyJoin " "
                                      (["SELECT"] ++
                                        (if dist then ["DISTINCT"] else []) ++
                                        [pyJoin ", " items] ++ fromL ++ whereL ++
                                        groupL ++ havL ++
                                        (if obSql₂ ≠ "" then [obSql₂] else []) ++
                                        limitParts lim ++ offsetParts off ++
                                        topLimitParts tc), st₇)

def pgVisitSetList : List (String × Expr) → St → Except PyErr (List String × St)
  | [], st => .ok ([], st)
  | (col, e) :: rest, st =>
      match pgVisitExpr e st with
      | .error er => .error er
      | .ok (s, st₁) =>
          match pgVisitSetList rest st₁ with
          | .error er => .error er
          | .ok (ss, st₂) => .ok ((col ++ " = " ++ s) :: ss, st₂)

def pgVisitStmt : Stmt → St → Except PyErr (String × St)
  | .selectStatementNode n, st => pgVisitSelect n st
  | .deleteStatementNode table wc _ret, st =>
      match pgWhereSection wc st with
      | .error er => .error er
      | .ok (whereL, st₁) =>
          .ok (pyJoin " " (["DELETE FROM", pgVisitTableNode table] ++ whereL), st₁)
  | .insertStatementNode table values columns _rows _ups _ret, st =>
      let cols :=
        if truthyList columns then
          " (" ++ pyJoin ", " ((columns.getD []).map ColumnRef.name) ++ ")"
        else ""
      match values with
      | none =>
          .error (.typeError "\x27NoneType\x27 object is not iterable")
      | some vs =>
          match pgVisitExprList vs st with
          | .error er => .error er
          | .ok (ss, st₁) =>
              .ok ("INSERT INTO " ++ pgVisitTableNode table ++ cols ++
                " VALUES (" ++ pyJoin ", " ss ++ ")", st₁)
  | .updateStatementNode table sets wc _ret, st =>
      match pgVisitSetList sets st with
      | .error er => .error er
      | .ok (ss, st₁) =>
          match pgWhereSection wc st₁ with
          | .error er => .error er
          | .ok (whereL, st₂) =>
              .ok (pyJoin " "
                (["UPDATE " ++ pgVisitTableNode table ++ " SET " ++ pyJoin ", " ss] ++
                  whereL), st₂)
  | .unionNode l r all, st =>
      match pgVisitStmt l st with
      | .error er => .error er
      | .ok (ls, st₁) =>
          match pgVisitStmt r st₁ with
          | .error er => .error er
          | .ok (rs, st₂) =>
              .ok ("(" ++ ls ++ " " ++ (if all then "UNION ALL" else "UNION") ++
                " " ++ rs ++ ")", st₂)
  | .intersectNode l r all, st =>
      match pgVisitStmt l st with
      | .error er => .error er
      | .ok (ls, st₁) =>
          match pgVisitStmt r st₁ with
          | .error er => .error er
          | .ok (rs, st₂) =>
              .ok ("(" ++ ls ++ " " ++ (if all then "INTERSECT ALL" else "INTERSECT") ++
                " " ++ rs ++ ")", st₂)
  | .exceptNode l r all, st =>
      match pgVisitStmt l st with
      | .error er => .error er
      | .ok (ls, st₁) =>
          match pgVisitStmt r st₁ with
          | .error er => .error er
          | .ok (rs, st₂) =>
              .ok ("(" ++ ls ++ " " ++ (if all then "EXCEPT ALL" else "EXCEPT") ++
                " " ++ rs ++ ")", st₂)

end

/-- `PostgresCompiler.compile`: reset `_params`, walk the root, return the
compiled query. -/
def pgCompile (node : Stmt) : Except PyErr CompiledQuery :=
  match pgVisitStmt node [] with
  | .error er => .error er
  | .ok (s, ps) => .ok ⟨s, ps⟩

example :
    pgCompile (.selectStatementNode (.mk [.columnNode "name" none] false none
      (some (.tableNode ⟨"users", none, none⟩))
      (some (.whereClauseNode (.binaryOperationNode (.columnNode "age" none) ">"
        (.literalNode (.int 25))))) none none none none none none none)) =
    .ok ⟨"SELECT name FROM users WHERE (age > %s)", [.int 25]⟩ := rfl

/-! ## MySQL compiler (`compiler/mysql/mysql_compiler.py`)

Relative to Postgres it renders table aliases, CTEs, subqueries, window
OVER clauses and lock clauses, emits set operations without outer
parentheses, and rejects INTERSECT/EXCEPT. -/

/-- Optional trailing ` AS alias` on subqueries. -/
def aliasSuffix : Option String → String
  | some a => " AS " ++ a
  | none => ""

/-- `visit_TableNode` (schema-qualified, with alias). -/
def mysqlVisitTableNode (t : Table) : String :=
  let n := match t.schema with
    | some sc => sc ++ "." ++ t.name
    | none => t.name
  match t.tableAlias with
  | some a => n ++ " AS " ++ a
  | none => n

/-- `visit_LockClauseNode` (no parameters are bound). -/
def mysqlVisitLockClauseNode (lk : Lock) : Except PyErr String :=
  let mode := lk.mode.trim.toUpper
  if mode ≠ "UPDATE" ∧ mode ≠ "SHARE" then
    .error (.valueError "MySQL lock mode must be \x27UPDATE\x27 or \x27SHARE\x27.")
  else if lk.nowait ∧ lk.skip_locked then
    .error (.valueError "NOWAIT and SKIP LOCKED are mutually exclusive.")
  else
    .ok (pyJoin " " (["FOR " ++ mode] ++ (if lk.nowait then ["NOWAIT"] else []) ++
      (if lk.skip_locked then ["SKIP LOCKED"] else [])))

mutual

def mysqlVisitExpr : Expr → St → Except PyErr (String × St)
  | .literalNode v, st => .ok ("%s", st ++ [v])
  | .columnNode name table, st => .ok (pgVisitColumnNode name table, st)
  | .binaryOperationNode l op r, st =>
      match mysqlVisitExpr l st with
      | .error e => .error e
      | .ok (ls, st₁) =>
          match mysqlVisitExpr r st₁ with
          | .error e => .error e
          | .ok (rs, st₂) => .ok ("(" ++ ls ++ " " ++ op ++ " " ++ rs ++ ")", st₂)
  | .starNode, st => .ok ("*", st)
  | .aliasNode e name, st =>
      match mysqlVisitExpr e st with
      | .error er => .error er
      | .ok (s, st₁) => .ok (s ++ " AS " ++ name, st₁)
  | .castNode e dt, st =>
      match mysqlVisitExpr e st with
      | .error er => .error er
      | .ok (s, st₁) => .ok ("CAST(" ++ s ++ " AS " ++ dt ++ ")", st₁)
  | .functionCallNode name args over, st =>
      match mysqlVisitExprList args st with
      | .error er => .error er
      | .ok (ss, st₁) =>
          match mysqlOverSection over st₁ with
          | .error er => .error er
          | .ok (ovSuffix, st₂) =>
              .ok (name ++ "(" ++ pyJoin ", " ss ++ ")" ++ ovSuffix, st₂)
  | .unaryOperationNode op e, st =>
      match mysqlVisitExpr e st with
      | .error er => .error er
      | .ok (s, st₁) => .ok ("(" ++ op ++ " " ++ s ++ ")", st₁)
  | .inNode e vals neg, st =>
      match mysqlVisitExpr e st with
      | .error er => .error er
      | .ok (es, st₁) =>
          match mysqlVisitExprList vals st₁ with
          | .error er => .error er
          | .ok (vs, st₂) =>
              .ok ("(" ++ es ++ " " ++ (if neg then "NOT IN" else "IN") ++ " (" ++
                pyJoin ", " vs ++ "))", st₂)
  | .betweenNode e lo hi neg, st =>
      match mysqlVisitExpr e st with
      | .error er => .error er
      | .ok (es, st₁) =>
          match mysqlVisitExpr lo st₁ with
          | .error er => .error er
          | .ok (los, st₂) =>
              match mysqlVisitExpr hi st₂ with
              | .error er => .error er
              | .ok (his, st₃) =>
                  .ok ("(" ++ es ++ " " ++ (if neg then "NOT BETWEEN" else "BETWEEN") ++
                    " " ++ los ++ " AND " ++ his ++ ")", st₃)
  | .caseExpressionNode cases else_result, st =>
      match mysqlVisitWhenThenList cases st with
      | .error er => .error er
      | .ok (cs, st₁) =>
          match mysqlElseSection else_result st₁ with
          | .error er => .error er
          | .ok (elseL, st₂) =>
              .ok (pyJoin " " (["CASE"] ++ cs ++ elseL ++ ["END"]), st₂)
  | .subqueryNode sel subAlias, st =>
      match mysqlVisitSelect sel st with
      | .error er => .error er
      | .ok (s, st₁) => .ok ("(" ++ s ++ ")" ++ aliasSuffix subAlias, st₁)

def mysqlElseSection : Option Expr → St → Except PyErr (List String × St)
  | none, st => .ok ([], st)
  | some e, st =>
      match mysqlVisitExpr e st with
      | .error er => .error er
      | .ok (es, st₁) => .ok (["ELSE " ++ es], st₁)

def mysqlOverSection : Option OverClause → St → Except PyErr (String × St)
  | none, st => .ok ("", st)
  | some ov, st =>
      match mysqlVisitOverClauseNode ov st with
      | .error er => .error er
      | .ok (ovs, st₁) => .ok (" OVER " ++ ovs, st₁)

def mysqlVisitExprList : List Expr → St → Except PyErr (List String × St)
  | [], st => .ok ([], st)
  | e :: es, st =>
      match mysqlVisitExpr e st with
      | .error er => .error er
      | .ok (s, st₁) =>
          match mysqlVisitExprList es st₁ with
          | .error er => .error er
          | .ok (ss, st₂) => .ok (s :: ss, st₂)

def mysqlVisitWhenThen : WhenThen → St → Except PyErr (String × St)
  | .whenThenNode c r, st =>
      match mysqlVisitExpr c st with
      | .error er => .error er
      | .ok (cs, st₁) =>
          match mysqlVisitExpr r st₁ with
          | .error er => .error er
          | .ok (rs, st₂) => .ok ("WHEN " ++ cs ++ " THEN " ++ rs, st₂)

def mysqlVisitWhenThenList : List WhenThen → St → Except PyErr (List String × St)
  | [], st => .ok ([], st)
  | w :: ws, st =>
      match mysqlVisitWhenThen w st with
      | .error er => .error er
      | .ok (s, st₁) =>
          match mysqlVisitWhenThenList ws st₁ with
          | .error er => .error er
          | .ok (ss, st₂) => .ok (s :: ss, st₂)

def mysqlVisitOverClauseNode : OverClause → St → Except PyErr (String × St)
  | .overClauseNode partition_by order_by, st =>
      match mysqlOverPartitionSection partition_by st with
      | .error er => .error er
      | .ok (pL, st₁) =>
          match mysqlOverOrderSection order_by st₁ with
          | .error er => .error er
          | .ok (oL, st₂) => .ok ("(" ++ pyJoin " " (pL ++ oL) ++ ")", st₂)

def mysqlOverPartitionSection : Option (List Expr) → St → Except PyErr (List String × St)
  | none, st => .ok ([], st)
  | some es, st =>
      if es.isEmpty then .ok ([], st)
      else
        match mysqlVisitExprList es st with
        | .error er => .error er
        | .ok (ss, st₁) => .ok (["PARTITION BY " ++ pyJoin ", " ss], st₁)

def mysqlOverOrderSection : Option (List OrderBy) → St → Except PyErr (List String × St)
  | none, st => .ok ([], st)
  | some items, st =>
      if items.isEmpty then .ok ([], st)
      else
        match mysqlVisitOrderByList items st with
        | .error er => .error er
        | .ok (ss, st₁) => .ok (["ORDER BY " ++ pyJoin ", " ss], st₁)

def mysqlVisitFrom : FromClause → St → Except PyErr (String × St)
  | .tableNode t, st => .ok (mysqlVisitTableNode t, st)
  | .joinClauseNode l r on_c jt, st =>
      match mysqlVisitFrom l st with
      | .error er => .error er
      | .ok (ls, st₁) =>
          match mysqlVisitFrom r st₁ with
          | .error er => .error er
          | .ok (rs, st₂) =>
              match mysqlVisitExpr on_c st₂ with
              | .error er => .error er
              | .ok (os, st₃) =>
                  .ok (ls ++ " " ++ jt ++ " JOIN " ++ rs ++ " ON " ++ os, st₃)
  | .subqueryNode sel subAlias, st =>
      match mysqlVisitSelect sel st with
      | .error er => .error er
      | .ok (s, st₁) => .ok ("(" ++ s ++ ")" ++ aliasSuffix subAlias, st₁)

def mysqlVisitWhere : Where → St → Except PyErr (String × St)
  | .whereClauseNode c, st =>
      match mysqlVisitExpr c st with
      | .error er => .error er
      | .ok (s, st₁) => .ok ("WHERE " ++ s, st₁)

def mysqlVisitGroupBy : GroupByClause → St → Except PyErr (String × St)
  | .groupByClauseNode es, st =>
      match mysqlVisitExprList es st with
      | .error er => .error er
      | .ok (ss, st₁) => .ok ("GROUP BY " ++ pyJoin ", " ss, st₁)

def mysqlVisitHaving : Having → St → Except PyErr (String × St)
  | .havingClauseNode c, st =>
      match mysqlVisitExpr c st with
      | .error er => .error er
      | .ok (s, st₁) => .ok ("HAVING " ++ s, st₁)

def mysqlVisitOrderBy : OrderBy → St → Except PyErr (String × St)
  | .orderByClauseNode e dir, st =>
      match mysqlVisitExpr e st with
      | .error er => .error er
      | .ok (s, st₁) => .ok (s ++ " " ++ dir, st₁)

def mysqlVisitOrderByList : List OrderBy → St → Except PyErr (List String × St)
  | [], st => .ok ([], st)
  | o :: os, st =>
      match mysqlVisitOrderBy o st with
      | .error er => .error er
      | .ok (s, st₁) =>
          match mysqlVisitOrderByList os st₁ with
          | .error er => .error er
          | .ok (ss, st₂) => .ok (s :: ss, st₂)

def mysqlVisitCte : Cte → St → Except PyErr (String × St)
  | .cteNode name sub, st =>
      match mysqlVisitSelect sub st with
      | .error er => .error er
      | .ok (s, st₁) => .ok (name ++ " AS (" ++ s ++ ")", st₁)

def mysqlVisitCteList : List Cte → St → Except PyErr (List String × St)
  | [], st => .ok ([], st)
  | c :: cs, st =>
      match mysqlVisitCte c st with
      | .error er => .error er
      | .ok (s, st₁) =>
          match mysqlVisitCteList cs st₁ with
          | .error er => .error er
          | .ok (ss, st₂) => .ok (s :: ss, st₂)

def mysqlCteSection : Option (List Cte) → St → Except PyErr (List String × St)
  | none, st => .ok ([], st)
  | some cl, st =>
      if cl.isEmpty then .ok ([], st)
      else
        match mysqlVisitCteList cl st with
        | .error er => .error er
        | .ok (ss, st₁) => .ok (["WITH " ++ pyJoin ", " ss], st₁)

def mysqlFromSection : Option FromClause → St → Except PyErr (List String × St)
  | none, st => .ok ([], st)
  | some ft, st =>
      match mysqlVisitFrom ft st with
      | .error er => .error er
      | .ok (s, st₁) => .ok (["FROM", s], st₁)

def mysqlWhereSection : Option Where → St → Except PyErr (List String × St)
  | none, st => .ok ([], st)
  | some w, st =>
      match mysqlVisitWhere w st with
      | .error er => .error er
      | .ok (s, st₁) => .ok ([s], st₁)

def mysqlGroupSection : Option GroupByClause → St → Except PyErr (List String × St)
  | none, st => .ok ([], st)
  | some g, st =>
      match mysqlVisitGroupBy g st with
      | .error er => .error er
      | .ok (s, st₁) => .ok ([s], st₁)

def mysqlHavingSection : Option Having → St → Except PyErr (List String × St)
  | none, st => .ok ([], st)
  | some h, st =>
      match mysqlVisitHaving h st with
      | .error er => .error er
      | .ok (s, st₁) => .ok ([s], st₁)

def mysqlOrderBySection : Option (List OrderBy) → St → Except PyErr (String × St)
  | none, st => .ok ("", st)
  | some items, st =>
      if items.isEmpty then .ok ("", st)
      else
        match mysqlVisitOrderByList items st with
        | .error er => .error er
        | .ok (ss, st₁) => .ok ("ORDER BY " ++ pyJoin ", " ss, st₁)

def mysqlTopOrderSection : Option Top → String → St → Except PyErr (String × St)
  | some (.topClauseNode _ (some e) dir), obSql, st =>
      if obSql = "" then
        match mysqlVisitExpr e st with
        | .error er => .error er
        | .ok (s, st₁) => .ok ("ORDER BY " ++ (s ++ " " ++ dir), st₁)
      else .ok (obSql, st)
  | _, obSql, st => .ok (obSql, st)

def mysqlLockSection : Option Lock → St → Except PyErr (List String × St)
  | none, st => .ok ([], st)
  | some lk, st =>
      match mysqlVisitLockClauseNode lk with
      | .error er => .error er
      | .ok s => .ok ([s], st)

def mysqlVisitSelect : Select → St → Except PyErr (String × St)
  | .mk sl dist ctes ft wc gb hc ob tc lim off lk, st =>
      if tc.isSome && (lim.isSome || off.isSome) then
        .error (.valueError "TOP clause is mutually exclusive with LIMIT and OFFSET.")
      else
        match mysqlCteSection ctes st with
        | .error er => .error er
        | .ok (cteL, st₀) =>
            match mysqlVisitExprList sl st₀ with
            | .error er => .error er
            | .ok (items, st₁) =>
                match mysqlFromSection ft st₁ with
                | .error er => .error er
                | .ok (fromL, st₂) =>
                    match mysqlWhereSection wc st₂ with
                    | .error er => .error er
                    | .ok (whereL, st₃) =>
                        match mysqlGroupSection gb st₃ with
                        | .error er => .error er
                        | .ok (groupL, st₄) =>
                            match mysqlHavingSection hc st₄ with
                            | .error er => .error er
                            | .ok (havL, st₅) =>
                                match mysqlOrderBySection ob st₅ with
                                | .error er => .error er
                                | .ok (obSql, st₆) =>
                                    match mysqlTopOrderSection tc obSql st₆ with
                                    | .error er => .error er
                                    | .ok (obSql₂, st₇) =>
                                        match mysqlLockSection lk st₇ with
                                        | .error er => .error er
                                        | .ok (lockL, st₈) =>
                                            .ok (pyJoin " "
                                              (cteL ++ ["SELECT"] ++
                                                (if dist then ["DISTINCT"] else []) ++
                                                [pyJoin ", " items] ++ fromL ++ whereL ++
                                                groupL ++ havL ++
                                                (if obSql₂ ≠ "" then [obSql₂] else []) ++
                                                limitParts lim ++ offsetParts off ++
                                                topLimitParts tc ++ lockL), st₈)

def mysqlVisitSetList : List (String × Expr) → St → Except PyErr (List String × St)
  | [], st => .ok ([], st)
  | (col, e) :: rest, st =>
      match mysqlVisitExpr e st with
      | .error er => .error er
      | .ok (s, st₁) =>
          match mysqlVisitSetList rest st₁ with
          | .error er => .error er
          | .ok (ss, st₂) => .ok ((col ++ " = " ++ s) :: ss, st₂)

def mysqlVisitStmt : Stmt → St → Except PyErr (String × St)
  | .selectStatementNode n, st => mysqlVisitSelect n st
  | .deleteStatementNode table wc _ret, st =>
      match mysqlWhereSection wc st with
      | .error er => .error er
      | .ok (whereL, st₁) =>
          .ok (pyJoin " " (["DELETE FROM", mysqlVisitTableNode table] ++ whereL), st₁)
  | .insertStatementNode table values columns _rows _ups _ret, st =>
      let cols :=
        if truthyList columns then
          " (" ++ pyJoin ", " ((columns.getD []).map ColumnRef.name) ++ ")"
        else ""
      match values with
      | none =>
          .error (.typeError "\x27NoneType\x27 object is not iterable")
      | some vs =>
          match mysqlVisitExprList vs st with
          | .error er => .error er
          | .ok (ss, st₁) =>
              .ok ("INSERT INTO " ++ mysqlVisitTableNode table ++ cols ++
                " VALUES (" ++ pyJoin ", " ss ++ ")", st₁)
  | .updateStatementNode table sets wc _ret, st =>
      match mysqlVisitSetList sets st with
      | .error er => .error er
      | .ok (ss, st₁) =>
          match mysqlWhereSection wc st₁ with
          | .error er => .error er
          | .ok (whereL, st₂) =>
              .ok (pyJoin " "
                (["UPDATE " ++ mysqlVisitTableNode table ++ " SET " ++ pyJoin ", " ss] ++
                  whereL), st₂)
  | .unionNode l r all, st =>
      match mysqlVisitStmt l st with
      | .error er => .error er
      | .ok (ls, st₁) =>
          match mysqlVisitStmt r st₁ with
          | .error er => .error er
          | .ok (rs, st₂) =>
              .ok (ls ++ " " ++ (if all then "UNION ALL" else "UNION") ++ " " ++ rs, st₂)
  | .intersectNode _ _ _, _st =>
      .error (.valueError "MySQL does not support INTERSECT.")
  | .exceptNode _ _ _, _st =>
      .error (.valueError "MySQL does not support EXCEPT.")

end

/-- `MySqlCompiler.compile`. -/
def mysqlCompile (node : Stmt) : Except PyErr CompiledQuery :=
  match mysqlVisitStmt node [] with
  | .error er => .error er
  | .ok (s, ps) => .ok ⟨s, ps⟩

/-! ## MariaDB compiler (`compiler/mariadb/mariadb_compiler.py`)

Placeholder style `?`.  Adds INSERT `rows` validation, the ON DUPLICATE
KEY UPDATE upsert lowering and RETURNING clauses. -/

/-- `visit_TableNode`. -/
def mariadbVisitTableNode (t : Table) : String :=
  let n := match t.schema with
    | some sc => sc ++ "." ++ t.name
    | none => t.name
  match t.tableAlias with
  | some a => n ++ " AS " ++ a
  | none => n

/-- `visit_LockClauseNode`. -/
def mariadbVisitLockClauseNode (lk : Lock) : Except PyErr String :=
  let mode := lk.mode.trim.toUpper
  if mode ≠ "UPDATE" ∧ mode ≠ "SHARE" then
    .error (.valueError "MariaDB lock mode must be \x27UPDATE\x27 or \x27SHARE\x27.")
  else if lk.nowait ∧ lk.skip_locked then
    .error (.valueError "NOWAIT and SKIP LOCKED are mutually exclusive.")
  else
    .ok (pyJoin " " (["FOR " ++ mode] ++ (if lk.nowait then ["NOWAIT"] else []) ++
      (if lk.skip_locked then ["SKIP LOCKED"] else [])))

/-- `_compile_upsert_clause` (binds no parameters). -/
def mariadbCompileUpsertClause (clause : Upsert) : Except PyErr String :=
  if clause.conflict_target.isSome then
    .error (.valueError "MariaDB upsert does not accept conflict_target.")
  else if clause.do_nothing then
    .error (.valueError "MariaDB upsert does not support do_nothing.")
  else if ¬ truthyList clause.update_columns then
    .error (.valueError "MariaDB upsert requires update_columns.")
  else
    .ok ("ON DUPLICATE KEY UPDATE " ++
      pyJoin ", " ((clause.update_columns.getD []).map
        (fun col => col ++ " = VALUES(" ++ col ++ ")")))

/-- Optional ` ON DUPLICATE KEY UPDATE …` suffix of an INSERT. -/
def mariadbUpsSuffix : Option Upsert → Except PyErr String
  | none => .ok ""
  | some clause =>
      match mariadbCompileUpsertClause clause with
      | .error er => .error er
      | .ok s => .ok (" " ++ s)

mutual

def mariadbVisitExpr : Expr → St → Except PyErr (String × St)
  | .literalNode v, st => .ok ("?", st ++ [v])
  | .columnNode name table, st => .ok (pgVisitColumnNode name table, st)
  | .binaryOperationNode l op r, st =>
      match mariadbVisitExpr l st with
      | .error e => .error e
      | .ok (ls, st₁) =>
          match mariadbVisitExpr r st₁ with
          | .error e => .error e
          | .ok (rs, st₂) => .ok ("(" ++ ls ++ " " ++ op ++ " " ++ rs ++ ")", st₂)
  | .starNode, st => .ok ("*", st)
  | .aliasNode e name, st =>
      match mariadbVisitExpr e st with
      | .error er => .error er
      | .ok (s, st₁) => .ok (s ++ " AS " ++ name, st₁)
  | .castNode e dt, st =>
      match mariadbVisitExpr e st with
      | .error er => .error er
      | .ok (s, st₁) => .ok ("CAST(" ++ s ++ " AS " ++ dt ++ ")", st₁)
  | .functionCallNode name args over, st =>
      match mariadbVisitExprList args st with
      | .error er => .error er
      | .ok (ss, st₁) =>
          match mariadbOverSection over st₁ with
          | .error er => .error er
          | .ok (ovSuffix, st₂) =>
              .ok (name ++ "(" ++ pyJoin ", " ss ++ ")" ++ ovSuffix, st₂)
  | .unaryOperationNode op e, st =>
      match mariadbVisitExpr e st with
      | .error er => .error er
      | .ok (s, st₁) => .ok ("(" ++ op ++ " " ++ s ++ ")", st₁)
  | .inNode e vals neg, st =>
      match mariadbVisitExpr e st with
      | .error er => .error er
      | .ok (es, st₁) =>
          match mariadbVisitExprList vals st₁ with
          | .error er => .error er
          | .ok (vs, st₂) =>
              .ok ("(" ++ es ++ " " ++ (if neg then "NOT IN" else "IN") ++ " (" ++
                pyJoin ", " vs ++ "))", st₂)
  | .betweenNode e lo hi neg, st =>
      match mariadbVisitExpr e st with
      | .error er => .error er
      | .ok (es, st₁) =>
          match mariadbVisitExpr lo st₁ with
          | .error er => .error er
          | .ok (los, st₂) =>
              match mariadbVisitExpr hi st₂ with
              | .error er => .error er
              | .ok (his, st₃) =>
                  .ok ("(" ++ es ++ " " ++ (if neg then "NOT BETWEEN" else "BETWEEN") ++
                    " " ++ los ++ " AND " ++ his ++ ")", st₃)
  | .caseExpressionNode cases else_result, st =>
      match mariadbVisitWhenThenList cases st with
      | .error er => .error er
      | .ok (cs, st₁) =>
          match mariadbElseSection else_result st₁ with
          | .error er => .error er
          | .ok (elseL, st₂) =>
              .ok (pyJoin " " (["CASE"] ++ cs ++ elseL ++ ["END"]), st₂)
  | .subqueryNode sel subAlias, st =>
      match mariadbVisitSelect sel st with
      | .error er => .error er
      | .ok (s, st₁) => .ok ("(" ++ s ++ ")" ++ aliasSuffix subAlias, st₁)

def mariadbElseSection : Option Expr → St → Except PyErr (List String × St)
  | none, st => .ok ([], st)
  | some e, st =>
      match mariadbVisitExpr e st with
      | .error er => .error er
      | .ok (es, st₁) => .ok (["ELSE " ++ es], st₁)

def mariadbOverSection : Option OverClause → St → Except PyErr (String × St)
  | none, st => .ok ("", st)
  | some ov, st =>
      match mariadbVisitOverClauseNode ov st with
      | .error er => .error er
      | .ok (ovs, st₁) => .ok (" OVER " ++ ovs, st₁)

def mariadbVisitExprList : List Expr → St → Except PyErr (List String × St)
  | [], st => .ok ([], st)
  | e :: es, st =>
      match mariadbVisitExpr e st with
      | .error er => .error er
      | .ok (s, st₁) =>
          match mariadbVisitExprList es st₁ with
          | .error er => .error er
          | .ok (ss, st₂) => .ok (s :: ss, st₂)

def mariadbVisitWhenThen : WhenThen → St → Except PyErr (String × St)
  | .whenThenNode c r, st =>
      match mariadbVisitExpr c st with
      | .error er => .error er
      | .ok (cs, st₁) =>
          match mariadbVisitExpr r st₁ with
          | .error er => .error er
          | .ok (rs, st₂) => .ok ("WHEN " ++ cs ++ " THEN " ++ rs, st₂)

def mariadbVisitWhenThenList : List WhenThen → St → Except PyErr (List String × St)
  | [], st => .ok ([], st)
  | w :: ws, st =>
      match mariadbVisitWhenThen w st with
      | .error er => .error er
      | .ok (s, st₁) =>
          match mariadbVisitWhenThenList ws st₁ with
          | .error er => .error er
          | .ok (ss, st₂) => .ok (s :: ss, st₂)

def mariadbVisitOverClauseNode : OverClause → St → Except PyErr (String × St)
  | .overClauseNode partition_by order_by, st =>
      match mariadbOverPartitionSection partition_by st with
      | .error er => .error er
      | .ok (pL, st₁) =>
          match mariadbOverOrderSection order_by st₁ with
          | .error er => .error er
          | .ok (oL, st₂) => .ok ("(" ++ pyJoin " " (pL ++ oL) ++ ")", st₂)

def mariadbOverPartitionSection :
    Option (List Expr) → St → Except PyErr (List String × St)
  | none, st => .ok ([], st)
  | some es, st =>
      if es.isEmpty then .ok ([], st)
      else
        match mariadbVisitExprList es st with
        | .error er => .error er
        | .ok (ss, st₁) => .ok (["PARTITION BY " ++ pyJoin ", " ss], st₁)

def mariadbOverOrderSection :
    Option (List OrderBy) → St → Except PyErr (List String × St)
  | none, st => .ok ([], st)
  | some items, st =>
      if items.isEmpty then .ok ([], st)
      else
        match mariadbVisitOrderByList items st with
        | .error er => .error er
        | .ok (ss, st₁) => .ok (["ORDER BY " ++ pyJoin ", " ss], st₁)

def mariadbVisitFrom : FromClause → St → Except PyErr (String × St)
  | .tableNode t, st => .ok (mariadbVisitTableNode t, st)
  | .joinClauseNode l r on_c jt, st =>
      match mariadbVisitFrom l st with
      | .error er => .error er
      | .ok (ls, st₁) =>
          match mariadbVisitFrom r st₁ with
          | .error er => .error er
          | .ok (rs, st₂) =>
              match mariadbVisitExpr on_c st₂ with
              | .error er => .error er
              | .ok (os, st₃) =>
                  .ok (ls ++ " " ++ jt ++ " JOIN " ++ rs ++ " ON " ++ os, st₃)
  | .subqueryNode sel subAlias, st =>
      match mariadbVisitSelect sel st with
      | .error er => .error er
      | .ok (s, st₁) => .ok ("(" ++ s ++ ")" ++ aliasSuffix subAlias, st₁)

def mariadbVisitWhere : Where → St → Except PyErr (String × St)
  | .whereClauseNode c, st =>
      match mariadbVisitExpr c st with
      | .error er => .error er
      | .ok (s, st₁) => .ok ("WHERE " ++ s, st₁)

def mariadbVisitGroupBy : GroupByClause → St → Except PyErr (String × St)
  | .groupByClauseNode es, st =>
      match mariadbVisitExprList es st with
      | .error er => .error er
      | .ok (ss, st₁) => .ok ("GROUP BY " ++ pyJoin ", " ss, st₁)

def mariadbVisitHaving : Having → St → Except PyErr (String × St)
  | .havingClauseNode c, st =>
      match mariadbVisitExpr c st with
      | .error er => .error er
      | .ok (s, st₁) => .ok ("HAVING " ++ s, st₁)

def mariadbVisitOrderBy : OrderBy → St → Except PyErr (String × St)
  | .orderByClauseNode e dir, st =>
      match mariadbVisitExpr e st with
      | .error er => .error er
      | .ok (s, st₁) => .ok (s ++ " " ++ dir, st₁)

def mariadbVisitOrderByList : List OrderBy → St → Except PyErr (List String × St)
  | [], st => .ok ([], st)
  | o :: os, st =>
      match mariadbVisitOrderBy o st with
      | .error er => .error er
      | .ok (s, st₁) =>
          match mariadbVisitOrderByList os st₁ with
          | .error er => .error er
          | .ok (ss, st₂) => .ok (s :: ss, st₂)

def mariadbVisitCte : Cte → St → Except PyErr (String × St)
  | .cteNode name sub, st =>
      match mariadbVisitSelect sub st with
      | .error er => .error er
      | .ok (s, st₁) => .ok (name ++ " AS (" ++ s ++ ")", st₁)

def mariadbVisitCteList : List Cte → St → Except PyErr (List String × St)
  | [], st => .ok ([], st)
  | c :: cs, st =>
      match mariadbVisitCte c st with
      | .error er => .error er
      | .ok (s, st₁) =>
          match mariadbVisitCteList cs st₁ with
          | .error er => .error er
          | .ok (ss, st₂) => .ok (s :: ss, st₂)

def mariadbCteSection : Option (List Cte) → St → Except PyErr (List String × St)
  | none, st => .ok ([], st)
  | some cl, st =>
      if cl.isEmpty then .ok ([], st)
      else
        match mariadbVisitCteList cl st with
        | .error er => .error er
        | .ok (ss, st₁) => .ok (["WITH " ++ pyJoin ", " ss], st₁)

def mariadbFromSection : Option FromClause → St → Except PyErr (List String × St)
  | none, st => .ok ([], st)
  | some ft, st =>
      match mariadbVisitFrom ft st with
      | .error er => .error er
      | .ok (s, st₁) => .ok (["FROM", s], st₁)

def mariadbWhereSection : Option Where → St → Except PyErr (List String × St)
  | none, st => .ok ([], st)
  | some w, st =>
      match mariadbVisitWhere w st with
      | .error er => .error er
      | .ok (s, st₁) => .ok ([s], st₁)

def mariadbGroupSection : Option GroupByClause → St → Except PyErr (List String × St)
  | none, st => .ok ([], st)
  | some g, st =>
      match mariadbVisitGroupBy g st with
      | .error er => .error er
      | .ok (s, st₁) => .ok ([s], st₁)

def mariadbHavingSection : Option Having → St → Except PyErr (List String × St)
  | none, st => .ok ([], st)
  | some h, st =>
      match mariadbVisitHaving h st with
      | .error er => .error er
      | .ok (s, st₁) => .ok ([s], st₁)

def mariadbOrderBySection : Option (List OrderBy) → St → Except PyErr (String × St)
  | none, st => .ok ("", st)
  | some items, st =>
      if items.isEmpty then .ok ("", st)
      else
        match mariadbVisitOrderByList items st with
        | .error er => .error er
        | .ok (ss, st₁) => .ok ("ORDER BY " ++ pyJoin ", " ss, st₁)

def mariadbTopOrderSection : Option Top → String → St → Except PyErr (String × St)
  | some (.topClauseNode _ (some e) dir), obSql, st =>
      if obSql = "" then
        match mariadbVisitExpr e st with
        | .error er => .error er
        | .ok (s, st₁) => .ok ("ORDER BY " ++ (s ++ " " ++ dir), st₁)
      else .ok (obSql, st)
  | _, obSql, st => .ok (obSql, st)

def mariadbLockSection : Option Lock → St → Except PyErr (List String × St)
  | none, st => .ok ([], st)
  | some lk, st =>
      match mariadbVisitLockClauseNode lk with
      | .error er => .error er
      | .ok s => .ok ([s], st)

def mariadbVisitSelect : Select → St → Except PyErr (String × St)
  | .mk sl dist ctes ft wc gb hc ob tc lim off lk, st =>
      if tc.isSome && (lim.isSome || off.isSome) then
        .error (.valueError "TOP clause is mutually exclusive with LIMIT and OFFSET.")
      else
        match mariadbCteSection ctes st with
        | .error er => .error er
        | .ok (cteL, st₀) =>
            match mariadbVisitExprList sl st₀ with
            | .error er => .error er
            | .ok (items, st₁) =>
                match mariadbFromSection ft st₁ with
                | .error er => .error er
                | .ok (fromL, st₂) =>
                    match mariadbWhereSection wc st₂ with
                    | .error er => .error er
                    | .ok (whereL, st₃) =>
                        match mariadbGroupSection gb st₃ with
                        | .error er => .error er
                        | .ok (groupL, st₄) =>
                            match mariadbHavingSection hc st₄ with
                            | .error er => .error er
                            | .ok (havL, st₅) =>
                                match mariadbOrderBySection ob st₅ with
                                | .error er => .error er
                                | .ok (obSql, st₆) =>
                                    match mariadbTopOrderSection tc obSql st₆ with
                                    | .error er => .error er
                                    | .ok (obSql₂, st₇) =>
                                        match mariadbLockSection lk st₇ with
                                        | .error er => .error er
                                        | .ok (lockL, st₈) =>
                                            .ok (pyJoin " "
                                              (cteL ++ ["SELECT"] ++
                                                (if dist then ["DISTINCT"] else []) ++
                                                [pyJoin ", " items] ++ fromL ++ whereL ++
                                                groupL ++ havL ++
                                                (if obSql₂ ≠ "" then [obSql₂] else []) ++
                                                limitParts lim ++ offsetParts off ++
                                                topLimitParts tc ++ lockL), st₈)

def mariadbVisitSetList : List (String × Expr) → St → Except PyErr (List String × St)
  | [], st => .ok ([], st)
  | (col, e) :: rest, st =>
      match mariadbVisitExpr e st with
      | .error er => .error er
      | .ok (s, st₁) =>
          match mariadbVisitSetList rest st₁ with
          | .error er => .error er
          | .ok (ss, st₂) => .ok ((col ++ " = " ++ s) :: ss, st₂)

/-- The per-row loop of `_compile_insert_values`: each row is
width-checked and then rendered as a parenthesized value list. -/
def mariadbVisitRows (expected : Nat) :
    List (List Expr) → St → Except PyErr (List String × St)
  | [], st => .ok ([], st)
  | row :: rest, st =>
      if row.length ≠ expected then
        .error (.valueError "All insert rows must have the same number of values.")
      else
        match mariadbVisitExprList row st with
        | .error er => .error er
        | .ok (ss, st₁) =>
            match mariadbVisitRows expected rest st₁ with
            | .error er => .error er
            | .ok (rs, st₂) => .ok (("(" ++ pyJoin ", " ss ++ ")") :: rs, st₂)

/-- `_compile_insert_values`: the `has_values == has_rows` guard is the
first two equations; the remaining equations are the `values` and `rows`
branches. -/
def mariadbCompileInsertValues :
    Option (List Expr) → Option (List ColumnRef) → Option (List (List Expr)) →
    St → Except PyErr (String × St)
  | some _, _, some _, _st =>
      .error (.valueError "Insert must provide exactly one of values or rows.")
  | none, _, none, _st =>
      .error (.valueError "Insert must provide exactly one of values or rows.")
  | some vs, columns, none, st =>
      if truthyList columns ∧ (columns.getD []).length ≠ vs.length then
        .error (.valueError "Insert columns and values must have the same length.")
      else
        match mariadbVisitExprList vs st with
        | .error er => .error er
        | .ok (ss, st₁) => .ok ("VALUES (" ++ pyJoin ", " ss ++ ")", st₁)
  | none, _, some [], _st =>
      .error (.valueError "Insert rows must include at least one row.")
  | none, columns, some (row₀ :: rest), st =>
      if row₀.length = 0 then
        .error (.valueError "Insert rows cannot be empty.")
      else if truthyList columns ∧ (columns.getD []).length ≠ row₀.length then
        .error (.valueError "Insert columns and row values must have the same length.")
      else
        match mariadbVisitRows row₀.length (row₀ :: rest) st with
        | .error er => .error er
        | .ok (rowSql, st₁) => .ok ("VALUES " ++ pyJoin ", " rowSql, st₁)

/-- `_compile_returning_clause`. -/
def mariadbCompileReturningClause :
    List Expr → St → Except PyErr (String × St) := fun exprs st =>
  if exprs.isEmpty then
    .error (.valueError "RETURNING requires at least one expression.")
  else
    match mariadbVisitExprList exprs st with
    | .error er => .error er
    | .ok (ss, st₁) => .ok ("RETURNING " ++ pyJoin ", " ss, st₁)

def mariadbReturningSection :
    Option (List Expr) → St → Except PyErr (List String × St)
  | none, st => .ok ([], st)
  | some exprs, st =>
      match mariadbCompileReturningClause exprs st with
      | .error er => .error er
      | .ok (s, st₁) => .ok ([s], st₁)

def mariadbVisitStmt : Stmt → St → Except PyErr (String × St)
  | .selectStatementNode n, st => mariadbVisitSelect n st
  | .deleteStatementNode table wc ret, st =>
      match mariadbWhereSection wc st with
      | .error er => .error er
      | .ok (whereL, st₁) =>
          match mariadbReturningSection ret st₁ with
          | .error er => .error er
          | .ok (retL, st₂) =>
              .ok (pyJoin " " (["DELETE FROM", mariadbVisitTableNode table] ++
                whereL ++ retL), st₂)
  | .insertStatementNode table values columns rows ups ret, st =>
      let cols :=
        if truthyList columns then
          " (" ++ pyJoin ", " ((columns.getD []).map ColumnRef.name) ++ ")"
        else ""
      match mariadbCompileInsertValues values columns rows st with
      | .error er => .error er
      | .ok (valuesSql, st₁) =>
          match mariadbUpsSuffix ups with
          | .error er => .error er
          | .ok upsSuffix =>
              match mariadbReturningSection ret st₁ with
              | .error er => .error er
              | .ok (retL, st₂) =>
                  .ok (pyJoin " " (["INSERT INTO " ++ mariadbVisitTableNode table ++
                    cols ++ " " ++ valuesSql ++ upsSuffix] ++ retL), st₂)
  | .updateStatementNode table sets wc ret, st =>
      match mariadbVisitSetList sets st with
      | .error er => .error er
      | .ok (ss, st₁) =>
          match mariadbWhereSection wc st₁ with
          | .error er => .error er
          | .ok (whereL, st₂) =>
              if ret.isSome then
                .error (.valueError
                  "MariaDB does not support UPDATE ... RETURNING in this compiler.")
              else
                .ok (pyJoin " "
                  (["UPDATE " ++ mariadbVisitTableNode table ++ " SET " ++
                    pyJoin ", " ss] ++ whereL), st₂)
  | .unionNode l r all, st =>
      match mariadbVisitStmt l st with
      | .error er => .error er
      | .ok (ls, st₁) =>
          match mariadbVisitStmt r st₁ with
          | .error er => .error er
          | .ok (rs, st₂) =>
              .ok (ls ++ " " ++ (if all then "UNION ALL" else "UNION") ++ " " ++ rs, st₂)
  | .intersectNode l r all, st =>
      match mariadbVisitStmt l st with
      | .error er => .error er
      | .ok (ls, st₁) =>
          match mariadbVisitStmt r st₁ with
          | .error er => .error er
          | .ok (rs, st₂) =>
              .ok (ls ++ " " ++ (if all then "INTERSECT ALL" else "INTERSECT") ++
                " " ++ rs, st₂)
  | .exceptNode l r all, st =>
      match mariadbVisitStmt l st with
      | .error er => .error er
      | .ok (ls, st₁) =>
          match mariadbVisitStmt r st₁ with
          | .error er => .error er
          | .ok (rs, st₂) =>
              .ok (ls ++ " " ++ (if all then "EXCEPT ALL" else "EXCEPT") ++
                " " ++ rs, st₂)

end

/-- `MariaDbCompiler.compile`. -/
def mariadbCompile (node : Stmt) : Except PyErr CompiledQuery :=
  match mariadbVisitStmt node [] with
  | .error er => .error er
  | .ok (s, ps) => .ok ⟨s, ps⟩

example :
    mariadbCompile (.insertStatementNode ⟨"users", none, none⟩ none
      (some [⟨"id"⟩, ⟨"name"⟩])
      (some [[.literalNode (.int 1), .literalNode (.str "a")],
        [.literalNode (.int 2), .literalNode (.str "b")]]) none none) =
    .ok ⟨"INSERT INTO users (id, name) VALUES (?, ?), (?, ?)",
      [.int 1, .str "a", .int 2, .str "b"]⟩ := rfl

/-! ## SQLite compiler -/

/-- Modelled from the spec: the file
`compiler/sqlite/sqlite_compiler.py` (class `SqliteCompiler`) is not among
the provided sources, although `execution/sqlite.py` imports it.  Per the
spec's dialect table the SQLite compiler uses placeholder `?`, translates
TOP to LIMIT and otherwise produces "the same structure" as the Postgres
output on the SELECT/WHERE scenario, so it is modelled as the Postgres
visitor with `?` in `visit_LiteralNode`.  `sqliteVisitExpr` handles the
expression kinds needed by the spec's concrete scenario. -/
def sqliteVisitExpr : Expr → St → Except PyErr (String × St)
  | .literalNode v, st => .ok ("?", st ++ [v])
  | .columnNode name table, st => .ok (pgVisitColumnNode name table, st)
  | .binaryOperationNode l op r, st =>
      match sqliteVisitExpr l st with
      | .error e => .error e
      | .ok (ls, st₁) =>
          match sqliteVisitExpr r st₁ with
          | .error e => .error e
          | .ok (rs, st₂) => .ok ("(" ++ ls ++ " " ++ op ++ " " ++ rs ++ ")", st₂)
  | .starNode, st => .ok ("*", st)
  | _, _st => .error (.notImplementedError "spec model covers the scenario nodes only")

/-- Modelled from the spec: the SQLite `visit_SelectStatementNode` on the
clause subset exercised by the spec's scenario 1 (select list, FROM,
WHERE), with the same emission order as the Postgres compiler. -/
def sqliteVisitSelect : Select → St → Except PyErr (String × St)
  | .mk sl _dist _ctes ft wc _gb _hc _ob _tc _lim _off _lk, st =>
      match sqliteVisitExprList sl st with
      | .error er => .error er
      | .ok (items, st₁) =>
          match ft with
          | none => .error (.notImplementedError "spec model covers the scenario nodes only")
          | some (.tableNode t) =>
              match wc with
              | none =>
                  .ok (pyJoin " " (["SELECT", pyJoin ", " items, "FROM",
                    pgVisitTableNode t]), st₁)
              | some (.whereClauseNode c) =>
                  match sqliteVisitExpr c st₁ with
                  | .error er => .error er
                  | .ok (cs, st₂) =>
                      .ok (pyJoin " " (["SELECT", pyJoin ", " items, "FROM",
                        pgVisitTableNode t, "WHERE " ++ cs]), st₂)
          | some _ => .error (.notImplementedError "spec model covers the scenario nodes only")
where
  sqliteVisitExprList : List Expr → St → Except PyErr (List String × St)
    | [], st => .ok ([], st)
    | e :: es, st =>
        match sqliteVisitExpr e st with
        | .error er => .error er
        | .ok (s, st₁) =>
            match sqliteVisitExprList es st₁ with
            | .error er => .error er
            | .ok (ss, st₂) => .ok (s :: ss, st₂)

/-- Modelled from the spec: `SqliteCompiler.compile` on statement roots. -/
def sqliteCompile (node : Stmt) : Except PyErr CompiledQuery :=
  match node with
  | .selectStatementNode n =>
      match sqliteVisitSelect n [] with
      | .error er => .error er
      | .ok (s, ps) => .ok ⟨s, ps⟩
  | _ => .error (.notImplementedError "spec model covers the scenario nodes only")

/-! ## Error taxonomy and normalization (`execution/errors.py`) -/

/-- A raw driver exception: its `str()` message and the optional
`sqlstate` / `pgcode` / `code` attributes (absent or non-string attributes
are `none`). -/
structure PyException where
  message : String
  sqlstate : Option String := none
  pgcode : Option String := none
  code : Option String := none
deriving Repr, DecidableEq

/-- Substring test on character lists (Python's `pat in hay`). -/
def isSubstringL (pat : List Char) : List Char → Bool
  | [] => pat.isEmpty
  | c :: rest => pat.isPrefixOf (c :: rest) || isSubstringL pat rest

/-- Python's `pat in hay` on strings. -/
def strContains (hay pat : String) : Bool :=
  isSubstringL pat.data hay.data

/-- The normalized error kinds of `execution/errors.py` (one per exception
class). -/
inductive ErrorKind where
  | deadlockError
  | serializationError
  | lockTimeoutError
  | connectionTimeoutError
  | integrityConstraintError
  | programmingExecutionError
  | executionError
deriving Repr, DecidableEq

/-- Which error classes subclass `TransientExecutionError` in
`execution/errors.py`. -/
def ErrorKind.isTransientKind : ErrorKind → Bool
  | .deadlockError => true
  | .serializationError => true
  | .lockTimeoutError => true
  | .connectionTimeoutError => true
  | .integrityConstraintError => false
  | .programmingExecutionError => false
  | .executionError => false

/-- `ExecutionErrorDetails`. -/
structure ExecutionErrorDetails where
  dialect : String
  operation : String
  sqlstate : Option String
  original_message : String
deriving Repr, DecidableEq

/-- A normalized `ExecutionError` value: its class (kind) plus details. -/
structure ExecError where
  kind : ErrorKind
  details : ExecutionErrorDetails
deriving Repr, DecidableEq

/-- `_extract_sqlstate`: `sqlstate`, then `pgcode`, then a five-character
`code`, upper-cased. -/
def extract_sqlstate (exc : PyException) : Option String :=
  match exc.sqlstate with
  | some s =>
      if s ≠ "" then some s.toUpper
      else extractFromPgcode exc
  | none => extractFromPgcode exc
where
  extractFromPgcode (exc : PyException) : Option String :=
    match exc.pgcode with
    | some s =>
        if s ≠ "" then some s.toUpper
        else extractFromCode exc
    | none => extractFromCode exc
  extractFromCode (exc : PyException) : Option String :=
    match exc.code with
    | some s => if s.length = 5 then some s.toUpper else none
    | none => none

/-- `normalize_execution_error`: the first-match cascade over SQLSTATE sets
and lower-cased message substrings. -/
def normalize_execution_error (dialect operation : String) (exc : PyException) :
    ExecError :=
  let sqlstate := extract_sqlstate exc
  let message := exc.message.toLower
  let details : ExecutionErrorDetails :=
    ⟨dialect, operation, sqlstate, exc.message⟩
  if sqlstate = some "40P01" ∨ sqlstate = some "1213" ∨
      strContains message "deadlock" then
    ⟨.deadlockError, details⟩
  else if sqlstate = some "40001" ∨ strContains message "serialization failure" ∨
      strContains message "could not serialize" then
    ⟨.serializationError, details⟩
  else if sqlstate = some "55P03" ∨ sqlstate = some "57014" ∨ sqlstate = some "1205" ∨
      strContains message "lock wait timeout" ∨
      strContains message "database is locked" ∨
      strContains message "lock timeout" then
    ⟨.lockTimeoutError, details⟩
  else if strContains message "connection timed out" ∨
      strContains message "timed out" ∨
      strContains message "login timeout" ∨
      strContains message "could not connect" ∨
      strContains message "connection refused" then
    ⟨.connectionTimeoutError, details⟩
  else if (match sqlstate with | some s => s.take 2 == "23" | none => false) then
    ⟨.integrityConstraintError, details⟩
  else if strContains message "unique constraint" ∨
      strContains message "foreign key constraint" ∨
      strContains message "duplicate key" then
    ⟨.integrityConstraintError, details⟩
  else if (match sqlstate with | some s => s.take 2 == "42" | none => false) then
    ⟨.programmingExecutionError, details⟩
  else if strContains message "syntax error" ∨
      strContains message "invalid identifier" ∨
      strContains message "unknown column" then
    ⟨.programmingExecutionError, details⟩
  else
    ⟨.executionError, details⟩

/-! The spec-side trigger table of section 4.4, written from the spec's
rows (SQLSTATE set union message substrings, rows tried in order). -/

/-- SQLSTATE membership in a trigger set (a missing SQLSTATE matches no
set). -/
def sqlstateIn (sqlstate : Option String) (codes : List String) : Bool :=
  match sqlstate with
  | some s => codes.contains s
  | none => false

/-- Message containment for any of the row's trigger substrings. -/
def msgHasAny (message : String) (pats : List String) : Bool :=
  pats.any (fun p => strContains message p)

/-- SQLSTATE class test (first two characters). -/
def sqlstateClass (sqlstate : Option String) (cls : String) : Bool :=
  match sqlstate with
  | some s => s.take 2 = cls
  | none => false

/-- The spec's normalization trigger table (section 4.4), one row per kind,
applied top to bottom. -/
def specTriggerKind (sqlstate : Option String) (message : String) : ErrorKind :=
  if sqlstateIn sqlstate ["40P01", "1213"] || msgHasAny message ["deadlock"] then
    .deadlockError
  else if sqlstateIn sqlstate ["40001"] ||
      msgHasAny message ["serialization failure", "could not serialize"] then
    .serializationError
  else if sqlstateIn sqlstate ["55P03", "57014", "1205"] ||
      msgHasAny message ["lock wait timeout", "database is locked", "lock timeout"] then
    .lockTimeoutError
  else if msgHasAny message ["connection timed out", "timed out", "login timeout",
      "could not connect", "connection refused"] then
    .connectionTimeoutError
  else if sqlstateClass sqlstate "23" ||
      msgHasAny message ["unique constraint", "foreign key constraint",
        "duplicate key"] then
    .integrityConstraintError
  else if sqlstateClass sqlstate "42" ||
      msgHasAny message ["syntax error", "invalid identifier", "unknown column"] then
    .programmingExecutionError
  else
    .executionError

/-! ## Retry engine (`execution/retry.py`) -/

/-- `RetryPolicy` (delay arithmetic is modelled over the rationals; the
attempt-count behaviour settled here does not depend on the delay values). -/
structure RetryPolicy where
  max_attempts : Int := 3
  base_delay_seconds : ℚ := 1 / 20
  max_delay_seconds : ℚ := 1
  backoff_multiplier : ℚ := 2
deriving Repr, DecidableEq

/-- `RetryPolicy.__post_init__` validation (raises `ValueError`). -/
def RetryPolicy.validate (p : RetryPolicy) : Except PyErr Unit :=
  if p.max_attempts < 1 then
    .error (.valueError "max_attempts must be >= 1")
  else if p.base_delay_seconds < 0 then
    .error (.valueError "base_delay_seconds must be >= 0")
  else if p.max_delay_seconds < 0 then
    .error (.valueError "max_delay_seconds must be >= 0")
  else if p.backoff_multiplier < 1 then
    .error (.valueError "backoff_multiplier must be >= 1")
  else
    .ok ()

/-- `_compute_delay`. -/
def compute_delay (policy : RetryPolicy) (attempt : Int) : ℚ :=
  min (policy.base_delay_seconds * policy.backoff_multiplier ^ (attempt - 1))
    policy.max_delay_seconds

/-- An exception raised by the wrapped operation: either an
already-normalized `ExecutionError` instance or a raw driver exception. -/
inductive ExcRaised where
  | execError (e : ExecError)
  | rawExc (e : PyException)

/-- What one invocation of the wrapped operation does: succeed or raise. -/
inductive OpOutcome (α : Type) where
  | ok (v : α)
  | raise (e : ExcRaised)

/-- The `normalized` error of a raised exception inside the retry loop:
an `ExecutionError` instance passes through, a raw exception is
normalized. -/
def normalizedExc (normalize_error : PyException → ExecError) :
    ExcRaised → ExecError
  | .execError e => e
  | .rawExc e => normalize_error e

/-- Instrumented trace of the retry loop: each operation invocation, each
`on_retry` callback, each sleep, and the final `on_giveup` callback. -/
inductive RetryEvent where
  | invoke (attempt : Int)
  | onRetry (attempt : Int) (delay : ℚ)
  | sleepFn (delay : ℚ)
  | onGiveup (attempt : Int)
deriving Repr, DecidableEq

def RetryEvent.isInvoke : RetryEvent → Bool
  | .invoke _ => true
  | _ => false

/-- Result of `run_with_retry`: the returned value or the raised normalized
error, together with the attempt index at which the loop stopped.
`fuelOut` is an artifact of the fuel-based embedding and is unreachable
for the fuel supplied by `run_with_retry`. -/
inductive RetryResult (α : Type) where
  | success (v : α) (attempts : Int)
  | giveup (e : ExecError) (attempts : Int)
  | fuelOut

/-- The loop of `run_with_retry`.  `attempt` starts at 1; one fuel unit is
spent per retry (the Python loop is bounded because the give-up branch
fires once `attempt ≥ max_attempts`, so the fuel supplied by
`run_with_retry` is never exhausted). -/
def runWithRetryGo {α : Type} (op : Int → OpOutcome α)
    (normalize_error : PyException → ExecError) (policy : RetryPolicy) :
    Nat → Int → RetryResult α × List RetryEvent
  | fuel, attempt =>
    match op attempt with
    | .ok v => (.success v attempt, [.invoke attempt])
    | .raise exc =>
        let normalized := match exc with
          | .execError e => e
          | .rawExc e => normalize_error e
        if attempt ≥ policy.max_attempts ∨ ¬ normalized.kind.isTransientKind then
          (.giveup normalized attempt, [.invoke attempt, .onGiveup attempt])
        else
          match fuel with
          | 0 => (.fuelOut, [.invoke attempt])
          | fuel' + 1 =>
              let delay := compute_delay policy attempt
              let (res, evs) :=
                runWithRetryGo op normalize_error policy fuel' (attempt + 1)
              (res, [.invoke attempt, .onRetry attempt delay] ++
                (if delay > 0 then [.sleepFn delay] else []) ++ evs)

/-- `run_with_retry`: start at attempt 1 with enough fuel for the attempt
budget. -/
def run_with_retry {α : Type} (op : Int → OpOutcome α)
    (normalize_error : PyException → ExecError) (policy : RetryPolicy) :
    RetryResult α × List RetryEvent :=
  runWithRetryGo op normalize_error policy policy.max_attempts.toNat 1

/-- A policy with three attempts and zero delays, used to exercise the
retry loop on concrete runs. -/
def retryWitnessPolicy : RetryPolicy := ⟨3, 0, 0, 1⟩

/-- A transient (deadlock) normalized error fixture. -/
def retryWitnessErr : ExecError :=
  ⟨.deadlockError, ⟨"sqlite", "execute", none, "deadlock detected"⟩⟩

/-- An operation that raises the transient fixture on every attempt. -/
def retryWitnessOp : Int → OpOutcome Unit :=
  fun _ => .raise (.execError retryWitnessErr)

/-- A trivial normalizer fixture. -/
def retryWitnessNf : PyException → ExecError :=
  fun e => ⟨.executionError, ⟨"sqlite", "execute", none, e.message⟩⟩

/-! ## SQLite executor lifecycle (`execution/sqlite.py`, `execution/base.py`)

The executor's mutable attributes become `SqliteExecutorState`; driver
behaviour (which calls raise, what a cursor returns) is an oracle
`SqliteEnv`; every operation returns its result, the successor state and a
trace of effects.  Observability emissions (`evt`, `queryObs`) and
connection-touching driver calls are distinct effect constructors so that
the theorems can state that an operation touched no connection. -/

/-- A driver connection identity. -/
abbrev Conn := Nat

/-- Effects an executor operation can perform. -/
inductive EEffect where
  | evt (name : String)
  | queryObs (operation : String)
  | acquireHookCall
  | connConnect
  | releaseHookCall (c : Conn)
  | connExecute (c : Conn) (sql : String)
  | connExecuteMany (c : Conn) (sql : String)
  | connCommit (c : Conn)
  | connRollback (c : Conn)
  | connClose (c : Conn)
deriving Repr, DecidableEq

/-- Effects that acquire or touch a connection (everything except the two
observability emissions). -/
def EEffect.isConnEffect : EEffect → Bool
  | .evt _ => false
  | .queryObs _ => false
  | _ => true

/-- The mutable attributes of `SqliteExecutor` (wall-clock fields such as
`_transaction_started_at` only feed event durations and are omitted). -/
structure SqliteExecutorState where
  connection_info : Option String := none
  connection : Option Conn := none
  has_acquire_hook : Bool := false
  has_release_hook : Bool := false
  event_observer : Bool := false
  query_observer : Bool := false
  closed : Bool := false
  transaction_connection : Option Conn := none
  transaction_release_mode : Option String := none
  transaction_id : Option String := none
deriving Repr, DecidableEq

/-- Driver and hook behaviour consumed by the executor. -/
structure SqliteEnv where
  acquiredConn : Conn := 0
  connectConn : Conn := 0
  freshTxId : String := "tx"
  rollbackErr : Conn → Option PyErr := fun _ => none
  commitErr : Conn → Option PyErr := fun _ => none
  executeErr : Conn → String → Option PyErr := fun _ _ => none
  description : Conn → String → Bool := fun _ _ => false
  rowsOf : Conn → String → List (List Value) := fun _ _ => []
  fetchOneOf : Conn → String → Option (List Value) := fun _ _ => none

/-- A driver environment fixture with default behaviour (no driver call
raises). -/
def executorWitnessEnv : SqliteEnv := {}

/-- An already-closed executor state fixture. -/
def executorClosedState : SqliteExecutorState := { closed := true }

/-- An open executor state fixture holding an active transaction on
connection 7. -/
def executorOpenTxState : SqliteExecutorState :=
  { transaction_connection := some 7
    transaction_release_mode := some "release"
    transaction_id := some "tx" }

/-- `_emit_event` (a no-op when no event observer is configured; the
payload is abstracted to the event name). -/
def emitEvent (s : SqliteExecutorState) (name : String) : List EEffect :=
  if s.event_observer then [.evt name] else []

/-- `_ensure_open`. -/
def ensureOpen (s : SqliteExecutorState) : Except PyErr Unit :=
  if s.closed then .error (.runtimeError "Executor is closed.") else .ok ()

/-- `_release_connection`. -/
def releaseConnection (s : SqliteExecutorState) (conn : Conn)
    (mode : Option String) : List EEffect :=
  match mode with
  | none => []
  | some m =>
      if m = "release" then
        emitEvent s "connection.release" ++
          (if s.has_release_hook then [.releaseHookCall conn] else [.connClose conn])
      else if m = "close" then
        emitEvent s "connection.close" ++ [.connClose conn]
      else []

/-- `_finalize_transaction`. -/
def finalizeTransaction (s : SqliteExecutorState) :
    SqliteExecutorState × List EEffect :=
  match s.transaction_connection with
  | none => (s, [])
  | some conn =>
      let mode := s.transaction_release_mode
      let s₁ := { s with transaction_connection := none
                         transaction_release_mode := none
                         transaction_id := none }
      (s₁, releaseConnection s₁ conn mode)

/-- `close`: a second call returns immediately; the first call rolls back
any open transaction (swallowing a rollback error, in which case the
`txn.rollback` event is not reached), finalizes it, and marks the executor
closed. -/
def SqliteExecutorClose (env : SqliteEnv) (s : SqliteExecutorState) :
    SqliteExecutorState × List EEffect :=
  if s.closed then (s, [])
  else
    match s.transaction_connection with
    | none => ({ s with closed := true }, [])
    | some conn =>
        let rollbackTrace := [.connRollback conn]
        let evts := match env.rollbackErr conn with
          | some _ => []
          | none => emitEvent s "txn.rollback"
        let (s₁, fin) := finalizeTransaction s
        ({ s₁ with closed := true }, rollbackTrace ++ evts ++ fin)

/-- `_get_connection_for_query`: closed check, then transaction pin, then
owned connection, then acquire hook (release mode), then a fresh driver
connection (close mode). -/
def getConnectionForQuery (env : SqliteEnv) (s : SqliteExecutorState) :
    Except PyErr (Conn × Option String) × List EEffect :=
  if s.closed then (.error (.runtimeError "Executor is closed."), [])
  else
    match s.transaction_connection with
    | some c => (.ok (c, none), [])
    | none =>
        match s.connection with
        | some c => (.ok (c, none), [])
        | none =>
            if s.has_acquire_hook then
              (.ok (env.acquiredConn, some "release"),
                emitEvent s "connection.acquire.start" ++ [.acquireHookCall] ++
                  emitEvent s "connection.acquire.end")
            else
              (.ok (env.connectConn, some "close"),
                emitEvent s "connection.acquire.start" ++ [.connConnect] ++
                  emitEvent s "connection.acquire.end")

/-- `_observe_query`: `query.start`, the wrapped run, then the query
observer and `query.end` from the `finally` block (also on the error
path). -/
def observeQuery {ρ : Type} (s : SqliteExecutorState) (operation : String)
    (run : Unit → Except PyErr ρ × SqliteExecutorState × List EEffect) :
    Except PyErr ρ × SqliteExecutorState × List EEffect :=
  let startE := emitEvent s "query.start"
  let (res, s₁, evts) := run ()
  let obsE := if s₁.query_observer then [.queryObs operation] else []
  let endE := emitEvent s₁ "query.end"
  (res, s₁, startE ++ evts ++ obsE ++ endE)

/-- `_execute_with_connection`: run the statement, fetch rows when the
cursor has a description. -/
def executeWithConnection (env : SqliteEnv) (conn : Conn) (q : CompiledQuery) :
    Except PyErr (Option (List (List Value))) × List EEffect :=
  match env.executeErr conn q.sql with
  | some e => (.error e, [.connExecute conn q.sql])
  | none =>
      if env.description conn q.sql then
        (.ok (some (env.rowsOf conn q.sql)), [.connExecute conn q.sql])
      else
        (.ok none, [.connExecute conn q.sql])

/-- `_execute_observed` (the commit after a statement in release/close mode
is modelled as succeeding; the `finally` release runs on every path). -/
def executeObserved (env : SqliteEnv) (s : SqliteExecutorState)
    (q : CompiledQuery) :
    Except PyErr (Option (List (List Value))) × SqliteExecutorState × List EEffect :=
  match getConnectionForQuery env s with
  | (.error e, evts) => (.error e, s, evts)
  | (.ok (conn, mode), evts) =>
      match executeWithConnection env conn q with
      | (.error e, evts₂) =>
          (.error e, s, evts ++ evts₂ ++ releaseConnection s conn mode)
      | (.ok res, evts₂) =>
          let commitE := if mode.isSome then [EEffect.connCommit conn] else []
          (.ok res, s, evts ++ evts₂ ++ commitE ++ releaseConnection s conn mode)

/-- `execute` on a compiled query. -/
def SqliteExecutorExecute (env : SqliteEnv) (s : SqliteExecutorState)
    (q : CompiledQuery) :
    Except PyErr (Option (List (List Value))) × SqliteExecutorState × List EEffect :=
  observeQuery s "execute" (fun _ => executeObserved env s q)

/-- `_fetch_all_observed`. -/
def fetchAllObserved (env : SqliteEnv) (s : SqliteExecutorState)
    (q : CompiledQuery) :
    Except PyErr (List (List Value)) × SqliteExecutorState × List EEffect :=
  match getConnectionForQuery env s with
  | (.error e, evts) => (.error e, s, evts)
  | (.ok (conn, mode), evts) =>
      match env.executeErr conn q.sql with
      | some e =>
          (.error e, s, evts ++ [.connExecute conn q.sql] ++
            releaseConnection s conn mode)
      | none =>
          (.ok (env.rowsOf conn q.sql), s, evts ++ [.connExecute conn q.sql] ++
            releaseConnection s conn mode)

/-- `fetch_all`. -/
def SqliteExecutorFetchAll (env : SqliteEnv) (s : SqliteExecutorState)
    (q : CompiledQuery) :
    Except PyErr (List (List Value)) × SqliteExecutorState × List EEffect :=
  observeQuery s "fetch_all" (fun _ => fetchAllObserved env s q)

/-- `_fetch_one_observed`. -/
def fetchOneObserved (env : SqliteEnv) (s : SqliteExecutorState)
    (q : CompiledQuery) :
    Except PyErr (Option (List Value)) × SqliteExecutorState × List EEffect :=
  match getConnectionForQuery env s with
  | (.error e, evts) => (.error e, s, evts)
  | (.ok (conn, mode), evts) =>
      match env.executeErr conn q.sql with
      | some e =>
          (.error e, s, evts ++ [.connExecute conn q.sql] ++
            releaseConnection s conn mode)
      | none =>
          (.ok (env.fetchOneOf conn q.sql), s, evts ++ [.connExecute conn q.sql] ++
            releaseConnection s conn mode)

/-- `fetch_one`. -/
def SqliteExecutorFetchOne (env : SqliteEnv) (s : SqliteExecutorState)
    (q : CompiledQuery) :
    Except PyErr (Option (List Value)) × SqliteExecutorState × List EEffect :=
  observeQuery s "fetch_one" (fun _ => fetchOneObserved env s q)

/-- `_execute_many_observed`. -/
def executeManyObserved (env : SqliteEnv) (s : SqliteExecutorState)
    (sql : String) :
    Except PyErr Unit × SqliteExecutorState × List EEffect :=
  match getConnectionForQuery env s with
  | (.error e, evts) => (.error e, s, evts)
  | (.ok (conn, mode), evts) =>
      match env.executeErr conn sql with
      | some e =>
          (.error e, s, evts ++ [.connExecuteMany conn sql] ++
            releaseConnection s conn mode)
      | none =>
          let commitE := if mode.isSome then [EEffect.connCommit conn] else []
          (.ok (), s, evts ++ [.connExecuteMany conn sql] ++ commitE ++
            releaseConnection s conn mode)

/-- `execute_many`: an empty `param_sets` returns `None` immediately,
before the closed-state check, any observability emission, and any
connection sourcing. -/
def SqliteExecutorExecuteMany (env : SqliteEnv) (s : SqliteExecutorState)
    (sql : String) (param_sets : List (List Value)) :
    Except PyErr Unit × SqliteExecutorState × List EEffect :=
  if param_sets.isEmpty then (.ok (), s, [])
  else observeQuery s "execute_many" (fun _ => executeManyObserved env s sql)

/-- `begin`. -/
def SqliteExecutorBegin (env : SqliteEnv) (s : SqliteExecutorState)
    (isolation_level : Option String) :
    Except PyErr Unit × SqliteExecutorState × List EEffect :=
  match ensureOpen s with
  | .error e => (.error e, s, [])
  | .ok _ =>
      if s.transaction_connection.isSome then
        (.error (.runtimeError "Transaction already active."), s, [])
      else
        let normalized : Option String := match isolation_level with
          | some lvl => if lvl ≠ "" then some lvl.trim.toUpper else none
          | none => none
        match normalized with
        | some n =>
            if n ≠ "DEFERRED" ∧ n ≠ "IMMEDIATE" ∧ n ≠ "EXCLUSIVE" then
              (.error (.valueError
                "SQLite isolation_level must be one of: DEFERRED, IMMEDIATE, EXCLUSIVE."),
                s, [])
            else beginWith env s ("BEGIN " ++ n)
        | none => beginWith env s "BEGIN"
where
  /-- Connection sourcing, `BEGIN` statement, fresh `tx_id`, `txn.begin`. -/
  beginWith (env : SqliteEnv) (s : SqliteExecutorState) (beginSql : String) :
      Except PyErr Unit × SqliteExecutorState × List EEffect :=
    let (conn, mode, acq) :=
      match s.connection with
      | some c => (c, (none : Option String), ([] : List EEffect))
      | none =>
          if s.has_acquire_hook then
            (env.acquiredConn, some "release",
              emitEvent s "connection.acquire.start" ++ [EEffect.acquireHookCall] ++
                emitEvent s "connection.acquire.end")
          else
            (env.connectConn, some "close",
              emitEvent s "connection.acquire.start" ++ [EEffect.connConnect] ++
                emitEvent s "connection.acquire.end")
    let s₁ := { s with transaction_connection := some conn
                       transaction_release_mode := mode
                       transaction_id := some env.freshTxId }
    (.ok (), s₁, acq ++ [EEffect.connExecute conn beginSql] ++ emitEvent s₁ "txn.begin")

/-- `_require_active_transaction_connection`. -/
def requireActiveTransactionConnection (s : SqliteExecutorState) :
    Except PyErr Conn :=
  if s.closed then .error (.runtimeError "Executor is closed.")
  else
    match s.transaction_connection with
    | none => .error (.runtimeError "No active transaction. Call begin() first.")
    | some c => .ok c

/-- `commit` (driver `commit` may raise; the `finally` block finalizes the
transaction on both paths). -/
def SqliteExecutorCommit (env : SqliteEnv) (s : SqliteExecutorState) :
    Except PyErr Unit × SqliteExecutorState × List EEffect :=
  match requireActiveTransactionConnection s with
  | .error e => (.error e, s, [])
  | .ok conn =>
      match env.commitErr conn with
      | some e =>
          let (s₁, fin) := finalizeTransaction s
          (.error e, s₁, [.connCommit conn] ++ fin)
      | none =>
          let (s₁, fin) := finalizeTransaction s
          (.ok (), s₁, [.connCommit conn] ++ emitEvent s "txn.commit" ++ fin)

/-- `rollback`. -/
def SqliteExecutorRollback (env : SqliteEnv) (s : SqliteExecutorState) :
    Except PyErr Unit × SqliteExecutorState × List EEffect :=
  match requireActiveTransactionConnection s with
  | .error e => (.error e, s, [])
  | .ok conn =>
      match env.rollbackErr conn with
      | some e =>
          let (s₁, fin) := finalizeTransaction s
          (.error e, s₁, [.connRollback conn] ++ fin)
      | none =>
          let (s₁, fin) := finalizeTransaction s
          (.ok (), s₁, [.connRollback conn] ++ emitEvent s "txn.rollback" ++ fin)

/-- `savepoint`. -/
def SqliteExecutorSavepoint (s : SqliteExecutorState) (name : String) :
    Except PyErr Unit × SqliteExecutorState × List EEffect :=
  match requireActiveTransactionConnection s with
  | .error e => (.error e, s, [])
  | .ok conn =>
      (.ok (), s, [.connExecute conn ("SAVEPOINT " ++ name)] ++
        emitEvent s "txn.savepoint.create")

/-- `rollback_to_savepoint`. -/
def SqliteExecutorRollbackToSavepoint (s : SqliteExecutorState) (name : String) :
    Except PyErr Unit × SqliteExecutorState × List EEffect :=
  match requireActiveTransactionConnection s with
  | .error e => (.error e, s, [])
  | .ok conn =>
      (.ok (), s, [.connExecute conn ("ROLLBACK TO SAVEPOINT " ++ name)] ++
        emitEvent s "txn.savepoint.rollback")

/-- `release_savepoint`. -/
def SqliteExecutorReleaseSavepoint (s : SqliteExecutorState) (name : String) :
    Except PyErr Unit × SqliteExecutorState × List EEffect :=
  match requireActiveTransactionConnection s with
  | .error e => (.error e, s, [])
  | .ok conn =>
      (.ok (), s, [.connExecute conn ("RELEASE SAVEPOINT " ++ name)] ++
        emitEvent s "txn.savepoint.release")

/-- What an operation on a closed executor must do: return the
`"Executor is closed."` error, leave the state unchanged, and perform no
connection-acquiring or connection-touching effect (observability
emissions are the only effects allowed). -/
def closedRefusal {ρ : Type} (s : SqliteExecutorState)
    (r : Except PyErr ρ × SqliteExecutorState × List EEffect) : Prop :=
  r.1 = Except.error (PyErr.runtimeError "Executor is closed.") ∧
  r.2.1 = s ∧ r.2.2.filter EEffect.isConnEffect = []

/-! ## Placeholder-free ASTs

An AST is `clean` for a marker character when none of its textual fields
(identifiers, operators, directions, type names, aliases) contains that
character.  The marker is `%` for the `%s` dialects and `?` for MariaDB.
Literal values are exempt: they are bound, never rendered. -/

/-- The string contains no occurrence of the marker. -/
def strClean (bad : Char) (s : String) : Bool :=
  countChar bad s == 0

def optStrClean (bad : Char) : Option String → Bool
  | none => true
  | some s => strClean bad s

def tableClean (bad : Char) (t : Table) : Bool :=
  strClean bad t.name && optStrClean bad t.schema && optStrClean bad t.tableAlias

def columnsClean (bad : Char) : Option (List ColumnRef) → Bool
  | none => true
  | some cs => cs.all (fun c => strClean bad c.name)

def upsertClean (bad : Char) (u : Upsert) : Bool :=
  match u.update_columns with
  | none => true
  | some cs => cs.all (strClean bad)

def lockClean (bad : Char) (lk : Lock) : Bool :=
  strClean bad lk.mode

mutual

def cleanExpr (bad : Char) : Expr → Bool
  | .literalNode _ => true
  | .columnNode name table => strClean bad name && optStrClean bad table
  | .binaryOperationNode l op r =>
      cleanExpr bad l && strClean bad op && cleanExpr bad r
  | .starNode => true
  | .aliasNode e name => cleanExpr bad e && strClean bad name
  | .castNode e dt => cleanExpr bad e && strClean bad dt
  | .functionCallNode name args over =>
      strClean bad name && cleanExprList bad args && cleanOverOpt bad over
  | .unaryOperationNode op e => strClean bad op && cleanExpr bad e
  | .inNode e vals _ => cleanExpr bad e && cleanExprList bad vals
  | .betweenNode e lo hi _ =>
      cleanExpr bad e && cleanExpr bad lo && cleanExpr bad hi
  | .caseExpressionNode cases else_result =>
      cleanWhenThenList bad cases && cleanExprOpt bad else_result
  | .subqueryNode sel subAlias => cleanSelect bad sel && optStrClean bad subAlias

def cleanExprOpt (bad : Char) : Option Expr → Bool
  | none => true
  | some e => cleanExpr bad e

def cleanExprList (bad : Char) : List Expr → Bool
  | [] => true
  | e :: es => cleanExpr bad e && cleanExprList bad es

def cleanExprListOpt (bad : Char) : Option (List Expr) → Bool
  | none => true
  | some es => cleanExprList bad es

def cleanWhenThen (bad : Char) : WhenThen → Bool
  | .whenThenNode c r => cleanExpr bad c && cleanExpr bad r

def cleanWhenThenList (bad : Char) : List WhenThen → Bool
  | [] => true
  | w :: ws => cleanWhenThen bad w && cleanWhenThenList bad ws

def cleanOver (bad : Char) : OverClause → Bool
  | .overClauseNode partition_by order_by =>
      cleanExprListOpt bad partition_by && cleanOrderByListOpt bad order_by

def cleanOverOpt (bad : Char) : Option OverClause → Bool
  | none => true
  | some ov => cleanOver bad ov

def cleanOrderBy (bad : Char) : OrderBy → Bool
  | .orderByClauseNode e dir => cleanExpr bad e && strClean bad dir

def cleanOrderByList (bad : Char) : List OrderBy → Bool
  | [] => true
  | o :: os => cleanOrderBy bad o && cleanOrderByList bad os

def cleanOrderByListOpt (bad : Char) : Option (List OrderBy) → Bool
  | none => true
  | some os => cleanOrderByList bad os

def cleanFrom (bad : Char) : FromClause → Bool
  | .tableNode t => tableClean bad t
  | .joinClauseNode l r on_c jt =>
      cleanFrom bad l && cleanFrom bad r && cleanExpr bad on_c && strClean bad jt
  | .subqueryNode sel subAlias => cleanSelect bad sel && optStrClean bad subAlias

def cleanFromOpt (bad : Char) : Option FromClause → Bool
  | none => true
  | some f => cleanFrom bad f

def cleanWhere (bad : Char) : Where → Bool
  | .whereClauseNode c => cleanExpr bad c

def cleanWhereOpt (bad : Char) : Option Where → Bool
  | none => true
  | some w => cleanWhere bad w

def cleanGroupBy (bad : Char) : GroupByClause → Bool
  | .groupByClauseNode es => cleanExprList bad es

def cleanGroupByOpt (bad : Char) : Option GroupByClause → Bool
  | none => true
  | some g => cleanGroupBy bad g

def cleanHaving (bad : Char) : Having → Bool
  | .havingClauseNode c => cleanExpr bad c

def cleanHavingOpt (bad : Char) : Option Having → Bool
  | none => true
  | some h => cleanHaving bad h

def cleanTop (bad : Char) : Top → Bool
  | .topClauseNode _ on_e dir => cleanExprOpt bad on_e && strClean bad dir

def cleanTopOpt (bad : Char) : Option Top → Bool
  | none => true
  | some t => cleanTop bad t

def cleanCte (bad : Char) : Cte → Bool
  | .cteNode name sub => strClean bad name && cleanSelect bad sub

def cleanCteList (bad : Char) : List Cte → Bool
  | [] => true
  | c :: cs => cleanCte bad c && cleanCteList bad cs

def cleanCteListOpt (bad : Char) : Option (List Cte) → Bool
  | none => true
  | some cs => cleanCteList bad cs

def cleanSelect (bad : Char) : Select → Bool
  | .mk sl _dist ctes ft wc gb hc ob tc _lim _off lk =>
      cleanExprList bad sl && cleanCteListOpt bad ctes && cleanFromOpt bad ft &&
      cleanWhereOpt bad wc && cleanGroupByOpt bad gb && cleanHavingOpt bad hc &&
      cleanOrderByListOpt bad ob && cleanTopOpt bad tc &&
      (match lk with | none => true | some l => lockClean bad l)

def cleanSetList (bad : Char) : List (String × Expr) → Bool
  | [] => true
  | (col, e) :: rest => strClean bad col && cleanExpr bad e && cleanSetList bad rest

def cleanRowList (bad : Char) : List (List Expr) → Bool
  | [] => true
  | row :: rest => cleanExprList bad row && cleanRowList bad rest

def cleanRowListOpt (bad : Char) : Option (List (List Expr)) → Bool
  | none => true
  | some rs => cleanRowList bad rs

def cleanStmt (bad : Char) : Stmt → Bool
  | .selectStatementNode n => cleanSelect bad n
  | .deleteStatementNode table wc ret =>
      tableClean bad table && cleanWhereOpt bad wc && cleanExprListOpt bad ret
  | .insertStatementNode table values columns rows ups ret =>
      tableClean bad table && cleanExprListOpt bad values &&
      columnsClean bad columns && cleanRowListOpt bad rows &&
      (match ups with | none => true | some u => upsertClean bad u) &&
      cleanExprListOpt bad ret
  | .updateStatementNode table sets wc ret =>
      tableClean bad table && cleanSetList bad sets && cleanWhereOpt bad wc &&
      cleanExprListOpt bad ret
  | .unionNode l r _ => cleanStmt bad l && cleanStmt bad r
  | .intersectNode l r _ => cleanStmt bad l && cleanStmt bad r
  | .exceptNode l r _ => cleanStmt bad l && cleanStmt bad r

end

/-! ## Literal values in visit order

For each compiler, the sequence of `LiteralNode` values encountered by its
visitor, in visit order.  The Postgres compiler ignores CTEs, lock clauses
and window OVER clauses, so its family differs from the one shared by the
MySQL and MariaDB visitors. -/

mutual

def pgLitsExpr : Expr → List Value
  | .literalNode v => [v]
  | .columnNode _ _ => []
  | .binaryOperationNode l _ r => pgLitsExpr l ++ pgLitsExpr r
  | .starNode => []
  | .aliasNode e _ => pgLitsExpr e
  | .castNode e _ => pgLitsExpr e
  | .functionCallNode _ args _ => pgLitsExprList args
  | .unaryOperationNode _ e => pgLitsExpr e
  | .inNode e vals _ => pgLitsExpr e ++ pgLitsExprList vals
  | .betweenNode e lo hi _ => pgLitsExpr e ++ pgLitsExpr lo ++ pgLitsExpr hi
  | .caseExpressionNode cases else_result =>
      pgLitsWhenThenList cases ++ pgLitsExprOpt else_result
  | .subqueryNode _ _ => []

def pgLitsExprOpt : Option Expr → List Value
  | none => []
  | some e => pgLitsExpr e

def pgLitsExprList : List Expr → List Value
  | [] => []
  | e :: es => pgLitsExpr e ++ pgLitsExprList es

def pgLitsWhenThen : WhenThen → List Value
  | .whenThenNode c r => pgLitsExpr c ++ pgLitsExpr r

def pgLitsWhenThenList : List WhenThen → List Value
  | [] => []
  | w :: ws => pgLitsWhenThen w ++ pgLitsWhenThenList ws

def pgLitsFrom : FromClause → List Value
  | .tableNode _ => []
  | .joinClauseNode l r on_c _ => pgLitsFrom l ++ pgLitsFrom r ++ pgLitsExpr on_c
  | .subqueryNode _ _ => []

def pgLitsFromOpt : Option FromClause → List Value
  | none => []
  | some f => pgLitsFrom f

def pgLitsWhereOpt : Option Where → List Value
  | none => []
  | some (.whereClauseNode c) => pgLitsExpr c

def pgLitsGroupOpt : Option GroupByClause → List Value
  | none => []
  | some (.groupByClauseNode es) => pgLitsExprList es

def pgLitsHavingOpt : Option Having → List Value
  | none => []
  | some (.havingClauseNode c) => pgLitsExpr c

def pgLitsOrderBy : OrderBy → List Value
  | .orderByClauseNode e _ => pgLitsExpr e

def pgLitsOrderByList : List OrderBy → List Value
  | [] => []
  | o :: os => pgLitsOrderBy o ++ pgLitsOrderByList os

def pgLitsOrderBySection : Option (List OrderBy) → List Value
  | none => []
  | some items => if items.isEmpty then [] else pgLitsOrderByList items

/-- Literals bound by the synthesized TOP ordering expression (only when no
explicit ORDER BY text was produced). -/
def pgLitsTopExpr : Option Top → List Value
  | some (.topClauseNode _ (some e) _) => pgLitsExpr e
  | _ => []

def pgLitsSelect : Select → List Value
  | .mk sl _dist _ctes ft wc gb hc ob tc _lim _off _lk =>
      pgLitsExprList sl ++ pgLitsFromOpt ft ++ pgLitsWhereOpt wc ++
      pgLitsGroupOpt gb ++ pgLitsHavingOpt hc ++ pgLitsOrderBySection ob ++
      (if truthyList ob then [] else pgLitsTopExpr tc)

end

def pgLitsSetList : List (String × Expr) → List Value
  | [] => []
  | (_, e) :: rest => pgLitsExpr e ++ pgLitsSetList rest

def pgLitsStmt : Stmt → List Value
  | .selectStatementNode n => pgLitsSelect n
  | .deleteStatementNode _ wc _ => pgLitsWhereOpt wc
  | .insertStatementNode _ values _ _ _ _ =>
      match values with
      | some vs => pgLitsExprList vs
      | none => []
  | .updateStatementNode _ sets wc _ => pgLitsSetList sets ++ pgLitsWhereOpt wc
  | .unionNode l r _ => pgLitsStmt l ++ pgLitsStmt r
  | .intersectNode l r _ => pgLitsStmt l ++ pgLitsStmt r
  | .exceptNode l r _ => pgLitsStmt l ++ pgLitsStmt r

/-! Visit-order literals for the MySQL/MariaDB visitors (shared through the
SELECT level: CTEs first, OVER clauses and subqueries visited). -/

mutual

def myLitsExpr : Expr → List Value
  | .literalNode v => [v]
  | .columnNode _ _ => []
  | .binaryOperationNode l _ r => myLitsExpr l ++ myLitsExpr r
  | .starNode => []
  | .aliasNode e _ => myLitsExpr e
  | .castNode e _ => myLitsExpr e
  | .functionCallNode _ args over => myLitsExprList args ++ myLitsOverOpt over
  | .unaryOperationNode _ e => myLitsExpr e
  | .inNode e vals _ => myLitsExpr e ++ myLitsExprList vals
  | .betweenNode e lo hi _ => myLitsExpr e ++ myLitsExpr lo ++ myLitsExpr hi
  | .caseExpressionNode cases else_result =>
      myLitsWhenThenList cases ++ myLitsExprOpt else_result
  | .subqueryNode sel _ => myLitsSelect sel

def myLitsExprOpt : Option Expr → List Value
  | none => []
  | some e => myLitsExpr e

def myLitsExprList : List Expr → List Value
  | [] => []
  | e :: es => myLitsExpr e ++ myLitsExprList es

def myLitsWhenThen : WhenThen → List Value
  | .whenThenNode c r => myLitsExpr c ++ myLitsExpr r

def myLitsWhenThenList : List WhenThen → List Value
  | [] => []
  | w :: ws => myLitsWhenThen w ++ myLitsWhenThenList ws

def myLitsOver : OverClause → List Value
  | .overClauseNode partition_by order_by =>
      myLitsPartitionSection partition_by ++ myLitsOrderSection order_by

def myLitsOverOpt : Option OverClause → List Value
  | none => []
  | some ov => myLitsOver ov

def myLitsPartitionSection : Option (List Expr) → List Value
  | none => []
  | some es => if es.isEmpty then [] else myLitsExprList es

def myLitsOrderSection : Option (List OrderBy) → List Value
  | none => []
  | some items => if items.isEmpty then [] else myLitsOrderByList items

def myLitsFrom : FromClause → List Value
  | .tableNode _ => []
  | .joinClauseNode l r on_c _ => myLitsFrom l ++ myLitsFrom r ++ myLitsExpr on_c
  | .subqueryNode sel _ => myLitsSelect sel

def myLitsFromOpt : Option FromClause → List Value
  | none => []
  | some f => myLitsFrom f

def myLitsWhereOpt : Option Where → List Value
  | none => []
  | some (.whereClauseNode c) => myLitsExpr c

def myLitsGroupOpt : Option GroupByClause → List Value
  | none => []
  | some (.groupByClauseNode es) => myLitsExprList es

def myLitsHavingOpt : Option Having → List Value
  | none => []
  | some (.havingClauseNode c) => myLitsExpr c

def myLitsOrderBy : OrderBy → List Value
  | .orderByClauseNode e _ => myLitsExpr e

def myLitsOrderByList : List OrderBy → List Value
  | [] => []
  | o :: os => myLitsOrderBy o ++ myLitsOrderByList os

def myLitsCte : Cte → List Value
  | .cteNode _ sub => myLitsSelect sub

def myLitsCteList : List Cte → List Value
  | [] => []
  | c :: cs => myLitsCte c ++ myLitsCteList cs

def myLitsCteSection : Option (List Cte) → List Value
  | none => []
  | some cl => if cl.isEmpty then [] else myLitsCteList cl

def myLitsTopExpr : Option Top → List Value
  | some (.topClauseNode _ (some e) _) => myLitsExpr e
  | _ => []

def myLitsSelect : Select → List Value
  | .mk sl _dist ctes ft wc gb hc ob tc _lim _off _lk =>
      myLitsCteSection ctes ++ myLitsExprList sl ++ myLitsFromOpt ft ++
      myLitsWhereOpt wc ++ myLitsGroupOpt gb ++ myLitsHavingOpt hc ++
      myLitsOrderSection ob ++
      (if truthyList ob then [] else myLitsTopExpr tc)

end

def myLitsSetList : List (String × Expr) → List Value
  | [] => []
  | (_, e) :: rest => myLitsExpr e ++ myLitsSetList rest

def mysqlLitsStmt : Stmt → List Value
  | .selectStatementNode n => myLitsSelect n
  | .deleteStatementNode _ wc _ => myLitsWhereOpt wc
  | .insertStatementNode _ values _ _ _ _ =>
      match values with
      | some vs => myLitsExprList vs
      | none => []
  | .updateStatementNode _ sets wc _ => myLitsSetList sets ++ myLitsWhereOpt wc
  | .unionNode l r _ => mysqlLitsStmt l ++ mysqlLitsStmt r
  | .intersectNode _ _ _ => []
  | .exceptNode _ _ _ => []

def myLitsRowList : List (List Expr) → List Value
  | [] => []
  | row :: rest => myLitsExprList row ++ myLitsRowList rest

def myLitsReturningOpt : Option (List Expr) → List Value
  | none => []
  | some exprs => myLitsExprList exprs

def myLitsInsertSource : Option (List Expr) → Option (List (List Expr)) → List Value
  | some vs, _ => myLitsExprList vs
  | none, some rs => myLitsRowList rs
  | none, none => []

def mariadbLitsStmt : Stmt → List Value
  | .selectStatementNode n => myLitsSelect n
  | .deleteStatementNode _ wc ret => myLitsWhereOpt wc ++ myLitsReturningOpt ret
  | .insertStatementNode _ values _ rows _ ret =>
      myLitsInsertSource values rows ++ myLitsReturningOpt ret
  | .updateStatementNode _ sets wc _ => myLitsSetList sets ++ myLitsWhereOpt wc
  | .unionNode l r _ => mariadbLitsStmt l ++ mariadbLitsStmt r
  | .intersectNode l r _ => mariadbLitsStmt l ++ mariadbLitsStmt r
  | .exceptNode l r _ => mariadbLitsStmt l ++ mariadbLitsStmt r

/-! ## Placeholder accounting

`phInv mark fol s n` states that the SQL fragment `s` contains exactly `n`
occurrences of the marker character and (when `fol` is given) each marker
is immediately followed by the follower — so `s` contains exactly `n`
placeholder occurrences.  For the `%s` dialects `mark = '%'`, `fol = some
's'`; for MariaDB `mark = '?'`, `fol = none`. -/

def phInv (mark : Char) (fol : Option Char) (s : String) (n : Nat) : Prop :=
  countChar mark s = n ∧ ∀ f ∈ fol, followedOkS mark f s = true

def phInvList (mark : Char) (fol : Option Char) (ss : List String) (n : Nat) : Prop :=
  (ss.map (countChar mark)).sum = n ∧
    ∀ f ∈ fol, ∀ p ∈ ss, followedOkS mark f p = true

theorem phInv_text (mark : Char) (fol : Option Char) (s : String)
    (h : countChar mark s = 0) : phInv mark fol s 0 :=
  ⟨h, fun f _ => followedOkS_of_count_zero mark f s h⟩

theorem phInv_intRepr (mark : Char)
    (hm : mark ∉ intReprChars) (fol : Option Char) (n : Int) :
    phInv mark fol (toString n) 0 :=
  phInv_text mark fol _ (countChar_intRepr mark hm n)

theorem phInv_append {mark : Char} {fol : Option Char} {s t : String} {n k : Nat}
    (hs : phInv mark fol s n) (ht : phInv mark fol t k) :
    phInv mark fol (s ++ t) (n + k) := by
  refine ⟨?_, ?_⟩
  · rw [countChar_append, hs.1, ht.1]
  · intro f hf
    exact followedOkS_append mark f s t (hs.2 f hf) (ht.2 f hf)

theorem phInv_cast {mark : Char} {fol : Option Char} {s : String} {n k : Nat}
    (h : phInv mark fol s n) (e : n = k) : phInv mark fol s k := e ▸ h

theorem phInv_empty_eq_zero {mark : Char} {fol : Option Char} {k : Nat}
    (h : phInv mark fol "" k) : k = 0 := by
  have := h.1
  simp [countChar] at this
  omega

theorem phInvList_nil (mark : Char) (fol : Option Char) :
    phInvList mark fol [] 0 := ⟨rfl, fun _ _ _ hp => by cases hp⟩

theorem phInvList_cons {mark : Char} {fol : Option Char} {s : String}
    {ss : List String} {n k : Nat} (hs : phInv mark fol s n)
    (hss : phInvList mark fol ss k) : phInvList mark fol (s :: ss) (n + k) := by
  refine ⟨by simp [hs.1, hss.1], ?_⟩
  intro f hf p hp
  rcases List.mem_cons.mp hp with h | h
  · rw [h]; exact hs.2 f hf
  · exact hss.2 f hf p h

theorem phInvList_single {mark : Char} {fol : Option Char} {s : String} {n : Nat}
    (hs : phInv mark fol s n) : phInvList mark fol [s] n := by
  have := phInvList_cons hs (phInvList_nil mark fol)
  simpa using this

theorem phInvList_append {mark : Char} {fol : Option Char} {a b : List String}
    {n k : Nat} (ha : phInvList mark fol a n) (hb : phInvList mark fol b k) :
    phInvList mark fol (a ++ b) (n + k) := by
  refine ⟨by simp [ha.1, hb.1], ?_⟩
  intro f hf p hp
  rcases List.mem_append.mp hp with h | h
  · exact ha.2 f hf p h
  · exact hb.2 f hf p h

theorem phInvList_cast {mark : Char} {fol : Option Char} {ss : List String}
    {n k : Nat} (h : phInvList mark fol ss n) (e : n = k) :
    phInvList mark fol ss k := e ▸ h

theorem phInv_join (sep : String) {mark : Char} {fol : Option Char}
    {ss : List String} {n : Nat} (h : phInvList mark fol ss n)
    (hsep : countChar mark sep = 0) : phInv mark fol (pyJoin sep ss) n := by
  refine ⟨?_, ?_⟩
  · rw [countChar_pyJoin mark sep hsep ss, h.1]
  · intro f hf
    exact followedOkS_pyJoin mark f sep (followedOkS_of_count_zero mark f sep hsep)
      ss (fun p hp => h.2 f hf p hp)

theorem strClean_count {bad : Char} {s : String} (h : strClean bad s = true) :
    countChar bad s = 0 := by
  simpa [strClean] using h

theorem phInv_of_strClean {mark : Char} (fol : Option Char) {s : String}
    (h : strClean mark s = true) : phInv mark fol s 0 :=
  phInv_text mark fol s (strClean_count h)

theorem optStrClean_some {bad : Char} {s : String}
    (h : optStrClean bad (some s) = true) : strClean bad s = true := h

theorem pgVisitColumnNode_inv (mark : Char) (fol : Option Char)
    (hdot : countChar mark "." = 0)
    {name : String} {table : Option String}
    (h1 : strClean mark name = true) (h2 : optStrClean mark table = true) :
    phInv mark fol (pgVisitColumnNode name table) 0 := by
  cases table with
  | none => exact phInv_of_strClean fol h1
  | some tb =>
      have := phInv_append
        (phInv_append (phInv_of_strClean fol (optStrClean_some h2))
          (phInv_text mark fol "." hdot))
        (phInv_of_strClean fol h1)
      simpa [pgVisitColumnNode] using this

theorem pgVisitTableNode_inv (mark : Char) (fol : Option Char)
    (hdot : countChar mark "." = 0) {t : Table}
    (h : tableClean mark t = true) : phInv mark fol (pgVisitTableNode t) 0 := by
  simp only [tableClean, Bool.and_eq_true] at h
  obtain ⟨⟨hn, hs⟩, _⟩ := h
  cases hsch : t.schema with
  | none => simpa [pgVisitTableNode, hsch] using phInv_of_strClean fol hn
  | some sc =>
      rw [hsch] at hs
      have := phInv_append
        (phInv_append (phInv_of_strClean fol (optStrClean_some hs))
          (phInv_text mark fol "." hdot))
        (phInv_of_strClean fol hn)
      simpa [pgVisitTableNode, hsch] using this

theorem mysqlVisitTableNode_inv (mark : Char) (fol : Option Char)
    (hdot : countChar mark "." = 0) (hAS : countChar mark " AS " = 0) {t : Table}
    (h : tableClean mark t = true) : phInv mark fol (mysqlVisitTableNode t) 0 := by
  simp only [tableClean, Bool.and_eq_true] at h
  obtain ⟨⟨hn, hs⟩, ha⟩ := h
  have hbase : phInv mark fol
      (match t.schema with
        | some sc => sc ++ "." ++ t.name
        | none => t.name) 0 := by
    cases hsch : t.schema with
    | none => exact phInv_of_strClean fol hn
    | some sc =>
        rw [hsch] at hs
        have := phInv_append
          (phInv_append (phInv_of_strClean fol (optStrClean_some hs))
            (phInv_text mark fol "." hdot))
          (phInv_of_strClean fol hn)
        simpa using this
  cases hal : t.tableAlias with
  | none => simpa [mysqlVisitTableNode, hal] using hbase
  | some a =>
      rw [hal] at ha
      have := phInv_append
        (phInv_append hbase (phInv_text mark fol " AS " hAS))
        (phInv_of_strClean fol (optStrClean_some ha))
      simpa [mysqlVisitTableNode, hal] using this

theorem mariadbVisitTableNode_eq (t : Table) :
    mariadbVisitTableNode t = mysqlVisitTableNode t := rfl

/-! The `%s` placeholder invariant family for the Postgres and MySQL
visitors. -/

abbrev psInv : String → Nat → Prop := phInv '%' (some 's')

abbrev psInvList : List String → Nat → Prop := phInvList '%' (some 's')

theorem psInv_placeholder : psInv "%s" 1 := by
  refine ⟨by decide, ?_⟩
  intro f hf
  have hfs : 's' = f := by simpa using hf
  rw [← hfs]
  decide

theorem psInv_int (n : Int) : psInv (toString n) 0 :=
  phInv_intRepr '%' (by decide) (some 's') n

theorem limitParts_psInv : ∀ lim : Option Int, psInvList (limitParts lim) 0 := by
  intro lim
  cases lim with
  | none => exact phInvList_nil _ _
  | some v =>
      have := phInvList_single (phInv_append
        (phInv_text '%' (some 's') "LIMIT " (by decide)) (psInv_int v))
      simpa [limitParts] using this

theorem offsetParts_psInv : ∀ off : Option Int, psInvList (offsetParts off) 0 := by
  intro off
  cases off with
  | none => exact phInvList_nil _ _
  | some v =>
      have := phInvList_single (phInv_append
        (phInv_text '%' (some 's') "OFFSET " (by decide)) (psInv_int v))
      simpa [offsetParts] using this

theorem topLimitParts_psInv : ∀ tc : Option Top, psInvList (topLimitParts tc) 0 := by
  intro tc
  cases tc with
  | none => exact phInvList_nil _ _
  | some t =>
      have := phInvList_single (phInv_append
        (phInv_text '%' (some 's') "LIMIT " (by decide)) (psInv_int t.count))
      simpa [topLimitParts] using this

theorem mysqlLock_psInv {lk : Lock} {s : String}
    (h : mysqlVisitLockClauseNode lk = .ok s) : psInv s 0 := by
  unfold mysqlVisitLockClauseNode at h
  by_cases h1 : lk.mode.trim.toUpper ≠ "UPDATE" ∧ lk.mode.trim.toUpper ≠ "SHARE"
  · rw [if_pos h1] at h; cases h
  · rw [if_neg h1] at h
    by_cases h2 : lk.nowait = true ∧ lk.skip_locked = true
    · rw [if_pos h2] at h; cases h
    · rw [if_neg h2] at h
      have hmode : lk.mode.trim.toUpper = "UPDATE" ∨ lk.mode.trim.toUpper = "SHARE" := by
        rcases not_and_or.mp h1 with h3 | h3
        · exact Or.inl (not_not.mp h3)
        · exact Or.inr (not_not.mp h3)
      cases h
      have hm : countChar '%' ("FOR " ++ lk.mode.trim.toUpper) = 0 := by
        rcases hmode with h4 | h4 <;> rw [h4] <;> decide
      have hn1 : psInvList (if lk.nowait = true then ["NOWAIT"] else []) 0 := by
        split
        · simpa using phInvList_single (phInv_text '%' (some 's') "NOWAIT" (by decide))
        · exact phInvList_nil _ _
      have hn2 : psInvList (if lk.skip_locked = true then ["SKIP LOCKED"] else []) 0 := by
        split
        · simpa using phInvList_single
            (phInv_text '%' (some 's') "SKIP LOCKED" (by decide))
        · exact phInvList_nil _ _
      have := phInv_join " " (phInvList_append
        (phInvList_single (phInv_text '%' (some 's') _ hm))
        (phInvList_append hn1 hn2)) (by decide)
      simpa using this

/-- Fixed SQL text bound no parameter and contains no `%`. -/
theorem psT (t : String) (h : countChar '%' t = 0) : psInv t 0 :=
  phInv_text '%' (some 's') t h

/-! ## Parameter-binding invariant of the Postgres visitor

For every node, a successful visit extends `_params` by exactly the
visit-order literal values, and — when the AST is `%`-clean — the emitted
fragment contains exactly that many `%s` placeholders. -/

set_option maxHeartbeats 3200000 in
mutual

theorem pgVisitExpr_inv (e : Expr) : ∀ st s st', pgVisitExpr e st = .ok (s, st') →
    st' = st ++ pgLitsExpr e ∧
    (cleanExpr '%' e = true → psInv s (pgLitsExpr e).length) := by
  cases e with
  | literalNode v =>
      intro st s st' h
      simp only [pgVisitExpr, Except.ok.injEq, Prod.mk.injEq] at h
      obtain ⟨hs, hst⟩ := h
      refine ⟨by simp [pgLitsExpr, hst.symm], fun _ => ?_⟩
      rw [← hs]
      simpa [pgLitsExpr] using psInv_placeholder
  | columnNode name table =>
      intro st s st' h
      simp only [pgVisitExpr, Except.ok.injEq, Prod.mk.injEq] at h
      obtain ⟨hs, hst⟩ := h
      refine ⟨by simp [pgLitsExpr, hst.symm], fun hcl => ?_⟩
      simp only [cleanExpr, Bool.and_eq_true] at hcl
      rw [← hs]
      simpa [pgLitsExpr] using
        pgVisitColumnNode_inv '%' (some 's') (by decide) hcl.1 hcl.2
  | binaryOperationNode l op r =>
      intro st s st' h
      simp only [pgVisitExpr] at h
      split at h
      · cases h
      · rename_i ls st₁ h₁
        split at h
        · cases h
        · rename_i rs st₂ h₂
          cases h
          obtain ⟨e₁, p₁⟩ := pgVisitExpr_inv l st ls st₁ h₁
          obtain ⟨e₂, p₂⟩ := pgVisitExpr_inv r st₁ rs st' h₂
          refine ⟨by simp [pgLitsExpr, e₁, e₂, List.append_assoc], fun hcl => ?_⟩
          simp only [cleanExpr, Bool.and_eq_true] at hcl
          obtain ⟨⟨h1, h2⟩, h3⟩ := hcl
          have := phInv_append (psT "(" (by decide)) (phInv_append (p₁ h1)
            (phInv_append (psT " " (by decide)) (phInv_append
              (phInv_of_strClean (some 's') h2) (phInv_append (psT " " (by decide))
                (phInv_append (p₂ h3) (psT ")" (by decide)))))))
          simpa [pgLitsExpr, List.length_append, String.append_assoc] using this
  | starNode =>
      intro st s st' h
      simp only [pgVisitExpr, Except.ok.injEq, Prod.mk.injEq] at h
      obtain ⟨hs, hst⟩ := h
      refine ⟨by simp [pgLitsExpr, hst.symm], fun _ => ?_⟩
      rw [← hs]
      simpa [pgLitsExpr] using psT "*" (by decide)
  | aliasNode e name =>
      intro st s st' h
      simp only [pgVisitExpr] at h
      split at h
      · cases h
      · rename_i es st₁ h₁
        cases h
        obtain ⟨e₁, p₁⟩ := pgVisitExpr_inv e st es st' h₁
        refine ⟨by simp [pgLitsExpr, e₁], fun hcl => ?_⟩
        simp only [cleanExpr, Bool.and_eq_true] at hcl
        have := phInv_append (p₁ hcl.1) (phInv_append (psT " AS " (by decide))
          (phInv_of_strClean (some 's') hcl.2))
        simpa [pgLitsExpr, String.append_assoc] using this
  | castNode e dt =>
      intro st s st' h
      simp only [pgVisitExpr] at h
      split at h
      · cases h
      · rename_i es st₁ h₁
        cases h
        obtain ⟨e₁, p₁⟩ := pgVisitExpr_inv e st es st' h₁
        refine ⟨by simp [pgLitsExpr, e₁], fun hcl => ?_⟩
        simp only [cleanExpr, Bool.and_eq_true] at hcl
        have := phInv_append (psT "CAST(" (by decide)) (phInv_append (p₁ hcl.1)
          (phInv_append (psT " AS " (by decide)) (phInv_append
            (phInv_of_strClean (some 's') hcl.2) (psT ")" (by decide)))))
        simpa [pgLitsExpr, String.append_assoc] using this
  | functionCallNode name args over =>
      intro st s st' h
      simp only [pgVisitExpr] at h
      split at h
      · cases h
      · rename_i ss st₁ h₁
        cases h
        obtain ⟨e₁, p₁⟩ := pgVisitExprList_inv args st ss st' h₁
        refine ⟨by simp [pgLitsExpr, e₁], fun hcl => ?_⟩
        simp only [cleanExpr, Bool.and_eq_true] at hcl
        obtain ⟨⟨h1, h2⟩, _⟩ := hcl
        have := phInv_append (phInv_of_strClean (some 's') h1)
          (phInv_append (psT "(" (by decide)) (phInv_append
            (phInv_join ", " (p₁ h2) (by decide)) (psT ")" (by decide))))
        simpa [pgLitsExpr, String.append_assoc] using this
  | unaryOperationNode op e =>
      intro st s st' h
      simp only [pgVisitExpr] at h
      split at h
      · cases h
      · rename_i es st₁ h₁
        cases h
        obtain ⟨e₁, p₁⟩ := pgVisitExpr_inv e st es st' h₁
        refine ⟨by simp [pgLitsExpr, e₁], fun hcl => ?_⟩
        simp only [cleanExpr, Bool.and_eq_true] at hcl
        have := phInv_append (psT "(" (by decide))
          (phInv_append (phInv_of_strClean (some 's') hcl.1)
            (phInv_append (psT " " (by decide))
              (phInv_append (p₁ hcl.2) (psT ")" (by decide)))))
        simpa [pgLitsExpr, String.append_assoc] using this
  | inNode e vals neg =>
      intro st s st' h
      simp only [pgVisitExpr] at h
      split at h
      · cases h
      · rename_i es st₁ h₁
        split at h
        · cases h
        · rename_i vs st₂ h₂
          cases h
          obtain ⟨e₁, p₁⟩ := pgVisitExpr_inv e st es st₁ h₁
          obtain ⟨e₂, p₂⟩ := pgVisitExprList_inv vals st₁ vs st' h₂
          refine ⟨by simp [pgLitsExpr, e₁, e₂, List.append_assoc], fun hcl => ?_⟩
          simp only [cleanExpr, Bool.and_eq_true] at hcl
          have hop : psInv (if neg = true then "NOT IN" else "IN") 0 := by
            split <;> exact psT _ (by decide)
          have := phInv_append (psT "(" (by decide)) (phInv_append (p₁ hcl.1)
            (phInv_append (psT " " (by decide)) (phInv_append hop
              (phInv_append (psT " (" (by decide)) (phInv_append
                (phInv_join ", " (p₂ hcl.2) (by decide)) (psT "))" (by decide)))))))
          simpa [pgLitsExpr, List.length_append, String.append_assoc] using this
  | betweenNode e lo hi neg =>
      intro st s st' h
      simp only [pgVisitExpr] at h
      split at h
      · cases h
      · rename_i es st₁ h₁
        split at h
        · cases h
        · rename_i los st₂ h₂
          split at h
          · cases h
          · rename_i his st₃ h₃
            cases h
            obtain ⟨e₁, p₁⟩ := pgVisitExpr_inv e st es st₁ h₁
            obtain ⟨e₂, p₂⟩ := pgVisitExpr_inv lo st₁ los st₂ h₂
            obtain ⟨e₃, p₃⟩ := pgVisitExpr_inv hi st₂ his st' h₃
            refine ⟨by simp [pgLitsExpr, e₁, e₂, e₃, List.append_assoc], fun hcl => ?_⟩
            simp only [cleanExpr, Bool.and_eq_true] at hcl
            obtain ⟨⟨h1, h2⟩, h3⟩ := hcl
            have hop : psInv (if neg = true then "NOT BETWEEN" else "BETWEEN") 0 := by
              split <;> exact psT _ (by decide)
            have := phInv_append (psT "(" (by decide)) (phInv_append (p₁ h1)
              (phInv_append (psT " " (by decide)) (phInv_append hop
                (phInv_append (psT " " (by decide)) (phInv_append (p₂ h2)
                  (phInv_append (psT " AND " (by decide)) (phInv_append (p₃ h3)
                    (psT ")" (by decide)))))))))
            simpa [pgLitsExpr, List.length_append, String.append_assoc] using this
  | caseExpressionNode cases else_result =>
      intro st s st' h
      simp only [pgVisitExpr] at h
      split at h
      · cases h
      · rename_i cs st₁ h₁
        split at h
        · cases h
        · rename_i elseL st₂ h₂
          cases h
          obtain ⟨e₁, p₁⟩ := pgVisitWhenThenList_inv cases st cs st₁ h₁
          obtain ⟨e₂, p₂⟩ := pgElseSection_inv else_result st₁ elseL st' h₂
          refine ⟨by simp [pgLitsExpr, e₁, e₂, List.append_assoc], fun hcl => ?_⟩
          simp only [cleanExpr, Bool.and_eq_true] at hcl
          have := phInv_join " " (phInvList_append
            (phInvList_single (psT "CASE" (by decide)))
            (phInvList_append (p₁ hcl.1)
              (phInvList_append (p₂ hcl.2)
                (phInvList_single (psT "END" (by decide)))))) (by decide)
          simpa [pgLitsExpr, List.length_append, String.append_assoc] using this
  | subqueryNode sel subAlias =>
      intro st s st' h
      simp [pgVisitExpr] at h

theorem pgElseSection_inv (o : Option Expr) : ∀ st ss st',
    pgElseSection o st = .ok (ss, st') →
    st' = st ++ pgLitsExprOpt o ∧
    (cleanExprOpt '%' o = true → psInvList ss (pgLitsExprOpt o).length) := by
  cases o with
  | none =>
      intro st ss st' h
      simp only [pgElseSection, Except.ok.injEq, Prod.mk.injEq] at h
      obtain ⟨hs, hst⟩ := h
      refine ⟨by simp [pgLitsExprOpt, hst.symm], fun _ => ?_⟩
      rw [← hs]
      simpa [pgLitsExprOpt] using phInvList_nil '%' (some 's')
  | some e =>
      intro st ss st' h
      simp only [pgElseSection] at h
      split at h
      · cases h
      · rename_i es st₁ h₁
        cases h
        obtain ⟨e₁, p₁⟩ := pgVisitExpr_inv e st es st' h₁
        refine ⟨by simp [pgLitsExprOpt, e₁], fun hcl => ?_⟩
        simp only [cleanExprOpt] at hcl
        simpa [pgLitsExprOpt, String.append_assoc] using phInvList_single
          (phInv_append (psT "ELSE " (by decide)) (p₁ hcl))

theorem pgVisitExprList_inv (es : List Expr) : ∀ st ss st',
    pgVisitExprList es st = .ok (ss, st') →
    st' = st ++ pgLitsExprList es ∧
    (cleanExprList '%' es = true →
      psInvList ss (pgLitsExprList es).length) := by
  cases es with
  | nil =>
      intro st ss st' h
      simp only [pgVisitExprList, Except.ok.injEq, Prod.mk.injEq] at h
      obtain ⟨hs, hst⟩ := h
      refine ⟨by simp [pgLitsExprList, hst.symm], fun _ => ?_⟩
      rw [← hs]
      simpa [pgLitsExprList] using phInvList_nil '%' (some 's')
  | cons e rest =>
      intro st ss st' h
      simp only [pgVisitExprList] at h
      split at h
      · cases h
      · rename_i s₁ st₁ h₁
        split at h
        · cases h
        · rename_i ss₂ st₂ h₂
          cases h
          obtain ⟨e₁, p₁⟩ := pgVisitExpr_inv e st s₁ st₁ h₁
          obtain ⟨e₂, p₂⟩ := pgVisitExprList_inv rest st₁ ss₂ st' h₂
          refine ⟨by simp [pgLitsExprList, e₁, e₂, List.append_assoc], fun hcl => ?_⟩
          simp only [cleanExprList, Bool.and_eq_true] at hcl
          simpa [pgLitsExprList, List.length_append, String.append_assoc] using phInvList_cons (p₁ hcl.1) (p₂ hcl.2)

theorem pgVisitWhenThen_inv (w : WhenThen) : ∀ st s st',
    pgVisitWhenThen w st = .ok (s, st') →
    st' = st ++ pgLitsWhenThen w ∧
    (cleanWhenThen '%' w = true → psInv s (pgLitsWhenThen w).length) := by
  cases w with
  | whenThenNode c r =>
      intro st s st' h
      simp only [pgVisitWhenThen] at h
      split at h
      · cases h
      · rename_i cs st₁ h₁
        split at h
        · cases h
        · rename_i rs st₂ h₂
          cases h
          obtain ⟨e₁, p₁⟩ := pgVisitExpr_inv c st cs st₁ h₁
          obtain ⟨e₂, p₂⟩ := pgVisitExpr_inv r st₁ rs st' h₂
          refine ⟨by simp [pgLitsWhenThen, e₁, e₂, List.append_assoc], fun hcl => ?_⟩
          simp only [cleanWhenThen, Bool.and_eq_true] at hcl
          have := phInv_append (psT "WHEN " (by decide)) (phInv_append (p₁ hcl.1)
            (phInv_append (psT " THEN " (by decide)) (p₂ hcl.2)))
          simpa [pgLitsWhenThen, List.length_append, String.append_assoc] using this

theorem pgVisitWhenThenList_inv (ws : List WhenThen) : ∀ st ss st',
    pgVisitWhenThenList ws st = .ok (ss, st') →
    st' = st ++ pgLitsWhenThenList ws ∧
    (cleanWhenThenList '%' ws = true →
      psInvList ss (pgLitsWhenThenList ws).length) := by
  cases ws with
  | nil =>
      intro st ss st' h
      simp only [pgVisitWhenThenList, Except.ok.injEq, Prod.mk.injEq] at h
      obtain ⟨hs, hst⟩ := h
      refine ⟨by simp [pgLitsWhenThenList, hst.symm], fun _ => ?_⟩
      rw [← hs]
      simpa [pgLitsWhenThenList] using phInvList_nil '%' (some 's')
  | cons w rest =>
      intro st ss st' h
      simp only [pgVisitWhenThenList] at h
      split at h
      · cases h
      · rename_i s₁ st₁ h₁
        split at h
        · cases h
        · rename_i ss₂ st₂ h₂
          cases h
          obtain ⟨e₁, p₁⟩ := pgVisitWhenThen_inv w st s₁ st₁ h₁
          obtain ⟨e₂, p₂⟩ := pgVisitWhenThenList_inv rest st₁ ss₂ st' h₂
          refine ⟨by simp [pgLitsWhenThenList, e₁, e₂, List.append_assoc],
            fun hcl => ?_⟩
          simp only [cleanWhenThenList, Bool.and_eq_true] at hcl
          simpa [pgLitsWhenThenList, List.length_append, String.append_assoc] using phInvList_cons (p₁ hcl.1) (p₂ hcl.2)

theorem pgVisitFrom_inv (f : FromClause) : ∀ st s st',
    pgVisitFrom f st = .ok (s, st') →
    st' = st ++ pgLitsFrom f ∧
    (cleanFrom '%' f = true → psInv s (pgLitsFrom f).length) := by
  cases f with
  | tableNode t =>
      intro st s st' h
      simp only [pgVisitFrom, Except.ok.injEq, Prod.mk.injEq] at h
      obtain ⟨hs, hst⟩ := h
      refine ⟨by simp [pgLitsFrom, hst.symm], fun hcl => ?_⟩
      simp only [cleanFrom] at hcl
      rw [← hs]
      simpa [pgLitsFrom] using pgVisitTableNode_inv '%' (some 's') (by decide) hcl
  | joinClauseNode l r on_c jt =>
      intro st s st' h
      simp only [pgVisitFrom] at h
      split at h
      · cases h
      · rename_i ls st₁ h₁
        split at h
        · cases h
        · rename_i rs st₂ h₂
          split at h
          · cases h
          · rename_i os st₃ h₃
            cases h
            obtain ⟨e₁, p₁⟩ := pgVisitFrom_inv l st ls st₁ h₁
            obtain ⟨e₂, p₂⟩ := pgVisitFrom_inv r st₁ rs st₂ h₂
            obtain ⟨e₃, p₃⟩ := pgVisitExpr_inv on_c st₂ os st' h₃
            refine ⟨by simp [pgLitsFrom, e₁, e₂, e₃, List.append_assoc], fun hcl => ?_⟩
            simp only [cleanFrom, Bool.and_eq_true] at hcl
            obtain ⟨⟨⟨h1, h2⟩, h3⟩, h4⟩ := hcl
            have := phInv_append (p₁ h1) (phInv_append (psT " " (by decide))
              (phInv_append (phInv_of_strClean (some 's') h4)
                (phInv_append (psT " JOIN " (by decide)) (phInv_append (p₂ h2)
                  (phInv_append (psT " ON " (by decide)) (p₃ h3))))))
            simpa [pgLitsFrom, List.length_append, String.append_assoc] using this
  | subqueryNode sel subAlias =>
      intro st s st' h
      simp [pgVisitFrom] at h

theorem pgVisitWhere_inv (w : Where) : ∀ st s st',
    pgVisitWhere w st = .ok (s, st') →
    st' = st ++ pgLitsWhereOpt (some w) ∧
    (cleanWhere '%' w = true → psInv s (pgLitsWhereOpt (some w)).length) := by
  cases w with
  | whereClauseNode c =>
      intro st s st' h
      simp only [pgVisitWhere] at h
      split at h
      · cases h
      · rename_i cs st₁ h₁
        cases h
        obtain ⟨e₁, p₁⟩ := pgVisitExpr_inv c st cs st' h₁
        refine ⟨by simp [pgLitsWhereOpt, e₁], fun hcl => ?_⟩
        simp only [cleanWhere] at hcl
        have := phInv_append (psT "WHERE " (by decide)) (p₁ hcl)
        simpa [pgLitsWhereOpt, String.append_assoc] using this

theorem pgVisitGroupBy_inv (g : GroupByClause) : ∀ st s st',
    pgVisitGroupBy g st = .ok (s, st') →
    st' = st ++ pgLitsGroupOpt (some g) ∧
    (cleanGroupBy '%' g = true → psInv s (pgLitsGroupOpt (some g)).length) := by
  cases g with
  | groupByClauseNode es =>
      intro st s st' h
      simp only [pgVisitGroupBy] at h
      split at h
      · cases h
      · rename_i ss st₁ h₁
        cases h
        obtain ⟨e₁, p₁⟩ := pgVisitExprList_inv es st ss st' h₁
        refine ⟨by simp [pgLitsGroupOpt, e₁], fun hcl => ?_⟩
        simp only [cleanGroupBy] at hcl
        have := phInv_append (psT "GROUP BY " (by decide))
          (phInv_join ", " (p₁ hcl) (by decide))
        simpa [pgLitsGroupOpt, String.append_assoc] using this

theorem pgVisitHaving_inv (hv : Having) : ∀ st s st',
    pgVisitHaving hv st = .ok (s, st') →
    st' = st ++ pgLitsHavingOpt (some hv) ∧
    (cleanHaving '%' hv = true → psInv s (pgLitsHavingOpt (some hv)).length) := by
  cases hv with
  | havingClauseNode c =>
      intro st s st' h
      simp only [pgVisitHaving] at h
      split at h
      · cases h
      · rename_i cs st₁ h₁
        cases h
        obtain ⟨e₁, p₁⟩ := pgVisitExpr_inv c st cs st' h₁
        refine ⟨by simp [pgLitsHavingOpt, e₁], fun hcl => ?_⟩
        simp only [cleanHaving] at hcl
        have := phInv_append (psT "HAVING " (by decide)) (p₁ hcl)
        simpa [pgLitsHavingOpt, String.append_assoc] using this

theorem pgVisitOrderBy_inv (o : OrderBy) : ∀ st s st',
    pgVisitOrderBy o st = .ok (s, st') →
    st' = st ++ pgLitsOrderBy o ∧
    (cleanOrderBy '%' o = true → psInv s (pgLitsOrderBy o).length) := by
  cases o with
  | orderByClauseNode e dir =>
      intro st s st' h
      simp only [pgVisitOrderBy] at h
      split at h
      · cases h
      · rename_i es st₁ h₁
        cases h
        obtain ⟨e₁, p₁⟩ := pgVisitExpr_inv e st es st' h₁
        refine ⟨by simp [pgLitsOrderBy, e₁], fun hcl => ?_⟩
        simp only [cleanOrderBy, Bool.and_eq_true] at hcl
        have := phInv_append (p₁ hcl.1) (phInv_append (psT " " (by decide))
          (phInv_of_strClean (some 's') hcl.2))
        simpa [pgLitsOrderBy, String.append_assoc] using this

theorem pgVisitOrderByList_inv (os : List OrderBy) : ∀ st ss st',
    pgVisitOrderByList os st = .ok (ss, st') →
    st' = st ++ pgLitsOrderByList os ∧
    (cleanOrderByList '%' os = true →
      psInvList ss (pgLitsOrderByList os).length) := by
  cases os with
  | nil =>
      intro st ss st' h
      simp only [pgVisitOrderByList, Except.ok.injEq, Prod.mk.injEq] at h
      obtain ⟨hs, hst⟩ := h
      refine ⟨by simp [pgLitsOrderByList, hst.symm], fun _ => ?_⟩
      rw [← hs]
      simpa [pgLitsOrderByList] using phInvList_nil '%' (some 's')
  | cons o rest =>
      intro st ss st' h
      simp only [pgVisitOrderByList] at h
      split at h
      · cases h
      · rename_i s₁ st₁ h₁
        split at h
        · cases h
        · rename_i ss₂ st₂ h₂
          cases h
          obtain ⟨e₁, p₁⟩ := pgVisitOrderBy_inv o st s₁ st₁ h₁
          obtain ⟨e₂, p₂⟩ := pgVisitOrderByList_inv rest st₁ ss₂ st' h₂
          refine ⟨by simp [pgLitsOrderByList, e₁, e₂, List.append_assoc],
            fun hcl => ?_⟩
          simp only [cleanOrderByList, Bool.and_eq_true] at hcl
          simpa [pgLitsOrderByList, List.length_append, String.append_assoc] using phInvList_cons (p₁ hcl.1) (p₂ hcl.2)

end

/-! Section-level invariants for the Postgres SELECT assembly. -/

theorem phInvList_zero (mark : Char) (fol : Option Char) (ss : List String)
    (h : ∀ p ∈ ss, countChar mark p = 0) : phInvList mark fol ss 0 := by
  refine ⟨?_, ?_⟩
  · apply List.sum_eq_zero
    intro x hx
    rcases List.mem_map.mp hx with ⟨p, hp, rfl⟩
    exact h p hp
  · intro f _ p hp
    exact followedOkS_of_count_zero mark f p (h p hp)

theorem pgFromSection_inv (o : Option FromClause) : ∀ st l st',
    pgFromSection o st = .ok (l, st') →
    st' = st ++ pgLitsFromOpt o ∧
    (cleanFromOpt '%' o = true → psInvList l (pgLitsFromOpt o).length) := by
  cases o with
  | none =>
      intro st l st' h
      simp only [pgFromSection, Except.ok.injEq, Prod.mk.injEq] at h
      obtain ⟨hs, hst⟩ := h
      refine ⟨by simp [pgLitsFromOpt, hst.symm], fun _ => ?_⟩
      rw [← hs]
      simpa [pgLitsFromOpt] using phInvList_nil '%' (some 's')
  | some f =>
      intro st l st' h
      simp only [pgFromSection] at h
      split at h
      · cases h
      · rename_i fs st₁ h₁
        cases h
        obtain ⟨e₁, p₁⟩ := pgVisitFrom_inv f st fs st' h₁
        refine ⟨by simpa [pgLitsFromOpt] using e₁, fun hcl => ?_⟩
        simp only [cleanFromOpt] at hcl
        simpa [pgLitsFromOpt] using
          phInvList_cons (psT "FROM" (by decide)) (phInvList_single (p₁ hcl))

theorem pgWhereSection_inv (o : Option Where) : ∀ st l st',
    pgWhereSection o st = .ok (l, st') →
    st' = st ++ pgLitsWhereOpt o ∧
    (cleanWhereOpt '%' o = true → psInvList l (pgLitsWhereOpt o).length) := by
  cases o with
  | none =>
      intro st l st' h
      simp only [pgWhereSection, Except.ok.injEq, Prod.mk.injEq] at h
      obtain ⟨hs, hst⟩ := h
      refine ⟨by simp [pgLitsWhereOpt, hst.symm], fun _ => ?_⟩
      rw [← hs]
      simpa [pgLitsWhereOpt] using phInvList_nil '%' (some 's')
  | some w =>
      intro st l st' h
      simp only [pgWhereSection] at h
      split at h
      · cases h
      · rename_i ws st₁ h₁
        cases h
        obtain ⟨e₁, p₁⟩ := pgVisitWhere_inv w st ws st' h₁
        exact ⟨e₁, fun hcl => phInvList_single (p₁ hcl)⟩

theorem pgGroupSection_inv (o : Option GroupByClause) : ∀ st l st',
    pgGroupSection o st = .ok (l, st') →
    st' = st ++ pgLitsGroupOpt o ∧
    (cleanGroupByOpt '%' o = true → psInvList l (pgLitsGroupOpt o).length) := by
  cases o with
  | none =>
      intro st l st' h
      simp only [pgGroupSection, Except.ok.injEq, Prod.mk.injEq] at h
      obtain ⟨hs, hst⟩ := h
      refine ⟨by simp [pgLitsGroupOpt, hst.symm], fun _ => ?_⟩
      rw [← hs]
      simpa [pgLitsGroupOpt] using phInvList_nil '%' (some 's')
  | some g =>
      intro st l st' h
      simp only [pgGroupSection] at h
      split at h
      · cases h
      · rename_i gs st₁ h₁
        cases h
        obtain ⟨e₁, p₁⟩ := pgVisitGroupBy_inv g st gs st' h₁
        exact ⟨e₁, fun hcl => phInvList_single (p₁ hcl)⟩

theorem pgHavingSection_inv (o : Option Having) : ∀ st l st',
    pgHavingSection o st = .ok (l, st') →
    st' = st ++ pgLitsHavingOpt o ∧
    (cleanHavingOpt '%' o = true → psInvList l (pgLitsHavingOpt o).length) := by
  cases o with
  | none =>
      intro st l st' h
      simp only [pgHavingSection, Except.ok.injEq, Prod.mk.injEq] at h
      obtain ⟨hs, hst⟩ := h
      refine ⟨by simp [pgLitsHavingOpt, hst.symm], fun _ => ?_⟩
      rw [← hs]
      simpa [pgLitsHavingOpt] using phInvList_nil '%' (some 's')
  | some hv =>
      intro st l st' h
      simp only [pgHavingSection] at h
      split at h
      · cases h
      · rename_i hs st₁ h₁
        cases h
        obtain ⟨e₁, p₁⟩ := pgVisitHaving_inv hv st hs st' h₁
        exact ⟨e₁, fun hcl => phInvList_single (p₁ hcl)⟩

theorem pgOrderBySection_inv (o : Option (List OrderBy)) : ∀ st s st',
    pgOrderBySection o st = .ok (s, st') →
    st' = st ++ pgLitsOrderBySection o ∧
    (s = "" ↔ truthyList o = false) ∧
    (cleanOrderByListOpt '%' o = true →
      psInv s (pgLitsOrderBySection o).length) := by
  cases o with
  | none =>
      intro st s st' h
      simp only [pgOrderBySection, Except.ok.injEq, Prod.mk.injEq] at h
      obtain ⟨hs, hst⟩ := h
      refine ⟨by simp [pgLitsOrderBySection, hst.symm], ?_, fun _ => ?_⟩
      · simp [← hs, truthyList]
      · rw [← hs]
        simpa [pgLitsOrderBySection] using psT "" (by decide)
  | some items =>
      intro st s st' h
      simp only [pgOrderBySection] at h
      split at h
      · rename_i hempty
        simp only [Except.ok.injEq, Prod.mk.injEq] at h
        obtain ⟨hs, hst⟩ := h
        refine ⟨by simp [pgLitsOrderBySection, hempty, hst.symm], ?_, fun _ => ?_⟩
        · simp [← hs, truthyList, hempty]
        · rw [← hs]
          simpa [pgLitsOrderBySection, hempty] using psT "" (by decide)
      · rename_i hempty
        split at h
        · cases h
        · rename_i ss st₁ h₁
          cases h
          obtain ⟨e₁, p₁⟩ := pgVisitOrderByList_inv items st ss st' h₁
          refine ⟨by simp [pgLitsOrderBySection, hempty, e₁], ?_, fun hcl => ?_⟩
          · constructor
            · intro heq
              have hlen := congrArg String.length heq
              simp [String.length_append] at hlen
              exact absurd hlen.1 (by decide)
            · intro htr
              simp [truthyList, hempty] at htr
          · simp only [cleanOrderByListOpt] at hcl
            have := phInv_append (psT "ORDER BY " (by decide))
              (phInv_join ", " (p₁ hcl) (by decide))
            simpa [pgLitsOrderBySection, hempty] using this

theorem pgTopOrderSection_inv (tc : Option Top) (obSql : String) : ∀ st s' st₁,
    pgTopOrderSection tc obSql st = .ok (s', st₁) →
    st₁ = st ++ (if obSql = "" then pgLitsTopExpr tc else []) ∧
    (cleanTopOpt '%' tc = true → ∀ m, psInv obSql m →
      psInv s' (m + (if obSql = "" then (pgLitsTopExpr tc).length else 0))) := by
  intro st s' st₁ h
  match tc, h with
  | none, h =>
      simp only [pgTopOrderSection, Except.ok.injEq, Prod.mk.injEq] at h
      obtain ⟨hs, hst⟩ := h
      refine ⟨by simp [pgLitsTopExpr, hst.symm], fun _ m hm => ?_⟩
      rw [← hs]
      have : psInv obSql (m + (if obSql = "" then 0 else 0)) := by simpa using hm
      simpa [pgLitsTopExpr] using this
  | some (.topClauseNode cnt none dir), h =>
      simp only [pgTopOrderSection, Except.ok.injEq, Prod.mk.injEq] at h
      obtain ⟨hs, hst⟩ := h
      refine ⟨by simp [pgLitsTopExpr, hst.symm], fun _ m hm => ?_⟩
      rw [← hs]
      have : psInv obSql (m + (if obSql = "" then 0 else 0)) := by simpa using hm
      simpa [pgLitsTopExpr] using this
  | some (.topClauseNode cnt (some e) dir), h =>
      simp only [pgTopOrderSection] at h
      split at h
      · rename_i hob
        split at h
        · cases h
        · rename_i es st₂ h₁
          cases h
          obtain ⟨e₁, p₁⟩ := pgVisitExpr_inv e st es st₁ h₁
          refine ⟨by simp [pgLitsTopExpr, hob, e₁], fun hcl m hm => ?_⟩
          simp only [cleanTop, cleanTopOpt, cleanExprOpt, Bool.and_eq_true] at hcl
          have hm0 : m = 0 := phInv_empty_eq_zero (hob ▸ hm)
          have := phInv_append (psT "ORDER BY " (by decide))
            (phInv_append (p₁ hcl.1) (phInv_append (psT " " (by decide))
              (phInv_of_strClean (some 's') hcl.2)))
          simpa [pgLitsTopExpr, hob, hm0, String.append_assoc] using this
      · rename_i hob
        cases h
        refine ⟨by simp [hob], fun _ m hm => ?_⟩
        simpa [hob] using hm

theorem pgVisitSetList_inv (sets : List (String × Expr)) : ∀ st ss st',
    pgVisitSetList sets st = .ok (ss, st') →
    st' = st ++ pgLitsSetList sets ∧
    (cleanSetList '%' sets = true → psInvList ss (pgLitsSetList sets).length) := by
  induction sets with
  | nil =>
      intro st ss st' h
      simp only [pgVisitSetList, Except.ok.injEq, Prod.mk.injEq] at h
      obtain ⟨hs, hst⟩ := h
      refine ⟨by simp [pgLitsSetList, hst.symm], fun _ => ?_⟩
      rw [← hs]
      simpa [pgLitsSetList] using phInvList_nil '%' (some 's')
  | cons p rest ih =>
      obtain ⟨col, e⟩ := p
      intro st ss st' h
      simp only [pgVisitSetList] at h
      split at h
      · cases h
      · rename_i s₁ st₁ h₁
        split at h
        · cases h
        · rename_i ss₂ st₂ h₂
          cases h
          obtain ⟨e₁, p₁⟩ := pgVisitExpr_inv e st s₁ st₁ h₁
          obtain ⟨e₂, p₂⟩ := ih st₁ ss₂ st' h₂
          refine ⟨by simp [pgLitsSetList, e₁, e₂, List.append_assoc], fun hcl => ?_⟩
          simp only [cleanSetList, Bool.and_eq_true] at hcl
          obtain ⟨⟨h1, h2⟩, h3⟩ := hcl
          simpa [pgLitsSetList, List.length_append, String.append_assoc] using
            phInvList_cons (phInv_append (phInv_of_strClean (some 's') h1)
              (phInv_append (psT " = " (by decide)) (p₁ h2))) (p₂ h3)

theorem colsSuffix_psInv (columns : Option (List ColumnRef))
    (h : columnsClean '%' columns = true) :
    psInv (if truthyList columns then
      " (" ++ pyJoin ", " ((columns.getD []).map ColumnRef.name) ++ ")"
    else "") 0 := by
  split
  · rename_i htr
    cases columns with
    | none => simp [truthyList] at htr
    | some cs =>
        have hall : ∀ p ∈ cs.map ColumnRef.name, countChar '%' p = 0 := by
          intro p hp
          rcases List.mem_map.mp hp with ⟨c, hc, rfl⟩
          simp only [columnsClean, List.all_eq_true] at h
          exact strClean_count (h c hc)
        have := phInv_append (psT " (" (by decide)) (phInv_append
          (phInv_join ", " (phInvList_zero '%' (some 's') _ hall) (by decide))
          (psT ")" (by decide)))
        simpa [String.append_assoc] using this
  · exact psT "" (by decide)

theorem pgVisitSelect_inv (n : Select) : ∀ st s st',
    pgVisitSelect n st = .ok (s, st') →
    st' = st ++ pgLitsSelect n ∧
    (cleanSelect '%' n = true → psInv s (pgLitsSelect n).length) := by
  cases n with
  | mk sl dist ctes ft wc gb hc ob tc lim off lk =>
      intro st s st' h
      simp only [pgVisitSelect] at h
      split at h
      · cases h
      · split at h
        · cases h
        · rename_i items st₁ hsl
          split at h
          · cases h
          · rename_i fromL st₂ hft
            split at h
            · cases h
            · rename_i whereL st₃ hwc
              split at h
              · cases h
              · rename_i groupL st₄ hgb
                split at h
                · cases h
                · rename_i havL st₅ hhc
                  split at h
                  · cases h
                  · rename_i obSql st₆ hob
                    split at h
                    · cases h
                    · rename_i obSql₂ st₇ htop
                      cases h
                      obtain ⟨e₁, p₁⟩ := pgVisitExprList_inv sl st items st₁ hsl
                      obtain ⟨e₂, p₂⟩ := pgFromSection_inv ft st₁ fromL st₂ hft
                      obtain ⟨e₃, p₃⟩ := pgWhereSection_inv wc st₂ whereL st₃ hwc
                      obtain ⟨e₄, p₄⟩ := pgGroupSection_inv gb st₃ groupL st₄ hgb
                      obtain ⟨e₅, p₅⟩ := pgHavingSection_inv hc st₄ havL st₅ hhc
                      obtain ⟨e₆, hiff, p₆⟩ := pgOrderBySection_inv ob st₅ obSql st₆ hob
                      obtain ⟨e₇, p₇⟩ := pgTopOrderSection_inv tc obSql st₆ obSql₂ st' htop
                      have hifeq : (if obSql = "" then pgLitsTopExpr tc else []) =
                          (if truthyList ob = true then [] else pgLitsTopExpr tc) := by
                        cases htr : truthyList ob with
                        | false => rw [if_pos (hiff.mpr htr), if_neg (by simp)]
                        | true =>
                            rw [if_neg, if_pos rfl]
                            intro hobq
                            rw [hiff] at hobq
                            rw [htr] at hobq
                            cases hobq
                      constructor
                      · rw [e₇, e₆, e₅, e₄, e₃, e₂, e₁, hifeq]
                        simp [pgLitsSelect, List.append_assoc]
                      · intro hcl
                        simp only [cleanSelect, Bool.and_eq_true] at hcl
                        obtain ⟨⟨⟨⟨⟨⟨⟨⟨hc₁, _⟩, hc₂⟩, hc₃⟩, hc₄⟩, hc₅⟩, hc₆⟩, hc₇⟩, _⟩ := hcl
                        have q₆ := p₆ hc₆
                        have q₇ := p₇ hc₇ _ q₆
                        have hdist : psInvList (if dist = true then ["DISTINCT"] else []) 0 := by
                          split
                          · simpa using phInvList_single (psT "DISTINCT" (by decide))
                          · exact phInvList_nil _ _
                        have hord : psInvList (if obSql₂ ≠ "" then [obSql₂] else [])
                            ((pgLitsOrderBySection ob).length +
                              (if obSql = "" then (pgLitsTopExpr tc).length else 0)) := by
                          split
                          · exact phInvList_single q₇
                          · rename_i hne
                            have hzero := phInv_empty_eq_zero
                              ((not_not.mp (by simpa using hne)) ▸ q₇)
                            rw [hzero]
                            exact phInvList_nil _ _
                        have chain := phInvList_append (phInvList_append (phInvList_append
                          (phInvList_append (phInvList_append (phInvList_append
                            (phInvList_append (phInvList_append (phInvList_append
                              (phInvList_single (psT "SELECT" (by decide))) hdist)
                              (phInvList_single (phInv_join ", " (p₁ hc₁) (by decide))))
                              (p₂ hc₂)) (p₃ hc₃)) (p₄ hc₄)) (p₅ hc₅)) hord)
                          (limitParts_psInv lim)) (offsetParts_psInv off)
                        have chain₂ := phInvList_append chain (topLimitParts_psInv tc)
                        apply phInv_cast (phInv_join " " chain₂ (by decide))
                        have hlen : (if obSql = "" then (pgLitsTopExpr tc).length else 0) =
                            (if truthyList ob = true then [] else pgLitsTopExpr tc).length := by
                          rw [← hifeq]
                          split <;> simp
                        rw [hlen]
                        simp [pgLitsSelect, List.length_append]
                        omega

theorem pgVisitStmt_inv (node : Stmt) : ∀ st s st',
    pgVisitStmt node st = .ok (s, st') →
    st' = st ++ pgLitsStmt node ∧
    (cleanStmt '%' node = true → psInv s (pgLitsStmt node).length) := by
  cases node with
  | selectStatementNode n =>
      intro st s st' h
      have h' : pgVisitSelect n st = .ok (s, st') := h
      obtain ⟨e₁, p₁⟩ := pgVisitSelect_inv n st s st' h'
      exact ⟨e₁, fun hcl => by
        simp only [cleanStmt] at hcl
        simpa [pgLitsStmt] using p₁ hcl⟩
  | deleteStatementNode table wc ret =>
      intro st s st' h
      simp only [pgVisitStmt] at h
      split at h
      · cases h
      · rename_i whereL st₁ h₁
        cases h
        obtain ⟨e₁, p₁⟩ := pgWhereSection_inv wc st whereL st' h₁
        refine ⟨by simpa [pgLitsStmt] using e₁, fun hcl => ?_⟩
        simp only [cleanStmt, Bool.and_eq_true] at hcl
        obtain ⟨⟨h1, h2⟩, _⟩ := hcl
        have := phInv_join " " (phInvList_append (phInvList_append
          (phInvList_single (psT "DELETE FROM" (by decide)))
          (phInvList_single (pgVisitTableNode_inv '%' (some 's') (by decide) h1)))
          (p₁ h2)) (by decide)
        simpa [pgLitsStmt] using this
  | insertStatementNode table values columns rows ups ret =>
      cases values with
      | none =>
          intro st s st' h
          simp [pgVisitStmt] at h
      | some vs =>
          intro st s st' h
          simp only [pgVisitStmt] at h
          split at h
          · cases h
          · rename_i ss st₁ h₁
            cases h
            obtain ⟨e₁, p₁⟩ := pgVisitExprList_inv vs st ss st' h₁
            refine ⟨by simp [pgLitsStmt, e₁], fun hcl => ?_⟩
            simp only [cleanStmt, Bool.and_eq_true, cleanExprListOpt] at hcl
            obtain ⟨⟨⟨⟨⟨h1, h2⟩, h3⟩, _⟩, _⟩, _⟩ := hcl
            have := phInv_append (psT "INSERT INTO " (by decide)) (phInv_append
              (pgVisitTableNode_inv '%' (some 's') (by decide) h1)
              (phInv_append (colsSuffix_psInv columns h3) (phInv_append
                (psT " VALUES (" (by decide)) (phInv_append
                  (phInv_join ", " (p₁ h2) (by decide)) (psT ")" (by decide))))))
            simpa [pgLitsStmt, String.append_assoc] using this
  | updateStatementNode table sets wc ret =>
      intro st s st' h
      simp only [pgVisitStmt] at h
      split at h
      · cases h
      · rename_i ss st₁ h₁
        split at h
        · cases h
        · rename_i whereL st₂ h₂
          cases h
          obtain ⟨e₁, p₁⟩ := pgVisitSetList_inv sets st ss st₁ h₁
          obtain ⟨e₂, p₂⟩ := pgWhereSection_inv wc st₁ whereL st' h₂
          refine ⟨by simp [pgLitsStmt, e₁, e₂, List.append_assoc], fun hcl => ?_⟩
          simp only [cleanStmt, Bool.and_eq_true] at hcl
          obtain ⟨⟨⟨h1, h2⟩, h3⟩, _⟩ := hcl
          have := phInv_join " " (phInvList_append (phInvList_single
            (phInv_append (psT "UPDATE " (by decide)) (phInv_append
              (pgVisitTableNode_inv '%' (some 's') (by decide) h1)
              (phInv_append (psT " SET " (by decide))
                (phInv_join ", " (p₁ h2) (by decide)))))) (p₂ h3)) (by decide)
          simpa [pgLitsStmt, List.length_append, String.append_assoc] using this
  | unionNode l r all =>
      intro st s st' h
      simp only [pgVisitStmt] at h
      split at h
      · cases h
      · rename_i ls st₁ h₁
        split at h
        · cases h
        · rename_i rs st₂ h₂
          cases h
          obtain ⟨e₁, p₁⟩ := pgVisitStmt_inv l st ls st₁ h₁
          obtain ⟨e₂, p₂⟩ := pgVisitStmt_inv r st₁ rs st' h₂
          refine ⟨by simp [pgLitsStmt, e₁, e₂, List.append_assoc], fun hcl => ?_⟩
          simp only [cleanStmt, Bool.and_eq_true] at hcl
          have hop : psInv (if all = true then "UNION ALL" else "UNION") 0 := by
            split <;> exact psT _ (by decide)
          have := phInv_append (psT "(" (by decide)) (phInv_append (p₁ hcl.1)
            (phInv_append (psT " " (by decide)) (phInv_append hop
              (phInv_append (psT " " (by decide)) (phInv_append (p₂ hcl.2)
                (psT ")" (by decide)))))))
          simpa [pgLitsStmt, List.length_append, String.append_assoc] using this
  | intersectNode l r all =>
      intro st s st' h
      simp only [pgVisitStmt] at h
      split at h
      · cases h
      · rename_i ls st₁ h₁
        split at h
        · cases h
        · rename_i rs st₂ h₂
          cases h
          obtain ⟨e₁, p₁⟩ := pgVisitStmt_inv l st ls st₁ h₁
          obtain ⟨e₂, p₂⟩ := pgVisitStmt_inv r st₁ rs st' h₂
          refine ⟨by simp [pgLitsStmt, e₁, e₂, List.append_assoc], fun hcl => ?_⟩
          simp only [cleanStmt, Bool.and_eq_true] at hcl
          have hop : psInv (if all = true then "INTERSECT ALL" else "INTERSECT") 0 := by
            split <;> exact psT _ (by decide)
          have := phInv_append (psT "(" (by decide)) (phInv_append (p₁ hcl.1)
            (phInv_append (psT " " (by decide)) (phInv_append hop
              (phInv_append (psT " " (by decide)) (phInv_append (p₂ hcl.2)
                (psT ")" (by decide)))))))
          simpa [pgLitsStmt, List.length_append, String.append_assoc] using this
  | exceptNode l r all =>
      intro st s st' h
      simp only [pgVisitStmt] at h
      split at h
      · cases h
      · rename_i ls st₁ h₁
        split at h
        · cases h
        · rename_i rs st₂ h₂
          cases h
          obtain ⟨e₁, p₁⟩ := pgVisitStmt_inv l st ls st₁ h₁
          obtain ⟨e₂, p₂⟩ := pgVisitStmt_inv r st₁ rs st' h₂
          refine ⟨by simp [pgLitsStmt, e₁, e₂, List.append_assoc], fun hcl => ?_⟩
          simp only [cleanStmt, Bool.and_eq_true] at hcl
          have hop : psInv (if all = true then "EXCEPT ALL" else "EXCEPT") 0 := by
            split <;> exact psT _ (by decide)
          have := phInv_append (psT "(" (by decide)) (phInv_append (p₁ hcl.1)
            (phInv_append (psT " " (by decide)) (phInv_append hop
              (phInv_append (psT " " (by decide)) (phInv_append (p₂ hcl.2)
                (psT ")" (by decide)))))))
          simpa [pgLitsStmt, List.length_append, String.append_assoc] using this

/-! ## Parameter-binding invariant of the MySQL visitor

Same invariant as for Postgres, but the MySQL visitor also binds the
literals of CTEs, subqueries and window OVER clauses, and renders lock
clauses (which bind nothing). -/

theorem aliasSuffix_psInv {a : Option String} (h : optStrClean '%' a = true) :
    psInv (aliasSuffix a) 0 := by
  cases a with
  | none => exact psT "" (by decide)
  | some x =>
      have := phInv_append (psT " AS " (by decide))
        (phInv_of_strClean (some 's') (optStrClean_some h))
      simpa [aliasSuffix] using this

theorem mysqlLockSection_inv (o : Option Lock) : ∀ st l st',
    mysqlLockSection o st = .ok (l, st') →
    st' = st ∧ psInvList l 0 := by
  cases o with
  | none =>
      intro st l st' h
      simp only [mysqlLockSection, Except.ok.injEq, Prod.mk.injEq] at h
      obtain ⟨hs, hst⟩ := h
      refine ⟨hst.symm, ?_⟩
      rw [← hs]
      exact phInvList_nil '%' (some 's')
  | some lk =>
      intro st l st' h
      simp only [mysqlLockSection] at h
      split at h
      · cases h
      · rename_i s₁ h₁
        cases h
        exact ⟨rfl, phInvList_single (mysqlLock_psInv h₁)⟩

set_option maxHeartbeats 6400000 in
mutual

theorem mysqlVisitExpr_inv (e : Expr) : ∀ st s st', mysqlVisitExpr e st = .ok (s, st') →
    st' = st ++ myLitsExpr e ∧
    (cleanExpr '%' e = true → psInv s (myLitsExpr e).length) := by
  cases e with
  | literalNode v =>
      intro st s st' h
      simp only [mysqlVisitExpr, Except.ok.injEq, Prod.mk.injEq] at h
      obtain ⟨hs, hst⟩ := h
      refine ⟨by simp [myLitsExpr, hst.symm], fun _ => ?_⟩
      rw [← hs]
      simpa [myLitsExpr] using psInv_placeholder
  | columnNode name table =>
      intro st s st' h
      simp only [mysqlVisitExpr, Except.ok.injEq, Prod.mk.injEq] at h
      obtain ⟨hs, hst⟩ := h
      refine ⟨by simp [myLitsExpr, hst.symm], fun hcl => ?_⟩
      simp only [cleanExpr, Bool.and_eq_true] at hcl
      rw [← hs]
      simpa [myLitsExpr] using
        pgVisitColumnNode_inv '%' (some 's') (by decide) hcl.1 hcl.2
  | binaryOperationNode l op r =>
      intro st s st' h
      simp only [mysqlVisitExpr] at h
      split at h
      · cases h
      · rename_i ls st₁ h₁
        split at h
        · cases h
        · rename_i rs st₂ h₂
          cases h
          obtain ⟨e₁, p₁⟩ := mysqlVisitExpr_inv l st ls st₁ h₁
          obtain ⟨e₂, p₂⟩ := mysqlVisitExpr_inv r st₁ rs st' h₂
          refine ⟨by simp [myLitsExpr, e₁, e₂, List.append_assoc], fun hcl => ?_⟩
          simp only [cleanExpr, Bool.and_eq_true] at hcl
          obtain ⟨⟨h1, h2⟩, h3⟩ := hcl
          have := phInv_append (psT "(" (by decide)) (phInv_append (p₁ h1)
            (phInv_append (psT " " (by decide)) (phInv_append
              (phInv_of_strClean (some 's') h2) (phInv_append (psT " " (by decide))
                (phInv_append (p₂ h3) (psT ")" (by decide)))))))
          simpa [myLitsExpr, List.length_append, String.append_assoc] using this
  | starNode =>
      intro st s st' h
      simp only [mysqlVisitExpr, Except.ok.injEq, Prod.mk.injEq] at h
      obtain ⟨hs, hst⟩ := h
      refine ⟨by simp [myLitsExpr, hst.symm], fun _ => ?_⟩
      rw [← hs]
      simpa [myLitsExpr] using psT "*" (by decide)
  | aliasNode e name =>
      intro st s st' h
      simp only [mysqlVisitExpr] at h
      split at h
      · cases h
      · rename_i es st₁ h₁
        cases h
        obtain ⟨e₁, p₁⟩ := mysqlVisitExpr_inv e st es st' h₁
        refine ⟨by simp [myLitsExpr, e₁], fun hcl => ?_⟩
        simp only [cleanExpr, Bool.and_eq_true] at hcl
        have := phInv_append (p₁ hcl.1) (phInv_append (psT " AS " (by decide))
          (phInv_of_strClean (some 's') hcl.2))
        simpa [myLitsExpr, String.append_assoc] using this
  | castNode e dt =>
      intro st s st' h
      simp only [mysqlVisitExpr] at h
      split at h
      · cases h
      · rename_i es st₁ h₁
        cases h
        obtain ⟨e₁, p₁⟩ := mysqlVisitExpr_inv e st es st' h₁
        refine ⟨by simp [myLitsExpr, e₁], fun hcl => ?_⟩
        simp only [cleanExpr, Bool.and_eq_true] at hcl
        have := phInv_append (psT "CAST(" (by decide)) (phInv_append (p₁ hcl.1)
          (phInv_append (psT " AS " (by decide)) (phInv_append
            (phInv_of_strClean (some 's') hcl.2) (psT ")" (by decide)))))
        simpa [myLitsExpr, String.append_assoc] using this
  | functionCallNode name args over =>
      intro st s st' h
      simp only [mysqlVisitExpr] at h
      split at h
      · cases h
      · rename_i ss st₁ h₁
        split at h
        · cases h
        · rename_i ovS st₂ h₂
          cases h
          obtain ⟨e₁, p₁⟩ := mysqlVisitExprList_inv args st ss st₁ h₁
          obtain ⟨e₂, p₂⟩ := mysqlOverSection_inv over st₁ ovS st' h₂
          refine ⟨by simp [myLitsExpr, e₁, e₂, List.append_assoc], fun hcl => ?_⟩
          simp only [cleanExpr, Bool.and_eq_true] at hcl
          obtain ⟨⟨h1, h2⟩, h3⟩ := hcl
          have := phInv_append (phInv_of_strClean (some 's') h1)
            (phInv_append (psT "(" (by decide)) (phInv_append
              (phInv_join ", " (p₁ h2) (by decide))
              (phInv_append (psT ")" (by decide)) (p₂ h3))))
          simpa [myLitsExpr, List.length_append, String.append_assoc] using this
  | unaryOperationNode op e =>
      intro st s st' h
      simp only [mysqlVisitExpr] at h
      split at h
      · cases h
      · rename_i es st₁ h₁
        cases h
        obtain ⟨e₁, p₁⟩ := mysqlVisitExpr_inv e st es st' h₁
        refine ⟨by simp [myLitsExpr, e₁], fun hcl => ?_⟩
        simp only [cleanExpr, Bool.and_eq_true] at hcl
        have := phInv_append (psT "(" (by decide))
          (phInv_append (phInv_of_strClean (some 's') hcl.1)
            (phInv_append (psT " " (by decide))
              (phInv_append (p₁ hcl.2) (psT ")" (by decide)))))
        simpa [myLitsExpr, String.append_assoc] using this
  | inNode e vals neg =>
      intro st s st' h
      simp only [mysqlVisitExpr] at h
      split at h
      · cases h
      · rename_i es st₁ h₁
        split at h
        · cases h
        · rename_i vs st₂ h₂
          cases h
          obtain ⟨e₁, p₁⟩ := mysqlVisitExpr_inv e st es st₁ h₁
          obtain ⟨e₂, p₂⟩ := mysqlVisitExprList_inv vals st₁ vs st' h₂
          refine ⟨by simp [myLitsExpr, e₁, e₂, List.append_assoc], fun hcl => ?_⟩
          simp only [cleanExpr, Bool.and_eq_true] at hcl
          have hop : psInv (if neg = true then "NOT IN" else "IN") 0 := by
            split <;> exact psT _ (by decide)
          have := phInv_append (psT "(" (by decide)) (phInv_append (p₁ hcl.1)
            (phInv_append (psT " " (by decide)) (phInv_append hop
              (phInv_append (psT " (" (by decide)) (phInv_append
                (phInv_join ", " (p₂ hcl.2) (by decide)) (psT "))" (by decide)))))))
          simpa [myLitsExpr, List.length_append, String.append_assoc] using this
  | betweenNode e lo hi neg =>
      intro st s st' h
      simp only [mysqlVisitExpr] at h
      split at h
      · cases h
      · rename_i es st₁ h₁
        split at h
        · cases h
        · rename_i los st₂ h₂
          split at h
          · cases h
          · rename_i his st₃ h₃
            cases h
            obtain ⟨e₁, p₁⟩ := mysqlVisitExpr_inv e st es st₁ h₁
            obtain ⟨e₂, p₂⟩ := mysqlVisitExpr_inv lo st₁ los st₂ h₂
            obtain ⟨e₃, p₃⟩ := mysqlVisitExpr_inv hi st₂ his st' h₃
            refine ⟨by simp [myLitsExpr, e₁, e₂, e₃, List.append_assoc], fun hcl => ?_⟩
            simp only [cleanExpr, Bool.and_eq_true] at hcl
            obtain ⟨⟨h1, h2⟩, h3⟩ := hcl
            have hop : psInv (if neg = true then "NOT BETWEEN" else "BETWEEN") 0 := by
              split <;> exact psT _ (by decide)
            have := phInv_append (psT "(" (by decide)) (phInv_append (p₁ h1)
              (phInv_append (psT " " (by decide)) (phInv_append hop
                (phInv_append (psT " " (by decide)) (phInv_append (p₂ h2)
                  (phInv_append (psT " AND " (by decide)) (phInv_append (p₃ h3)
                    (psT ")" (by decide)))))))))
            simpa [myLitsExpr, List.length_append, String.append_assoc] using this
  | caseExpressionNode cases else_result =>
      intro st s st' h
      simp only [mysqlVisitExpr] at h
      split at h
      · cases h
      · rename_i cs st₁ h₁
        split at h
        · cases h
        · rename_i elseL st₂ h₂
          cases h
          obtain ⟨e₁, p₁⟩ := mysqlVisitWhenThenList_inv cases st cs st₁ h₁
          obtain ⟨e₂, p₂⟩ := mysqlElseSection_inv else_result st₁ elseL st' h₂
          refine ⟨by simp [myLitsExpr, e₁, e₂, List.append_assoc], fun hcl => ?_⟩
          simp only [cleanExpr, Bool.and_eq_true] at hcl
          have := phInv_join " " (phInvList_append
            (phInvList_single (psT "CASE" (by decide)))
            (phInvList_append (p₁ hcl.1)
              (phInvList_append (p₂ hcl.2)
                (phInvList_single (psT "END" (by decide)))))) (by decide)
          simpa [myLitsExpr, List.length_append, String.append_assoc] using this
  | subqueryNode sel subAlias =>
      intro st s st' h
      simp only [mysqlVisitExpr] at h
      split at h
      · cases h
      · rename_i ss st₁ h₁
        cases h
        obtain ⟨e₁, p₁⟩ := mysqlVisitSelect_inv sel st ss st' h₁
        refine ⟨by simp [myLitsExpr, e₁], fun hcl => ?_⟩
        simp only [cleanExpr, Bool.and_eq_true] at hcl
        have := phInv_append (psT "(" (by decide)) (phInv_append (p₁ hcl.1)
          (phInv_append (psT ")" (by decide)) (aliasSuffix_psInv hcl.2)))
        simpa [myLitsExpr, String.append_assoc] using this

theorem mysqlElseSection_inv (o : Option Expr) : ∀ st ss st',
    mysqlElseSection o st = .ok (ss, st') →
    st' = st ++ myLitsExprOpt o ∧
    (cleanExprOpt '%' o = true → psInvList ss (myLitsExprOpt o).length) := by
  cases o with
  | none =>
      intro st ss st' h
      simp only [mysqlElseSection, Except.ok.injEq, Prod.mk.injEq] at h
      obtain ⟨hs, hst⟩ := h
      refine ⟨by simp [myLitsExprOpt, hst.symm], fun _ => ?_⟩
      rw [← hs]
      simpa [myLitsExprOpt] using phInvList_nil '%' (some 's')
  | some e =>
      intro st ss st' h
      simp only [mysqlElseSection] at h
      split at h
      · cases h
      · rename_i es st₁ h₁
        cases h
        obtain ⟨e₁, p₁⟩ := mysqlVisitExpr_inv e st es st' h₁
        refine ⟨by simp [myLitsExprOpt, e₁], fun hcl => ?_⟩
        simp only [cleanExprOpt] at hcl
        simpa [myLitsExprOpt, String.append_assoc] using phInvList_single
          (phInv_append (psT "ELSE " (by decide)) (p₁ hcl))

theorem mysqlVisitExprList_inv (es : List Expr) : ∀ st ss st',
    mysqlVisitExprList es st = .ok (ss, st') →
    st' = st ++ myLitsExprList es ∧
    (cleanExprList '%' es = true →
      psInvList ss (myLitsExprList es).length) := by
  cases es with
  | nil =>
      intro st ss st' h
      simp only [mysqlVisitExprList, Except.ok.injEq, Prod.mk.injEq] at h
      obtain ⟨hs, hst⟩ := h
      refine ⟨by simp [myLitsExprList, hst.symm], fun _ => ?_⟩
      rw [← hs]
      simpa [myLitsExprList] using phInvList_nil '%' (some 's')
  | cons e rest =>
      intro st ss st' h
      simp only [mysqlVisitExprList] at h
      split at h
      · cases h
      · rename_i s₁ st₁ h₁
        split at h
        · cases h
        · rename_i ss₂ st₂ h₂
          cases h
          obtain ⟨e₁, p₁⟩ := mysqlVisitExpr_inv e st s₁ st₁ h₁
          obtain ⟨e₂, p₂⟩ := mysqlVisitExprList_inv rest st₁ ss₂ st' h₂
          refine ⟨by simp [myLitsExprList, e₁, e₂, List.append_assoc], fun hcl => ?_⟩
          simp only [cleanExprList, Bool.and_eq_true] at hcl
          simpa [myLitsExprList, List.length_append, String.append_assoc] using phInvList_cons (p₁ hcl.1) (p₂ hcl.2)

theorem mysqlVisitWhenThen_inv (w : WhenThen) : ∀ st s st',
    mysqlVisitWhenThen w st = .ok (s, st') →
    st' = st ++ myLitsWhenThen w ∧
    (cleanWhenThen '%' w = true → psInv s (myLitsWhenThen w).length) := by
  cases w with
  | whenThenNode c r =>
      intro st s st' h
      simp only [mysqlVisitWhenThen] at h
      split at h
      · cases h
      · rename_i cs st₁ h₁
        split at h
        · cases h
        · rename_i rs st₂ h₂
          cases h
          obtain ⟨e₁, p₁⟩ := mysqlVisitExpr_inv c st cs st₁ h₁
          obtain ⟨e₂, p₂⟩ := mysqlVisitExpr_inv r st₁ rs st' h₂
          refine ⟨by simp [myLitsWhenThen, e₁, e₂, List.append_assoc], fun hcl => ?_⟩
          simp only [cleanWhenThen, Bool.and_eq_true] at hcl
          have := phInv_append (psT "WHEN " (by decide)) (phInv_append (p₁ hcl.1)
            (phInv_append (psT " THEN " (by decide)) (p₂ hcl.2)))
          simpa [myLitsWhenThen, List.length_append, String.append_assoc] using this

theorem mysqlVisitWhenThenList_inv (ws : List WhenThen) : ∀ st ss st',
    mysqlVisitWhenThenList ws st = .ok (ss, st') →
    st' = st ++ myLitsWhenThenList ws ∧
    (cleanWhenThenList '%' ws = true →
      psInvList ss (myLitsWhenThenList ws).length) := by
  cases ws with
  | nil =>
      intro st ss st' h
      simp only [mysqlVisitWhenThenList, Except.ok.injEq, Prod.mk.injEq] at h
      obtain ⟨hs, hst⟩ := h
      refine ⟨by simp [myLitsWhenThenList, hst.symm], fun _ => ?_⟩
      rw [← hs]
      simpa [myLitsWhenThenList] using phInvList_nil '%' (some 's')
  | cons w rest =>
      intro st ss st' h
      simp only [mysqlVisitWhenThenList] at h
      split at h
      · cases h
      · rename_i s₁ st₁ h₁
        split at h
        · cases h
        · rename_i ss₂ st₂ h₂
          cases h
          obtain ⟨e₁, p₁⟩ := mysqlVisitWhenThen_inv w st s₁ st₁ h₁
          obtain ⟨e₂, p₂⟩ := mysqlVisitWhenThenList_inv rest st₁ ss₂ st' h₂
          refine ⟨by simp [myLitsWhenThenList, e₁, e₂, List.append_assoc],
            fun hcl => ?_⟩
          simp only [cleanWhenThenList, Bool.and_eq_true] at hcl
          simpa [myLitsWhenThenList, List.length_append, String.append_assoc] using phInvList_cons (p₁ hcl.1) (p₂ hcl.2)

theorem mysqlVisitFrom_inv (f : FromClause) : ∀ st s st',
    mysqlVisitFrom f st = .ok (s, st') →
    st' = st ++ myLitsFrom f ∧
    (cleanFrom '%' f = true → psInv s (myLitsFrom f).length) := by
  cases f with
  | tableNode t =>
      intro st s st' h
      simp only [mysqlVisitFrom, Except.ok.injEq, Prod.mk.injEq] at h
      obtain ⟨hs, hst⟩ := h
      refine ⟨by simp [myLitsFrom, hst.symm], fun hcl => ?_⟩
      simp only [cleanFrom] at hcl
      rw [← hs]
      simpa [myLitsFrom] using mysqlVisitTableNode_inv '%' (some 's') (by decide) (by decide) hcl
  | joinClauseNode l r on_c jt =>
      intro st s st' h
      simp only [mysqlVisitFrom] at h
      split at h
      · cases h
      · rename_i ls st₁ h₁
        split at h
        · cases h
        · rename_i rs st₂ h₂
          split at h
          · cases h
          · rename_i os st₃ h₃
            cases h
            obtain ⟨e₁, p₁⟩ := mysqlVisitFrom_inv l st ls st₁ h₁
            obtain ⟨e₂, p₂⟩ := mysqlVisitFrom_inv r st₁ rs st₂ h₂
            obtain ⟨e₃, p₃⟩ := mysqlVisitExpr_inv on_c st₂ os st' h₃
            refine ⟨by simp [myLitsFrom, e₁, e₂, e₃, List.append_assoc], fun hcl => ?_⟩
            simp only [cleanFrom, Bool.and_eq_true] at hcl
            obtain ⟨⟨⟨h1, h2⟩, h3⟩, h4⟩ := hcl
            have := phInv_append (p₁ h1) (phInv_append (psT " " (by decide))
              (phInv_append (phInv_of_strClean (some 's') h4)
                (phInv_append (psT " JOIN " (by decide)) (phInv_append (p₂ h2)
                  (phInv_append (psT " ON " (by decide)) (p₃ h3))))))
            simpa [myLitsFrom, List.length_append, String.append_assoc] using this
  | subqueryNode sel subAlias =>
      intro st s st' h
      simp only [mysqlVisitFrom] at h
      split at h
      · cases h
      · rename_i ss st₁ h₁
        cases h
        obtain ⟨e₁, p₁⟩ := mysqlVisitSelect_inv sel st ss st' h₁
        refine ⟨by simp [myLitsFrom, e₁], fun hcl => ?_⟩
        simp only [cleanFrom, Bool.and_eq_true] at hcl
        have := phInv_append (psT "(" (by decide)) (phInv_append (p₁ hcl.1)
          (phInv_append (psT ")" (by decide)) (aliasSuffix_psInv hcl.2)))
        simpa [myLitsFrom, String.append_assoc] using this

theorem mysqlVisitWhere_inv (w : Where) : ∀ st s st',
    mysqlVisitWhere w st = .ok (s, st') →
    st' = st ++ myLitsWhereOpt (some w) ∧
    (cleanWhere '%' w = true → psInv s (myLitsWhereOpt (some w)).length) := by
  cases w with
  | whereClauseNode c =>
      intro st s st' h
      simp only [mysqlVisitWhere] at h
      split at h
      · cases h
      · rename_i cs st₁ h₁
        cases h
        obtain ⟨e₁, p₁⟩ := mysqlVisitExpr_inv c st cs st' h₁
        refine ⟨by simp [myLitsWhereOpt, e₁], fun hcl => ?_⟩
        simp only [cleanWhere] at hcl
        have := phInv_append (psT "WHERE " (by decide)) (p₁ hcl)
        simpa [myLitsWhereOpt, String.append_assoc] using this

theorem mysqlVisitGroupBy_inv (g : GroupByClause) : ∀ st s st',
    mysqlVisitGroupBy g st = .ok (s, st') →
    st' = st ++ myLitsGroupOpt (some g) ∧
    (cleanGroupBy '%' g = true → psInv s (myLitsGroupOpt (some g)).length) := by
  cases g with
  | groupByClauseNode es =>
      intro st s st' h
      simp only [mysqlVisitGroupBy] at h
      split at h
      · cases h
      · rename_i ss st₁ h₁
        cases h
        obtain ⟨e₁, p₁⟩ := mysqlVisitExprList_inv es st ss st' h₁
        refine ⟨by simp [myLitsGroupOpt, e₁], fun hcl => ?_⟩
        simp only [cleanGroupBy] at hcl
        have := phInv_append (psT "GROUP BY " (by decide))
          (phInv_join ", " (p₁ hcl) (by decide))
        simpa [myLitsGroupOpt, String.append_assoc] using this

theorem mysqlVisitHaving_inv (hv : Having) : ∀ st s st',
    mysqlVisitHaving hv st = .ok (s, st') →
    st' = st ++ myLitsHavingOpt (some hv) ∧
    (cleanHaving '%' hv = true → psInv s (myLitsHavingOpt (some hv)).length) := by
  cases hv with
  | havingClauseNode c =>
      intro st s st' h
      simp only [mysqlVisitHaving] at h
      split at h
      · cases h
      · rename_i cs st₁ h₁
        cases h
        obtain ⟨e₁, p₁⟩ := mysqlVisitExpr_inv c st cs st' h₁
        refine ⟨by simp [myLitsHavingOpt, e₁], fun hcl => ?_⟩
        simp only [cleanHaving] at hcl
        have := phInv_append (psT "HAVING " (by decide)) (p₁ hcl)
        simpa [myLitsHavingOpt, String.append_assoc] using this

theorem mysqlVisitOrderBy_inv (o : OrderBy) : ∀ st s st',
    mysqlVisitOrderBy o st = .ok (s, st') →
    st' = st ++ myLitsOrderBy o ∧
    (cleanOrderBy '%' o = true → psInv s (myLitsOrderBy o).length) := by
  cases o with
  | orderByClauseNode e dir =>
      intro st s st' h
      simp only [mysqlVisitOrderBy] at h
      split at h
      · cases h
      · rename_i es st₁ h₁
        cases h
        obtain ⟨e₁, p₁⟩ := mysqlVisitExpr_inv e st es st' h₁
        refine ⟨by simp [myLitsOrderBy, e₁], fun hcl => ?_⟩
        simp only [cleanOrderBy, Bool.and_eq_true] at hcl
        have := phInv_append (p₁ hcl.1) (phInv_append (psT " " (by decide))
          (phInv_of_strClean (some 's') hcl.2))
        simpa [myLitsOrderBy, String.append_assoc] using this

theorem mysqlVisitOrderByList_inv (os : List OrderBy) : ∀ st ss st',
    mysqlVisitOrderByList os st = .ok (ss, st') →
    st' = st ++ myLitsOrderByList os ∧
    (cleanOrderByList '%' os = true →
      psInvList ss (myLitsOrderByList os).length) := by
  cases os with
  | nil =>
      intro st ss st' h
      simp only [mysqlVisitOrderByList, Except.ok.injEq, Prod.mk.injEq] at h
      obtain ⟨hs, hst⟩ := h
      refine ⟨by simp [myLitsOrderByList, hst.symm], fun _ => ?_⟩
      rw [← hs]
      simpa [myLitsOrderByList] using phInvList_nil '%' (some 's')
  | cons o rest =>
      intro st ss st' h
      simp only [mysqlVisitOrderByList] at h
      split at h
      · cases h
      · rename_i s₁ st₁ h₁
        split at h
        · cases h
        · rename_i ss₂ st₂ h₂
          cases h
          obtain ⟨e₁, p₁⟩ := mysqlVisitOrderBy_inv o st s₁ st₁ h₁
          obtain ⟨e₂, p₂⟩ := mysqlVisitOrderByList_inv rest st₁ ss₂ st' h₂
          refine ⟨by simp [myLitsOrderByList, e₁, e₂, List.append_assoc],
            fun hcl => ?_⟩
          simp only [cleanOrderByList, Bool.and_eq_true] at hcl
          simpa [myLitsOrderByList, List.length_append, String.append_assoc] using phInvList_cons (p₁ hcl.1) (p₂ hcl.2)

theorem mysqlFromSection_inv (o : Option FromClause) : ∀ st l st',
    mysqlFromSection o st = .ok (l, st') →
    st' = st ++ myLitsFromOpt o ∧
    (cleanFromOpt '%' o = true → psInvList l (myLitsFromOpt o).length) := by
  cases o with
  | none =>
      intro st l st' h
      simp only [mysqlFromSection, Except.ok.injEq, Prod.mk.injEq] at h
      obtain ⟨hs, hst⟩ := h
      refine ⟨by simp [myLitsFromOpt, hst.symm], fun _ => ?_⟩
      rw [← hs]
      simpa [myLitsFromOpt] using phInvList_nil '%' (some 's')
  | some f =>
      intro st l st' h
      simp only [mysqlFromSection] at h
      split at h
      · cases h
      · rename_i fs st₁ h₁
        cases h
        obtain ⟨e₁, p₁⟩ := mysqlVisitFrom_inv f st fs st' h₁
        refine ⟨by simpa [myLitsFromOpt] using e₁, fun hcl => ?_⟩
        simp only [cleanFromOpt] at hcl
        simpa [myLitsFromOpt] using
          phInvList_cons (psT "FROM" (by decide)) (phInvList_single (p₁ hcl))

theorem mysqlWhereSection_inv (o : Option Where) : ∀ st l st',
    mysqlWhereSection o st = .ok (l, st') →
    st' = st ++ myLitsWhereOpt o ∧
    (cleanWhereOpt '%' o = true → psInvList l (myLitsWhereOpt o).length) := by
  cases o with
  | none =>
      intro st l st' h
      simp only [mysqlWhereSection, Except.ok.injEq, Prod.mk.injEq] at h
      obtain ⟨hs, hst⟩ := h
      refine ⟨by simp [myLitsWhereOpt, hst.symm], fun _ => ?_⟩
      rw [← hs]
      simpa [myLitsWhereOpt] using phInvList_nil '%' (some 's')
  | some w =>
      intro st l st' h
      simp only [mysqlWhereSection] at h
      split at h
      · cases h
      · rename_i ws st₁ h₁
        cases h
        obtain ⟨e₁, p₁⟩ := mysqlVisitWhere_inv w st ws st' h₁
        exact ⟨e₁, fun hcl => phInvList_single (p₁ hcl)⟩

theorem mysqlGroupSection_inv (o : Option GroupByClause) : ∀ st l st',
    mysqlGroupSection o st = .ok (l, st') →
    st' = st ++ myLitsGroupOpt o ∧
    (cleanGroupByOpt '%' o = true → psInvList l (myLitsGroupOpt o).length) := by
  cases o with
  | none =>
      intro st l st' h
      simp only [mysqlGroupSection, Except.ok.injEq, Prod.mk.injEq] at h
      obtain ⟨hs, hst⟩ := h
      refine ⟨by simp [myLitsGroupOpt, hst.symm], fun _ => ?_⟩
      rw [← hs]
      simpa [myLitsGroupOpt] using phInvList_nil '%' (some 's')
  | some g =>
      intro st l st' h
      simp only [mysqlGroupSection] at h
      split at h
      · cases h
      · rename_i gs st₁ h₁
        cases h
        obtain ⟨e₁, p₁⟩ := mysqlVisitGroupBy_inv g st gs st' h₁
        exact ⟨e₁, fun hcl => phInvList_single (p₁ hcl)⟩

theorem mysqlHavingSection_inv (o : Option Having) : ∀ st l st',
    mysqlHavingSection o st = .ok (l, st') →
    st' = st ++ myLitsHavingOpt o ∧
    (cleanHavingOpt '%' o = true → psInvList l (myLitsHavingOpt o).length) := by
  cases o with
  | none =>
      intro st l st' h
      simp only [mysqlHavingSection, Except.ok.injEq, Prod.mk.injEq] at h
      obtain ⟨hs, hst⟩ := h
      refine ⟨by simp [myLitsHavingOpt, hst.symm], fun _ => ?_⟩
      rw [← hs]
      simpa [myLitsHavingOpt] using phInvList_nil '%' (some 's')
  | some hv =>
      intro st l st' h
      simp only [mysqlHavingSection] at h
      split at h
      · cases h
      · rename_i hs st₁ h₁
        cases h
        obtain ⟨e₁, p₁⟩ := mysqlVisitHaving_inv hv st hs st' h₁
        exact ⟨e₁, fun hcl => phInvList_single (p₁ hcl)⟩

theorem mysqlOrderBySection_inv (o : Option (List OrderBy)) : ∀ st s st',
    mysqlOrderBySection o st = .ok (s, st') →
    st' = st ++ myLitsOrderSection o ∧
    (s = "" ↔ truthyList o = false) ∧
    (cleanOrderByListOpt '%' o = true →
      psInv s (myLitsOrderSection o).length) := by
  cases o with
  | none =>
      intro st s st' h
      simp only [mysqlOrderBySection, Except.ok.injEq, Prod.mk.injEq] at h
      obtain ⟨hs, hst⟩ := h
      refine ⟨by simp [myLitsOrderSection, hst.symm], ?_, fun _ => ?_⟩
      · simp [← hs, truthyList]
      · rw [← hs]
        simpa [myLitsOrderSection] using psT "" (by decide)
  | some items =>
      intro st s st' h
      simp only [mysqlOrderBySection] at h
      split at h
      · rename_i hempty
        simp only [Except.ok.injEq, Prod.mk.injEq] at h
        obtain ⟨hs, hst⟩ := h
        refine ⟨by simp [myLitsOrderSection, hempty, hst.symm], ?_, fun _ => ?_⟩
        · simp [← hs, truthyList, hempty]
        · rw [← hs]
          simpa [myLitsOrderSection, hempty] using psT "" (by decide)
      · rename_i hempty
        split at h
        · cases h
        · rename_i ss st₁ h₁
          cases h
          obtain ⟨e₁, p₁⟩ := mysqlVisitOrderByList_inv items st ss st' h₁
          refine ⟨by simp [myLitsOrderSection, hempty, e₁], ?_, fun hcl => ?_⟩
          · constructor
            · intro heq
              have hlen := congrArg String.length heq
              simp [String.length_append] at hlen
              exact absurd hlen.1 (by decide)
            · intro htr
              simp [truthyList, hempty] at htr
          · simp only [cleanOrderByListOpt] at hcl
            have := phInv_append (psT "ORDER BY " (by decide))
              (phInv_join ", " (p₁ hcl) (by decide))
            simpa [myLitsOrderSection, hempty] using this

theorem mysqlTopOrderSection_inv (tc : Option Top) (obSql : String) : ∀ st s' st₁,
    mysqlTopOrderSection tc obSql st = .ok (s', st₁) →
    st₁ = st ++ (if obSql = "" then myLitsTopExpr tc else []) ∧
    (cleanTopOpt '%' tc = true → ∀ m, psInv obSql m →
      psInv s' (m + (if obSql = "" then (myLitsTopExpr tc).length else 0))) := by
  intro st s' st₁ h
  match tc, h with
  | none, h =>
      simp only [mysqlTopOrderSection, Except.ok.injEq, Prod.mk.injEq] at h
      obtain ⟨hs, hst⟩ := h
      refine ⟨by simp [myLitsTopExpr, hst.symm], fun _ m hm => ?_⟩
      rw [← hs]
      have : psInv obSql (m + (if obSql = "" then 0 else 0)) := by simpa using hm
      simpa [myLitsTopExpr] using this
  | some (.topClauseNode cnt none dir), h =>
      simp only [mysqlTopOrderSection, Except.ok.injEq, Prod.mk.injEq] at h
      obtain ⟨hs, hst⟩ := h
      refine ⟨by simp [myLitsTopExpr, hst.symm], fun _ m hm => ?_⟩
      rw [← hs]
      have : psInv obSql (m + (if obSql = "" then 0 else 0)) := by simpa using hm
      simpa [myLitsTopExpr] using this
  | some (.topClauseNode cnt (some e) dir), h =>
      simp only [mysqlTopOrderSection] at h
      split at h
      · rename_i hob
        split at h
        · cases h
        · rename_i es st₂ h₁
          cases h
          obtain ⟨e₁, p₁⟩ := mysqlVisitExpr_inv e st es st₁ h₁
          refine ⟨by simp [myLitsTopExpr, hob, e₁], fun hcl m hm => ?_⟩
          simp only [cleanTop, cleanTopOpt, cleanExprOpt, Bool.and_eq_true] at hcl
          have hm0 : m = 0 := phInv_empty_eq_zero (hob ▸ hm)
          have := phInv_append (psT "ORDER BY " (by decide))
            (phInv_append (p₁ hcl.1) (phInv_append (psT " " (by decide))
              (phInv_of_strClean (some 's') hcl.2)))
          simpa [myLitsTopExpr, hob, hm0, String.append_assoc] using this
      · rename_i hob
        cases h
        refine ⟨by simp [hob], fun _ m hm => ?_⟩
        simpa [hob] using hm

theorem mysqlOverSection_inv (o : Option OverClause) : ∀ st s st',
    mysqlOverSection o st = .ok (s, st') →
    st' = st ++ myLitsOverOpt o ∧
    (cleanOverOpt '%' o = true → psInv s (myLitsOverOpt o).length) := by
  cases o with
  | none =>
      intro st s st' h
      simp only [mysqlOverSection, Except.ok.injEq, Prod.mk.injEq] at h
      obtain ⟨hs, hst⟩ := h
      refine ⟨by simp [myLitsOverOpt, hst.symm], fun _ => ?_⟩
      rw [← hs]
      simpa [myLitsOverOpt] using psT "" (by decide)
  | some ov =>
      intro st s st' h
      simp only [mysqlOverSection] at h
      split at h
      · cases h
      · rename_i ovs st₁ h₁
        cases h
        obtain ⟨e₁, p₁⟩ := mysqlVisitOverClauseNode_inv ov st ovs st' h₁
        refine ⟨by simp [myLitsOverOpt, e₁], fun hcl => ?_⟩
        simp only [cleanOverOpt] at hcl
        have := phInv_append (psT " OVER " (by decide)) (p₁ hcl)
        simpa [myLitsOverOpt] using this

theorem mysqlVisitOverClauseNode_inv (ov : OverClause) : ∀ st s st',
    mysqlVisitOverClauseNode ov st = .ok (s, st') →
    st' = st ++ myLitsOver ov ∧
    (cleanOver '%' ov = true → psInv s (myLitsOver ov).length) := by
  cases ov with
  | overClauseNode partition_by order_by =>
      intro st s st' h
      simp only [mysqlVisitOverClauseNode] at h
      split at h
      · cases h
      · rename_i pL st₁ h₁
        split at h
        · cases h
        · rename_i oL st₂ h₂
          cases h
          obtain ⟨e₁, p₁⟩ := mysqlOverPartitionSection_inv partition_by st pL st₁ h₁
          obtain ⟨e₂, p₂⟩ := mysqlOverOrderSection_inv order_by st₁ oL st' h₂
          refine ⟨by simp [myLitsOver, e₁, e₂, List.append_assoc], fun hcl => ?_⟩
          simp only [cleanOver, Bool.and_eq_true] at hcl
          have := phInv_append (psT "(" (by decide)) (phInv_append
            (phInv_join " " (phInvList_append (p₁ hcl.1) (p₂ hcl.2)) (by decide))
            (psT ")" (by decide)))
          simpa [myLitsOver, List.length_append, String.append_assoc] using this

theorem mysqlOverPartitionSection_inv (o : Option (List Expr)) : ∀ st l st',
    mysqlOverPartitionSection o st = .ok (l, st') →
    st' = st ++ myLitsPartitionSection o ∧
    (cleanExprListOpt '%' o = true →
      psInvList l (myLitsPartitionSection o).length) := by
  cases o with
  | none =>
      intro st l st' h
      simp only [mysqlOverPartitionSection, Except.ok.injEq, Prod.mk.injEq] at h
      obtain ⟨hs, hst⟩ := h
      refine ⟨by simp [myLitsPartitionSection, hst.symm], fun _ => ?_⟩
      rw [← hs]
      simpa [myLitsPartitionSection] using phInvList_nil '%' (some 's')
  | some es =>
      intro st l st' h
      simp only [mysqlOverPartitionSection] at h
      split at h
      · rename_i hempty
        simp only [Except.ok.injEq, Prod.mk.injEq] at h
        obtain ⟨hs, hst⟩ := h
        refine ⟨by simp [myLitsPartitionSection, hempty, hst.symm], fun _ => ?_⟩
        rw [← hs]
        simpa [myLitsPartitionSection, hempty] using phInvList_nil '%' (some 's')
      · rename_i hempty
        split at h
        · cases h
        · rename_i ss st₁ h₁
          cases h
          obtain ⟨e₁, p₁⟩ := mysqlVisitExprList_inv es st ss st' h₁
          refine ⟨by simp [myLitsPartitionSection, hempty, e₁], fun hcl => ?_⟩
          simp only [cleanExprListOpt] at hcl
          have := phInvList_single (phInv_append (psT "PARTITION BY " (by decide))
            (phInv_join ", " (p₁ hcl) (by decide)))
          simpa [myLitsPartitionSection, hempty] using this

theorem mysqlOverOrderSection_inv (o : Option (List OrderBy)) : ∀ st l st',
    mysqlOverOrderSection o st = .ok (l, st') →
    st' = st ++ myLitsOrderSection o ∧
    (cleanOrderByListOpt '%' o = true →
      psInvList l (myLitsOrderSection o).length) := by
  cases o with
  | none =>
      intro st l st' h
      simp only [mysqlOverOrderSection, Except.ok.injEq, Prod.mk.injEq] at h
      obtain ⟨hs, hst⟩ := h
      refine ⟨by simp [myLitsOrderSection, hst.symm], fun _ => ?_⟩
      rw [← hs]
      simpa [myLitsOrderSection] using phInvList_nil '%' (some 's')
  | some items =>
      intro st l st' h
      simp only [mysqlOverOrderSection] at h
      split at h
      · rename_i hempty
        simp only [Except.ok.injEq, Prod.mk.injEq] at h
        obtain ⟨hs, hst⟩ := h
        refine ⟨by simp [myLitsOrderSection, hempty, hst.symm], fun _ => ?_⟩
        rw [← hs]
        simpa [myLitsOrderSection, hempty] using phInvList_nil '%' (some 's')
      · rename_i hempty
        split at h
        · cases h
        · rename_i ss st₁ h₁
          cases h
          obtain ⟨e₁, p₁⟩ := mysqlVisitOrderByList_inv items st ss st' h₁
          refine ⟨by simp [myLitsOrderSection, hempty, e₁], fun hcl => ?_⟩
          simp only [cleanOrderByListOpt] at hcl
          have := phInvList_single (phInv_append (psT "ORDER BY " (by decide))
            (phInv_join ", " (p₁ hcl) (by decide)))
          simpa [myLitsOrderSection, hempty] using this

theorem mysqlVisitCte_inv (c : Cte) : ∀ st s st',
    mysqlVisitCte c st = .ok (s, st') →
    st' = st ++ myLitsCte c ∧
    (cleanCte '%' c = true → psInv s (myLitsCte c).length) := by
  cases c with
  | cteNode name sub =>
      intro st s st' h
      simp only [mysqlVisitCte] at h
      split at h
      · cases h
      · rename_i ss st₁ h₁
        cases h
        obtain ⟨e₁, p₁⟩ := mysqlVisitSelect_inv sub st ss st' h₁
        refine ⟨by simp [myLitsCte, e₁], fun hcl => ?_⟩
        simp only [cleanCte, Bool.and_eq_true] at hcl
        have := phInv_append (phInv_of_strClean (some 's') hcl.1)
          (phInv_append (psT " AS (" (by decide)) (phInv_append (p₁ hcl.2)
            (psT ")" (by decide))))
        simpa [myLitsCte, String.append_assoc] using this

theorem mysqlVisitCteList_inv (cs : List Cte) : ∀ st ss st',
    mysqlVisitCteList cs st = .ok (ss, st') →
    st' = st ++ myLitsCteList cs ∧
    (cleanCteList '%' cs = true →
      psInvList ss (myLitsCteList cs).length) := by
  cases cs with
  | nil =>
      intro st ss st' h
      simp only [mysqlVisitCteList, Except.ok.injEq, Prod.mk.injEq] at h
      obtain ⟨hs, hst⟩ := h
      refine ⟨by simp [myLitsCteList, hst.symm], fun _ => ?_⟩
      rw [← hs]
      simpa [myLitsCteList] using phInvList_nil '%' (some 's')
  | cons c rest =>
      intro st ss st' h
      simp only [mysqlVisitCteList] at h
      split at h
      · cases h
      · rename_i s₁ st₁ h₁
        split at h
        · cases h
        · rename_i ss₂ st₂ h₂
          cases h
          obtain ⟨e₁, p₁⟩ := mysqlVisitCte_inv c st s₁ st₁ h₁
          obtain ⟨e₂, p₂⟩ := mysqlVisitCteList_inv rest st₁ ss₂ st' h₂
          refine ⟨by simp [myLitsCteList, e₁, e₂, List.append_assoc], fun hcl => ?_⟩
          simp only [cleanCteList, Bool.and_eq_true] at hcl
          simpa [myLitsCteList, List.length_append, String.append_assoc] using
            phInvList_cons (p₁ hcl.1) (p₂ hcl.2)

theorem mysqlCteSection_inv (o : Option (List Cte)) : ∀ st l st',
    mysqlCteSection o st = .ok (l, st') →
    st' = st ++ myLitsCteSection o ∧
    (cleanCteListOpt '%' o = true →
      psInvList l (myLitsCteSection o).length) := by
  cases o with
  | none =>
      intro st l st' h
      simp only [mysqlCteSection, Except.ok.injEq, Prod.mk.injEq] at h
      obtain ⟨hs, hst⟩ := h
      refine ⟨by simp [myLitsCteSection, hst.symm], fun _ => ?_⟩
      rw [← hs]
      simpa [myLitsCteSection] using phInvList_nil '%' (some 's')
  | some cl =>
      intro st l st' h
      simp only [mysqlCteSection] at h
      split at h
      · rename_i hempty
        simp only [Except.ok.injEq, Prod.mk.injEq] at h
        obtain ⟨hs, hst⟩ := h
        refine ⟨by simp [myLitsCteSection, hempty, hst.symm], fun _ => ?_⟩
        rw [← hs]
        simpa [myLitsCteSection, hempty] using phInvList_nil '%' (some 's')
      · rename_i hempty
        split at h
        · cases h
        · rename_i ss st₁ h₁
          cases h
          obtain ⟨e₁, p₁⟩ := mysqlVisitCteList_inv cl st ss st' h₁
          refine ⟨by simp [myLitsCteSection, hempty, e₁], fun hcl => ?_⟩
          simp only [cleanCteListOpt] at hcl
          have := phInvList_single (phInv_append (psT "WITH " (by decide))
            (phInv_join ", " (p₁ hcl) (by decide)))
          simpa [myLitsCteSection, hempty] using this

theorem mysqlVisitSelect_inv (n : Select) : ∀ st s st',
    mysqlVisitSelect n st = .ok (s, st') →
    st' = st ++ myLitsSelect n ∧
    (cleanSelect '%' n = true → psInv s (myLitsSelect n).length) := by
  cases n with
  | mk sl dist ctes ft wc gb hc ob tc lim off lk =>
      intro st s st' h
      simp only [mysqlVisitSelect] at h
      split at h
      · cases h
      · split at h
        · cases h
        · rename_i cteL st₀ hcte
          split at h
          · cases h
          · rename_i items st₁ hsl
            split at h
            · cases h
            · rename_i fromL st₂ hft
              split at h
              · cases h
              · rename_i whereL st₃ hwc
                split at h
                · cases h
                · rename_i groupL st₄ hgb
                  split at h
                  · cases h
                  · rename_i havL st₅ hhc
                    split at h
                    · cases h
                    · rename_i obSql st₆ hob
                      split at h
                      · cases h
                      · rename_i obSql₂ st₇ htop
                        split at h
                        · cases h
                        · rename_i lockL st₈ hlk
                          cases h
                          obtain ⟨e₀, p₀⟩ := mysqlCteSection_inv ctes st cteL st₀ hcte
                          obtain ⟨e₁, p₁⟩ := mysqlVisitExprList_inv sl st₀ items st₁ hsl
                          obtain ⟨e₂, p₂⟩ := mysqlFromSection_inv ft st₁ fromL st₂ hft
                          obtain ⟨e₃, p₃⟩ := mysqlWhereSection_inv wc st₂ whereL st₃ hwc
                          obtain ⟨e₄, p₄⟩ := mysqlGroupSection_inv gb st₃ groupL st₄ hgb
                          obtain ⟨e₅, p₅⟩ := mysqlHavingSection_inv hc st₄ havL st₅ hhc
                          obtain ⟨e₆, hiff, p₆⟩ := mysqlOrderBySection_inv ob st₅ obSql st₆ hob
                          obtain ⟨e₇, p₇⟩ := mysqlTopOrderSection_inv tc obSql st₆ obSql₂ st₇ htop
                          obtain ⟨e₈, p₈⟩ := mysqlLockSection_inv lk st₇ lockL st' hlk
                          have hifeq : (if obSql = "" then myLitsTopExpr tc else []) =
                              (if truthyList ob = true then [] else myLitsTopExpr tc) := by
                            cases htr : truthyList ob with
                            | false => rw [if_pos (hiff.mpr htr), if_neg (by simp)]
                            | true =>
                                rw [if_neg, if_pos rfl]
                                intro hobq
                                rw [hiff] at hobq
                                rw [htr] at hobq
                                cases hobq
                          constructor
                          · rw [e₈, e₇, e₆, e₅, e₄, e₃, e₂, e₁, e₀, hifeq]
                            simp [myLitsSelect, List.append_assoc]
                          · intro hcl
                            simp only [cleanSelect, Bool.and_eq_true] at hcl
                            obtain ⟨⟨⟨⟨⟨⟨⟨⟨hC1, hC0⟩, hC2⟩, hC3⟩, hC4⟩, hC5⟩, hC6⟩, hC7⟩, _⟩ := hcl
                            have q₆ := p₆ hC6
                            have q₇ := p₇ hC7 _ q₆
                            have hdist : psInvList (if dist = true then ["DISTINCT"] else []) 0 := by
                              split
                              · simpa using phInvList_single (psT "DISTINCT" (by decide))
                              · exact phInvList_nil _ _
                            have hord : psInvList (if obSql₂ ≠ "" then [obSql₂] else [])
                                ((myLitsOrderSection ob).length +
                                  (if obSql = "" then (myLitsTopExpr tc).length else 0)) := by
                              split
                              · exact phInvList_single q₇
                              · rename_i hne
                                have hzero := phInv_empty_eq_zero
                                  ((not_not.mp (by simpa using hne)) ▸ q₇)
                                rw [hzero]
                                exact phInvList_nil _ _
                            have chain := phInvList_append (phInvList_append (phInvList_append
                              (phInvList_append (phInvList_append (phInvList_append
                                (phInvList_append (phInvList_append (phInvList_append
                                  (phInvList_append (p₀ hC0)
                                    (phInvList_single (psT "SELECT" (by decide)))) hdist)
                                  (phInvList_single (phInv_join ", " (p₁ hC1) (by decide))))
                                  (p₂ hC2)) (p₃ hC3)) (p₄ hC4)) (p₅ hC5)) hord)
                              (limitParts_psInv lim)) (offsetParts_psInv off)
                            have chain₂ := phInvList_append
                              (phInvList_append chain (topLimitParts_psInv tc)) p₈
                            apply phInv_cast (phInv_join " " chain₂ (by decide))
                            have hlen : (if obSql = "" then (myLitsTopExpr tc).length else 0) =
                                (if truthyList ob = true then [] else myLitsTopExpr tc).length := by
                              rw [← hifeq]
                              split <;> simp
                            rw [hlen]
                            simp [myLitsSelect, List.length_append]
                            omega

end

theorem mysqlVisitSetList_inv (sets : List (String × Expr)) : ∀ st ss st',
    mysqlVisitSetList sets st = .ok (ss, st') →
    st' = st ++ myLitsSetList sets ∧
    (cleanSetList '%' sets = true → psInvList ss (myLitsSetList sets).length) := by
  induction sets with
  | nil =>
      intro st ss st' h
      simp only [mysqlVisitSetList, Except.ok.injEq, Prod.mk.injEq] at h
      obtain ⟨hs, hst⟩ := h
      refine ⟨by simp [myLitsSetList, hst.symm], fun _ => ?_⟩
      rw [← hs]
      simpa [myLitsSetList] using phInvList_nil '%' (some 's')
  | cons p rest ih =>
      obtain ⟨col, e⟩ := p
      intro st ss st' h
      simp only [mysqlVisitSetList] at h
      split at h
      · cases h
      · rename_i s₁ st₁ h₁
        split at h
        · cases h
        · rename_i ss₂ st₂ h₂
          cases h
          obtain ⟨e₁, p₁⟩ := mysqlVisitExpr_inv e st s₁ st₁ h₁
          obtain ⟨e₂, p₂⟩ := ih st₁ ss₂ st' h₂
          refine ⟨by simp [myLitsSetList, e₁, e₂, List.append_assoc], fun hcl => ?_⟩
          simp only [cleanSetList, Bool.and_eq_true] at hcl
          obtain ⟨⟨h1, h2⟩, h3⟩ := hcl
          simpa [myLitsSetList, List.length_append, String.append_assoc] using
            phInvList_cons (phInv_append (phInv_of_strClean (some 's') h1)
              (phInv_append (psT " = " (by decide)) (p₁ h2))) (p₂ h3)

theorem mysqlVisitStmt_inv (node : Stmt) : ∀ st s st',
    mysqlVisitStmt node st = .ok (s, st') →
    st' = st ++ mysqlLitsStmt node ∧
    (cleanStmt '%' node = true → psInv s (mysqlLitsStmt node).length) := by
  cases node with
  | selectStatementNode n =>
      intro st s st' h
      have h' : mysqlVisitSelect n st = .ok (s, st') := h
      obtain ⟨e₁, p₁⟩ := mysqlVisitSelect_inv n st s st' h'
      exact ⟨e₁, fun hcl => by
        simp only [cleanStmt] at hcl
        simpa [mysqlLitsStmt] using p₁ hcl⟩
  | deleteStatementNode table wc ret =>
      intro st s st' h
      simp only [mysqlVisitStmt] at h
      split at h
      · cases h
      · rename_i whereL st₁ h₁
        cases h
        obtain ⟨e₁, p₁⟩ := mysqlWhereSection_inv wc st whereL st' h₁
        refine ⟨by simpa [mysqlLitsStmt] using e₁, fun hcl => ?_⟩
        simp only [cleanStmt, Bool.and_eq_true] at hcl
        obtain ⟨⟨h1, h2⟩, _⟩ := hcl
        have := phInv_join " " (phInvList_append (phInvList_append
          (phInvList_single (psT "DELETE FROM" (by decide)))
          (phInvList_single
            (mysqlVisitTableNode_inv '%' (some 's') (by decide) (by decide) h1)))
          (p₁ h2)) (by decide)
        simpa [mysqlLitsStmt] using this
  | insertStatementNode table values columns rows ups ret =>
      cases values with
      | none =>
          intro st s st' h
          simp [mysqlVisitStmt] at h
      | some vs =>
          intro st s st' h
          simp only [mysqlVisitStmt] at h
          split at h
          · cases h
          · rename_i ss st₁ h₁
            cases h
            obtain ⟨e₁, p₁⟩ := mysqlVisitExprList_inv vs st ss st' h₁
            refine ⟨by simp [mysqlLitsStmt, e₁], fun hcl => ?_⟩
            simp only [cleanStmt, Bool.and_eq_true, cleanExprListOpt] at hcl
            obtain ⟨⟨⟨⟨⟨h1, h2⟩, h3⟩, _⟩, _⟩, _⟩ := hcl
            have := phInv_append (psT "INSERT INTO " (by decide)) (phInv_append
              (mysqlVisitTableNode_inv '%' (some 's') (by decide) (by decide) h1)
              (phInv_append (colsSuffix_psInv columns h3) (phInv_append
                (psT " VALUES (" (by decide)) (phInv_append
                  (phInv_join ", " (p₁ h2) (by decide)) (psT ")" (by decide))))))
            simpa [mysqlLitsStmt, String.append_assoc] using this
  | updateStatementNode table sets wc ret =>
      intro st s st' h
      simp only [mysqlVisitStmt] at h
      split at h
      · cases h
      · rename_i ss st₁ h₁
        split at h
        · cases h
        · rename_i whereL st₂ h₂
          cases h
          obtain ⟨e₁, p₁⟩ := mysqlVisitSetList_inv sets st ss st₁ h₁
          obtain ⟨e₂, p₂⟩ := mysqlWhereSection_inv wc st₁ whereL st' h₂
          refine ⟨by simp [mysqlLitsStmt, e₁, e₂, List.append_assoc], fun hcl => ?_⟩
          simp only [cleanStmt, Bool.and_eq_true] at hcl
          obtain ⟨⟨⟨h1, h2⟩, h3⟩, _⟩ := hcl
          have := phInv_join " " (phInvList_append (phInvList_single
            (phInv_append (psT "UPDATE " (by decide)) (phInv_append
              (mysqlVisitTableNode_inv '%' (some 's') (by decide) (by decide) h1)
              (phInv_append (psT " SET " (by decide))
                (phInv_join ", " (p₁ h2) (by decide)))))) (p₂ h3)) (by decide)
          simpa [mysqlLitsStmt, List.length_append, String.append_assoc] using this
  | unionNode l r all =>
      intro st s st' h
      simp only [mysqlVisitStmt] at h
      split at h
      · cases h
      · rename_i ls st₁ h₁
        split at h
        · cases h
        · rename_i rs st₂ h₂
          cases h
          obtain ⟨e₁, p₁⟩ := mysqlVisitStmt_inv l st ls st₁ h₁
          obtain ⟨e₂, p₂⟩ := mysqlVisitStmt_inv r st₁ rs st' h₂
          refine ⟨by simp [mysqlLitsStmt, e₁, e₂, List.append_assoc], fun hcl => ?_⟩
          simp only [cleanStmt, Bool.and_eq_true] at hcl
          have hop : psInv (if all = true then "UNION ALL" else "UNION") 0 := by
            split <;> exact psT _ (by decide)
          have := phInv_append (p₁ hcl.1) (phInv_append (psT " " (by decide))
            (phInv_append hop (phInv_append (psT " " (by decide)) (p₂ hcl.2))))
          simpa [mysqlLitsStmt, List.length_append, String.append_assoc] using this
  | intersectNode l r all =>
      intro st s st' h
      simp [mysqlVisitStmt] at h
  | exceptNode l r all =>
      intro st s st' h
      simp [mysqlVisitStmt] at h

/-! ## Parameter-binding invariant of the MariaDB visitor

Identical to the MySQL invariant except for the placeholder: MariaDB
renders `?`, which needs no follower character. -/

abbrev qInv : String → Nat → Prop := phInv '?' none

abbrev qInvList : List String → Nat → Prop := phInvList '?' none

/-- Fixed SQL text bound no parameter and contains no `?`. -/
theorem qT (t : String) (h : countChar '?' t = 0) : qInv t 0 :=
  phInv_text '?' none t h

theorem qInv_placeholder : qInv "?" 1 :=
  ⟨by decide, fun f hf => by simp at hf⟩

theorem qInv_int (n : Int) : qInv (toString n) 0 :=
  phInv_intRepr '?' (by decide) none n

theorem limitParts_qInv : ∀ lim : Option Int, qInvList (limitParts lim) 0 := by
  intro lim
  cases lim with
  | none => exact phInvList_nil _ _
  | some v =>
      have := phInvList_single (phInv_append
        (phInv_text '?' none "LIMIT " (by decide)) (qInv_int v))
      simpa [limitParts] using this

theorem offsetParts_qInv : ∀ off : Option Int, qInvList (offsetParts off) 0 := by
  intro off
  cases off with
  | none => exact phInvList_nil _ _
  | some v =>
      have := phInvList_single (phInv_append
        (phInv_text '?' none "OFFSET " (by decide)) (qInv_int v))
      simpa [offsetParts] using this

theorem topLimitParts_qInv : ∀ tc : Option Top, qInvList (topLimitParts tc) 0 := by
  intro tc
  cases tc with
  | none => exact phInvList_nil _ _
  | some t =>
      have := phInvList_single (phInv_append
        (phInv_text '?' none "LIMIT " (by decide)) (qInv_int t.count))
      simpa [topLimitParts] using this

theorem mariadbLock_qInv {lk : Lock} {s : String}
    (h : mariadbVisitLockClauseNode lk = .ok s) : qInv s 0 := by
  unfold mariadbVisitLockClauseNode at h
  by_cases h1 : lk.mode.trim.toUpper ≠ "UPDATE" ∧ lk.mode.trim.toUpper ≠ "SHARE"
  · rw [if_pos h1] at h; cases h
  · rw [if_neg h1] at h
    by_cases h2 : lk.nowait = true ∧ lk.skip_locked = true
    · rw [if_pos h2] at h; cases h
    · rw [if_neg h2] at h
      have hmode : lk.mode.trim.toUpper = "UPDATE" ∨ lk.mode.trim.toUpper = "SHARE" := by
        rcases not_and_or.mp h1 with h3 | h3
        · exact Or.inl (not_not.mp h3)
        · exact Or.inr (not_not.mp h3)
      cases h
      have hm : countChar '?' ("FOR " ++ lk.mode.trim.toUpper) = 0 := by
        rcases hmode with h4 | h4 <;> rw [h4] <;> decide
      have hn1 : qInvList (if lk.nowait = true then ["NOWAIT"] else []) 0 := by
        split
        · simpa using phInvList_single (phInv_text '?' none "NOWAIT" (by decide))
        · exact phInvList_nil _ _
      have hn2 : qInvList (if lk.skip_locked = true then ["SKIP LOCKED"] else []) 0 := by
        split
        · simpa using phInvList_single
            (phInv_text '?' none "SKIP LOCKED" (by decide))
        · exact phInvList_nil _ _
      have := phInv_join " " (phInvList_append
        (phInvList_single (phInv_text '?' none _ hm))
        (phInvList_append hn1 hn2)) (by decide)
      simpa using this

theorem aliasSuffix_qInv {a : Option String} (h : optStrClean '?' a = true) :
    qInv (aliasSuffix a) 0 := by
  cases a with
  | none => exact qT "" (by decide)
  | some x =>
      have := phInv_append (qT " AS " (by decide))
        (phInv_of_strClean none (optStrClean_some h))
      simpa [aliasSuffix] using this

theorem colsSuffix_qInv (columns : Option (List ColumnRef))
    (h : columnsClean '?' columns = true) :
    qInv (if truthyList columns then
      " (" ++ pyJoin ", " ((columns.getD []).map ColumnRef.name) ++ ")"
    else "") 0 := by
  split
  · rename_i htr
    cases columns with
    | none => simp [truthyList] at htr
    | some cs =>
        have hall : ∀ p ∈ cs.map ColumnRef.name, countChar '?' p = 0 := by
          intro p hp
          rcases List.mem_map.mp hp with ⟨c, hc, rfl⟩
          simp only [columnsClean, List.all_eq_true] at h
          exact strClean_count (h c hc)
        have := phInv_append (qT " (" (by decide)) (phInv_append
          (phInv_join ", " (phInvList_zero '?' none _ hall) (by decide))
          (qT ")" (by decide)))
        simpa [String.append_assoc] using this
  · exact qT "" (by decide)

theorem mariadbVisitTableNode_inv (mark : Char) (fol : Option Char)
    (hdot : countChar mark "." = 0) (hAS : countChar mark " AS " = 0) {t : Table}
    (h : tableClean mark t = true) : phInv mark fol (mariadbVisitTableNode t) 0 := by
  rw [mariadbVisitTableNode_eq]
  exact mysqlVisitTableNode_inv mark fol hdot hAS h

theorem mariadbLockSection_inv (o : Option Lock) : ∀ st l st',
    mariadbLockSection o st = .ok (l, st') →
    st' = st ∧ qInvList l 0 := by
  cases o with
  | none =>
      intro st l st' h
      simp only [mariadbLockSection, Except.ok.injEq, Prod.mk.injEq] at h
      obtain ⟨hs, hst⟩ := h
      refine ⟨hst.symm, ?_⟩
      rw [← hs]
      exact phInvList_nil '?' none
  | some lk =>
      intro st l st' h
      simp only [mariadbLockSection] at h
      split at h
      · cases h
      · rename_i s₁ h₁
        cases h
        exact ⟨rfl, phInvList_single (mariadbLock_qInv h₁)⟩

set_option maxHeartbeats 6400000 in
mutual

theorem mariadbVisitExpr_inv (e : Expr) : ∀ st s st', mariadbVisitExpr e st = .ok (s, st') →
    st' = st ++ myLitsExpr e ∧
    (cleanExpr '?' e = true → qInv s (myLitsExpr e).length) := by
  cases e with
  | literalNode v =>
      intro st s st' h
      simp only [mariadbVisitExpr, Except.ok.injEq, Prod.mk.injEq] at h
      obtain ⟨hs, hst⟩ := h
      refine ⟨by simp [myLitsExpr, hst.symm], fun _ => ?_⟩
      rw [← hs]
      simpa [myLitsExpr] using qInv_placeholder
  | columnNode name table =>
      intro st s st' h
      simp only [mariadbVisitExpr, Except.ok.injEq, Prod.mk.injEq] at h
      obtain ⟨hs, hst⟩ := h
      refine ⟨by simp [myLitsExpr, hst.symm], fun hcl => ?_⟩
      simp only [cleanExpr, Bool.and_eq_true] at hcl
      rw [← hs]
      simpa [myLitsExpr] using
        pgVisitColumnNode_inv '?' none (by decide) hcl.1 hcl.2
  | binaryOperationNode l op r =>
      intro st s st' h
      simp only [mariadbVisitExpr] at h
      split at h
      · cases h
      · rename_i ls st₁ h₁
        split at h
        · cases h
        · rename_i rs st₂ h₂
          cases h
          obtain ⟨e₁, p₁⟩ := mariadbVisitExpr_inv l st ls st₁ h₁
          obtain ⟨e₂, p₂⟩ := mariadbVisitExpr_inv r st₁ rs st' h₂
          refine ⟨by simp [myLitsExpr, e₁, e₂, List.append_assoc], fun hcl => ?_⟩
          simp only [cleanExpr, Bool.and_eq_true] at hcl
          obtain ⟨⟨h1, h2⟩, h3⟩ := hcl
          have := phInv_append (qT "(" (by decide)) (phInv_append (p₁ h1)
            (phInv_append (qT " " (by decide)) (phInv_append
              (phInv_of_strClean none h2) (phInv_append (qT " " (by decide))
                (phInv_append (p₂ h3) (qT ")" (by decide)))))))
          simpa [myLitsExpr, List.length_append, String.append_assoc] using this
  | starNode =>
      intro st s st' h
      simp only [mariadbVisitExpr, Except.ok.injEq, Prod.mk.injEq] at h
      obtain ⟨hs, hst⟩ := h
      refine ⟨by simp [myLitsExpr, hst.symm], fun _ => ?_⟩
      rw [← hs]
      simpa [myLitsExpr] using qT "*" (by decide)
  | aliasNode e name =>
      intro st s st' h
      simp only [mariadbVisitExpr] at h
      split at h
      · cases h
      · rename_i es st₁ h₁
        cases h
        obtain ⟨e₁, p₁⟩ := mariadbVisitExpr_inv e st es st' h₁
        refine ⟨by simp [myLitsExpr, e₁], fun hcl => ?_⟩
        simp only [cleanExpr, Bool.and_eq_true] at hcl
        have := phInv_append (p₁ hcl.1) (phInv_append (qT " AS " (by decide))
          (phInv_of_strClean none hcl.2))
        simpa [myLitsExpr, String.append_assoc] using this
  | castNode e dt =>
      intro st s st' h
      simp only [mariadbVisitExpr] at h
      split at h
      · cases h
      · rename_i es st₁ h₁
        cases h
        obtain ⟨e₁, p₁⟩ := mariadbVisitExpr_inv e st es st' h₁
        refine ⟨by simp [myLitsExpr, e₁], fun hcl => ?_⟩
        simp only [cleanExpr, Bool.and_eq_true] at hcl
        have := phInv_append (qT "CAST(" (by decide)) (phInv_append (p₁ hcl.1)
          (phInv_append (qT " AS " (by decide)) (phInv_append
            (phInv_of_strClean none hcl.2) (qT ")" (by decide)))))
        simpa [myLitsExpr, String.append_assoc] using this
  | functionCallNode name args over =>
      intro st s st' h
      simp only [mariadbVisitExpr] at h
      split at h
      · cases h
      · rename_i ss st₁ h₁
        split at h
        · cases h
        · rename_i ovS st₂ h₂
          cases h
          obtain ⟨e₁, p₁⟩ := mariadbVisitExprList_inv args st ss st₁ h₁
          obtain ⟨e₂, p₂⟩ := mariadbOverSection_inv over st₁ ovS st' h₂
          refine ⟨by simp [myLitsExpr, e₁, e₂, List.append_assoc], fun hcl => ?_⟩
          simp only [cleanExpr, Bool.and_eq_true] at hcl
          obtain ⟨⟨h1, h2⟩, h3⟩ := hcl
          have := phInv_append (phInv_of_strClean none h1)
            (phInv_append (qT "(" (by decide)) (phInv_append
              (phInv_join ", " (p₁ h2) (by decide))
              (phInv_append (qT ")" (by decide)) (p₂ h3))))
          simpa [myLitsExpr, List.length_append, String.append_assoc] using this
  | unaryOperationNode op e =>
      intro st s st' h
      simp only [mariadbVisitExpr] at h
      split at h
      · cases h
      · rename_i es st₁ h₁
        cases h
        obtain ⟨e₁, p₁⟩ := mariadbVisitExpr_inv e st es st' h₁
        refine ⟨by simp [myLitsExpr, e₁], fun hcl => ?_⟩
        simp only [cleanExpr, Bool.and_eq_true] at hcl
        have := phInv_append (qT "(" (by decide))
          (phInv_append (phInv_of_strClean none hcl.1)
            (phInv_append (qT " " (by decide))
              (phInv_append (p₁ hcl.2) (qT ")" (by decide)))))
        simpa [myLitsExpr, String.append_assoc] using this
  | inNode e vals neg =>
      intro st s st' h
      simp only [mariadbVisitExpr] at h
      split at h
      · cases h
      · rename_i es st₁ h₁
        split at h
        · cases h
        · rename_i vs st₂ h₂
          cases h
          obtain ⟨e₁, p₁⟩ := mariadbVisitExpr_inv e st es st₁ h₁
          obtain ⟨e₂, p₂⟩ := mariadbVisitExprList_inv vals st₁ vs st' h₂
          refine ⟨by simp [myLitsExpr, e₁, e₂, List.append_assoc], fun hcl => ?_⟩
          simp only [cleanExpr, Bool.and_eq_true] at hcl
          have hop : qInv (if neg = true then "NOT IN" else "IN") 0 := by
            split <;> exact qT _ (by decide)
          have := phInv_append (qT "(" (by decide)) (phInv_append (p₁ hcl.1)
            (phInv_append (qT " " (by decide)) (phInv_append hop
              (phInv_append (qT " (" (by decide)) (phInv_append
                (phInv_join ", " (p₂ hcl.2) (by decide)) (qT "))" (by decide)))))))
          simpa [myLitsExpr, List.length_append, String.append_assoc] using this
  | betweenNode e lo hi neg =>
      intro st s st' h
      simp only [mariadbVisitExpr] at h
      split at h
      · cases h
      · rename_i es st₁ h₁
        split at h
        · cases h
        · rename_i los st₂ h₂
          split at h
          · cases h
          · rename_i his st₃ h₃
            cases h
            obtain ⟨e₁, p₁⟩ := mariadbVisitExpr_inv e st es st₁ h₁
            obtain ⟨e₂, p₂⟩ := mariadbVisitExpr_inv lo st₁ los st₂ h₂
            obtain ⟨e₃, p₃⟩ := mariadbVisitExpr_inv hi st₂ his st' h₃
            refine ⟨by simp [myLitsExpr, e₁, e₂, e₃, List.append_assoc], fun hcl => ?_⟩
            simp only [cleanExpr, Bool.and_eq_true] at hcl
            obtain ⟨⟨h1, h2⟩, h3⟩ := hcl
            have hop : qInv (if neg = true then "NOT BETWEEN" else "BETWEEN") 0 := by
              split <;> exact qT _ (by decide)
            have := phInv_append (qT "(" (by decide)) (phInv_append (p₁ h1)
              (phInv_append (qT " " (by decide)) (phInv_append hop
                (phInv_append (qT " " (by decide)) (phInv_append (p₂ h2)
                  (phInv_append (qT " AND " (by decide)) (phInv_append (p₃ h3)
                    (qT ")" (by decide)))))))))
            simpa [myLitsExpr, List.length_append, String.append_assoc] using this
  | caseExpressionNode cases else_result =>
      intro st s st' h
      simp only [mariadbVisitExpr] at h
      split at h
      · cases h
      · rename_i cs st₁ h₁
        split at h
        · cases h
        · rename_i elseL st₂ h₂
          cases h
          obtain ⟨e₁, p₁⟩ := mariadbVisitWhenThenList_inv cases st cs st₁ h₁
          obtain ⟨e₂, p₂⟩ := mariadbElseSection_inv else_result st₁ elseL st' h₂
          refine ⟨by simp [myLitsExpr, e₁, e₂, List.append_assoc], fun hcl => ?_⟩
          simp only [cleanExpr, Bool.and_eq_true] at hcl
          have := phInv_join " " (phInvList_append
            (phInvList_single (qT "CASE" (by decide)))
            (phInvList_append (p₁ hcl.1)
              (phInvList_append (p₂ hcl.2)
                (phInvList_single (qT "END" (by decide)))))) (by decide)
          simpa [myLitsExpr, List.length_append, String.append_assoc] using this
  | subqueryNode sel subAlias =>
      intro st s st' h
      simp only [mariadbVisitExpr] at h
      split at h
      · cases h
      · rename_i ss st₁ h₁
        cases h
        obtain ⟨e₁, p₁⟩ := mariadbVisitSelect_inv sel st ss st' h₁
        refine ⟨by simp [myLitsExpr, e₁], fun hcl => ?_⟩
        simp only [cleanExpr, Bool.and_eq_true] at hcl
        have := phInv_append (qT "(" (by decide)) (phInv_append (p₁ hcl.1)
          (phInv_append (qT ")" (by decide)) (aliasSuffix_qInv hcl.2)))
        simpa [myLitsExpr, String.append_assoc] using this

theorem mariadbElseSection_inv (o : Option Expr) : ∀ st ss st',
    mariadbElseSection o st = .ok (ss, st') →
    st' = st ++ myLitsExprOpt o ∧
    (cleanExprOpt '?' o = true → qInvList ss (myLitsExprOpt o).length) := by
  cases o with
  | none =>
      intro st ss st' h
      simp only [mariadbElseSection, Except.ok.injEq, Prod.mk.injEq] at h
      obtain ⟨hs, hst⟩ := h
      refine ⟨by simp [myLitsExprOpt, hst.symm], fun _ => ?_⟩
      rw [← hs]
      simpa [myLitsExprOpt] using phInvList_nil '?' none
  | some e =>
      intro st ss st' h
      simp only [mariadbElseSection] at h
      split at h
      · cases h
      · rename_i es st₁ h₁
        cases h
        obtain ⟨e₁, p₁⟩ := mariadbVisitExpr_inv e st es st' h₁
        refine ⟨by simp [myLitsExprOpt, e₁], fun hcl => ?_⟩
        simp only [cleanExprOpt] at hcl
        simpa [myLitsExprOpt, String.append_assoc] using phInvList_single
          (phInv_append (qT "ELSE " (by decide)) (p₁ hcl))

theorem mariadbVisitExprList_inv (es : List Expr) : ∀ st ss st',
    mariadbVisitExprList es st = .ok (ss, st') →
    st' = st ++ myLitsExprList es ∧
    (cleanExprList '?' es = true →
      qInvList ss (myLitsExprList es).length) := by
  cases es with
  | nil =>
      intro st ss st' h
      simp only [mariadbVisitExprList, Except.ok.injEq, Prod.mk.injEq] at h
      obtain ⟨hs, hst⟩ := h
      refine ⟨by simp [myLitsExprList, hst.symm], fun _ => ?_⟩
      rw [← hs]
      simpa [myLitsExprList] using phInvList_nil '?' none
  | cons e rest =>
      intro st ss st' h
      simp only [mariadbVisitExprList] at h
      split at h
      · cases h
      · rename_i s₁ st₁ h₁
        split at h
        · cases h
        · rename_i ss₂ st₂ h₂
          cases h
          obtain ⟨e₁, p₁⟩ := mariadbVisitExpr_inv e st s₁ st₁ h₁
          obtain ⟨e₂, p₂⟩ := mariadbVisitExprList_inv rest st₁ ss₂ st' h₂
          refine ⟨by simp [myLitsExprList, e₁, e₂, List.append_assoc], fun hcl => ?_⟩
          simp only [cleanExprList, Bool.and_eq_true] at hcl
          simpa [myLitsExprList, List.length_append, String.append_assoc] using phInvList_cons (p₁ hcl.1) (p₂ hcl.2)

theorem mariadbVisitWhenThen_inv (w : WhenThen) : ∀ st s st',
    mariadbVisitWhenThen w st = .ok (s, st') →
    st' = st ++ myLitsWhenThen w ∧
    (cleanWhenThen '?' w = true → qInv s (myLitsWhenThen w).length) := by
  cases w with
  | whenThenNode c r =>
      intro st s st' h
      simp only [mariadbVisitWhenThen] at h
      split at h
      · cases h
      · rename_i cs st₁ h₁
        split at h
        · cases h
        · rename_i rs st₂ h₂
          cases h
          obtain ⟨e₁, p₁⟩ := mariadbVisitExpr_inv c st cs st₁ h₁
          obtain ⟨e₂, p₂⟩ := mariadbVisitExpr_inv r st₁ rs st' h₂
          refine ⟨by simp [myLitsWhenThen, e₁, e₂, List.append_assoc], fun hcl => ?_⟩
          simp only [cleanWhenThen, Bool.and_eq_true] at hcl
          have := phInv_append (qT "WHEN " (by decide)) (phInv_append (p₁ hcl.1)
            (phInv_append (qT " THEN " (by decide)) (p₂ hcl.2)))
          simpa [myLitsWhenThen, List.length_append, String.append_assoc] using this

theorem mariadbVisitWhenThenList_inv (ws : List WhenThen) : ∀ st ss st',
    mariadbVisitWhenThenList ws st = .ok (ss, st') →
    st' = st ++ myLitsWhenThenList ws ∧
    (cleanWhenThenList '?' ws = true →
      qInvList ss (myLitsWhenThenList ws).length) := by
  cases ws with
  | nil =>
      intro st ss st' h
      simp only [mariadbVisitWhenThenList, Except.ok.injEq, Prod.mk.injEq] at h
      obtain ⟨hs, hst⟩ := h
      refine ⟨by simp [myLitsWhenThenList, hst.symm], fun _ => ?_⟩
      rw [← hs]
      simpa [myLitsWhenThenList] using phInvList_nil '?' none
  | cons w rest =>
      intro st ss st' h
      simp only [mariadbVisitWhenThenList] at h
      split at h
      · cases h
      · rename_i s₁ st₁ h₁
        split at h
        · cases h
        · rename_i ss₂ st₂ h₂
          cases h
          obtain ⟨e₁, p₁⟩ := mariadbVisitWhenThen_inv w st s₁ st₁ h₁
          obtain ⟨e₂, p₂⟩ := mariadbVisitWhenThenList_inv rest st₁ ss₂ st' h₂
          refine ⟨by simp [myLitsWhenThenList, e₁, e₂, List.append_assoc],
            fun hcl => ?_⟩
          simp only [cleanWhenThenList, Bool.and_eq_true] at hcl
          simpa [myLitsWhenThenList, List.length_append, String.append_assoc] using phInvList_cons (p₁ hcl.1) (p₂ hcl.2)

theorem mariadbVisitFrom_inv (f : FromClause) : ∀ st s st',
    mariadbVisitFrom f st = .ok (s, st') →
    st' = st ++ myLitsFrom f ∧
    (cleanFrom '?' f = true → qInv s (myLitsFrom f).length) := by
  cases f with
  | tableNode t =>
      intro st s st' h
      simp only [mariadbVisitFrom, Except.ok.injEq, Prod.mk.injEq] at h
      obtain ⟨hs, hst⟩ := h
      refine ⟨by simp [myLitsFrom, hst.symm], fun hcl => ?_⟩
      simp only [cleanFrom] at hcl
      rw [← hs]
      simpa [myLitsFrom] using mariadbVisitTableNode_inv '?' none (by decide) (by decide) hcl
  | joinClauseNode l r on_c jt =>
      intro st s st' h
      simp only [mariadbVisitFrom] at h
      split at h
      · cases h
      · rename_i ls st₁ h₁
        split at h
        · cases h
        · rename_i rs st₂ h₂
          split at h
          · cases h
          · rename_i os st₃ h₃
            cases h
            obtain ⟨e₁, p₁⟩ := mariadbVisitFrom_inv l st ls st₁ h₁
            obtain ⟨e₂, p₂⟩ := mariadbVisitFrom_inv r st₁ rs st₂ h₂
            obtain ⟨e₃, p₃⟩ := mariadbVisitExpr_inv on_c st₂ os st' h₃
            refine ⟨by simp [myLitsFrom, e₁, e₂, e₃, List.append_assoc], fun hcl => ?_⟩
            simp only [cleanFrom, Bool.and_eq_true] at hcl
            obtain ⟨⟨⟨h1, h2⟩, h3⟩, h4⟩ := hcl
            have := phInv_append (p₁ h1) (phInv_append (qT " " (by decide))
              (phInv_append (phInv_of_strClean none h4)
                (phInv_append (qT " JOIN " (by decide)) (phInv_append (p₂ h2)
                  (phInv_append (qT " ON " (by decide)) (p₃ h3))))))
            simpa [myLitsFrom, List.length_append, String.append_assoc] using this
  | subqueryNode sel subAlias =>
      intro st s st' h
      simp only [mariadbVisitFrom] at h
      split at h
      · cases h
      · rename_i ss st₁ h₁
        cases h
        obtain ⟨e₁, p₁⟩ := mariadbVisitSelect_inv sel st ss st' h₁
        refine ⟨by simp [myLitsFrom, e₁], fun hcl => ?_⟩
        simp only [cleanFrom, Bool.and_eq_true] at hcl
        have := phInv_append (qT "(" (by decide)) (phInv_append (p₁ hcl.1)
          (phInv_append (qT ")" (by decide)) (aliasSuffix_qInv hcl.2)))
        simpa [myLitsFrom, String.append_assoc] using this

theorem mariadbVisitWhere_inv (w : Where) : ∀ st s st',
    mariadbVisitWhere w st = .ok (s, st') →
    st' = st ++ myLitsWhereOpt (some w) ∧
    (cleanWhere '?' w = true → qInv s (myLitsWhereOpt (some w)).length) := by
  cases w with
  | whereClauseNode c =>
      intro st s st' h
      simp only [mariadbVisitWhere] at h
      split at h
      · cases h
      · rename_i cs st₁ h₁
        cases h
        obtain ⟨e₁, p₁⟩ := mariadbVisitExpr_inv c st cs st' h₁
        refine ⟨by simp [myLitsWhereOpt, e₁], fun hcl => ?_⟩
        simp only [cleanWhere] at hcl
        have := phInv_append (qT "WHERE " (by decide)) (p₁ hcl)
        simpa [myLitsWhereOpt, String.append_assoc] using this

theorem mariadbVisitGroupBy_inv (g : GroupByClause) : ∀ st s st',
    mariadbVisitGroupBy g st = .ok (s, st') →
    st' = st ++ myLitsGroupOpt (some g) ∧
    (cleanGroupBy '?' g = true → qInv s (myLitsGroupOpt (some g)).length) := by
  cases g with
  | groupByClauseNode es =>
      intro st s st' h
      simp only [mariadbVisitGroupBy] at h
      split at h
      · cases h
      · rename_i ss st₁ h₁
        cases h
        obtain ⟨e₁, p₁⟩ := mariadbVisitExprList_inv es st ss st' h₁
        refine ⟨by simp [myLitsGroupOpt, e₁], fun hcl => ?_⟩
        simp only [cleanGroupBy] at hcl
        have := phInv_append (qT "GROUP BY " (by decide))
          (phInv_join ", " (p₁ hcl) (by decide))
        simpa [myLitsGroupOpt, String.append_assoc] using this

theorem mariadbVisitHaving_inv (hv : Having) : ∀ st s st',
    mariadbVisitHaving hv st = .ok (s, st') →
    st' = st ++ myLitsHavingOpt (some hv) ∧
    (cleanHaving '?' hv = true → qInv s (myLitsHavingOpt (some hv)).length) := by
  cases hv with
  | havingClauseNode c =>
      intro st s st' h
      simp only [mariadbVisitHaving] at h
      split at h
      · cases h
      · rename_i cs st₁ h₁
        cases h
        obtain ⟨e₁, p₁⟩ := mariadbVisitExpr_inv c st cs st' h₁
        refine ⟨by simp [myLitsHavingOpt, e₁], fun hcl => ?_⟩
        simp only [cleanHaving] at hcl
        have := phInv_append (qT "HAVING " (by decide)) (p₁ hcl)
        simpa [myLitsHavingOpt, String.append_assoc] using this

theorem mariadbVisitOrderBy_inv (o : OrderBy) : ∀ st s st',
    mariadbVisitOrderBy o st = .ok (s, st') →
    st' = st ++ myLitsOrderBy o ∧
    (cleanOrderBy '?' o = true → qInv s (myLitsOrderBy o).length) := by
  cases o with
  | orderByClauseNode e dir =>
      intro st s st' h
      simp only [mariadbVisitOrderBy] at h
      split at h
      · cases h
      · rename_i es st₁ h₁
        cases h
        obtain ⟨e₁, p₁⟩ := mariadbVisitExpr_inv e st es st' h₁
        refine ⟨by simp [myLitsOrderBy, e₁], fun hcl => ?_⟩
        simp only [cleanOrderBy, Bool.and_eq_true] at hcl
        have := phInv_append (p₁ hcl.1) (phInv_append (qT " " (by decide))
          (phInv_of_strClean none hcl.2))
        simpa [myLitsOrderBy, String.append_assoc] using this

theorem mariadbVisitOrderByList_inv (os : List OrderBy) : ∀ st ss st',
    mariadbVisitOrderByList os st = .ok (ss, st') →
    st' = st ++ myLitsOrderByList os ∧
    (cleanOrderByList '?' os = true →
      qInvList ss (myLitsOrderByList os).length) := by
  cases os with
  | nil =>
      intro st ss st' h
      simp only [mariadbVisitOrderByList, Except.ok.injEq, Prod.mk.injEq] at h
      obtain ⟨hs, hst⟩ := h
      refine ⟨by simp [myLitsOrderByList, hst.symm], fun _ => ?_⟩
      rw [← hs]
      simpa [myLitsOrderByList] using phInvList_nil '?' none
  | cons o rest =>
      intro st ss st' h
      simp only [mariadbVisitOrderByList] at h
      split at h
      · cases h
      · rename_i s₁ st₁ h₁
        split at h
        · cases h
        · rename_i ss₂ st₂ h₂
          cases h
          obtain ⟨e₁, p₁⟩ := mariadbVisitOrderBy_inv o st s₁ st₁ h₁
          obtain ⟨e₂, p₂⟩ := mariadbVisitOrderByList_inv rest st₁ ss₂ st' h₂
          refine ⟨by simp [myLitsOrderByList, e₁, e₂, List.append_assoc],
            fun hcl => ?_⟩
          simp only [cleanOrderByList, Bool.and_eq_true] at hcl
          simpa [myLitsOrderByList, List.length_append, String.append_assoc] using phInvList_cons (p₁ hcl.1) (p₂ hcl.2)

theorem mariadbFromSection_inv (o : Option FromClause) : ∀ st l st',
    mariadbFromSection o st = .ok (l, st') →
    st' = st ++ myLitsFromOpt o ∧
    (cleanFromOpt '?' o = true → qInvList l (myLitsFromOpt o).length) := by
  cases o with
  | none =>
      intro st l st' h
      simp only [mariadbFromSection, Except.ok.injEq, Prod.mk.injEq] at h
      obtain ⟨hs, hst⟩ := h
      refine ⟨by simp [myLitsFromOpt, hst.symm], fun _ => ?_⟩
      rw [← hs]
      simpa [myLitsFromOpt] using phInvList_nil '?' none
  | some f =>
      intro st l st' h
      simp only [mariadbFromSection] at h
      split at h
      · cases h
      · rename_i fs st₁ h₁
        cases h
        obtain ⟨e₁, p₁⟩ := mariadbVisitFrom_inv f st fs st' h₁
        refine ⟨by simpa [myLitsFromOpt] using e₁, fun hcl => ?_⟩
        simp only [cleanFromOpt] at hcl
        simpa [myLitsFromOpt] using
          phInvList_cons (qT "FROM" (by decide)) (phInvList_single (p₁ hcl))

theorem mariadbWhereSection_inv (o : Option Where) : ∀ st l st',
    mariadbWhereSection o st = .ok (l, st') →
    st' = st ++ myLitsWhereOpt o ∧
    (cleanWhereOpt '?' o = true → qInvList l (myLitsWhereOpt o).length) := by
  cases o with
  | none =>
      intro st l st' h
      simp only [mariadbWhereSection, Except.ok.injEq, Prod.mk.injEq] at h
      obtain ⟨hs, hst⟩ := h
      refine ⟨by simp [myLitsWhereOpt, hst.symm], fun _ => ?_⟩
      rw [← hs]
      simpa [myLitsWhereOpt] using phInvList_nil '?' none
  | some w =>
      intro st l st' h
      simp only [mariadbWhereSection] at h
      split at h
      · cases h
      · rename_i ws st₁ h₁
        cases h
        obtain ⟨e₁, p₁⟩ := mariadbVisitWhere_inv w st ws st' h₁
        exact ⟨e₁, fun hcl => phInvList_single (p₁ hcl)⟩

theorem mariadbGroupSection_inv (o : Option GroupByClause) : ∀ st l st',
    mariadbGroupSection o st = .ok (l, st') →
    st' = st ++ myLitsGroupOpt o ∧
    (cleanGroupByOpt '?' o = true → qInvList l (myLitsGroupOpt o).length) := by
  cases o with
  | none =>
      intro st l st' h
      simp only [mariadbGroupSection, Except.ok.injEq, Prod.mk.injEq] at h
      obtain ⟨hs, hst⟩ := h
      refine ⟨by simp [myLitsGroupOpt, hst.symm], fun _ => ?_⟩
      rw [← hs]
      simpa [myLitsGroupOpt] using phInvList_nil '?' none
  | some g =>
      intro st l st' h
      simp only [mariadbGroupSection] at h
      split at h
      · cases h
      · rename_i gs st₁ h₁
        cases h
        obtain ⟨e₁, p₁⟩ := mariadbVisitGroupBy_inv g st gs st' h₁
        exact ⟨e₁, fun hcl => phInvList_single (p₁ hcl)⟩

theorem mariadbHavingSection_inv (o : Option Having) : ∀ st l st',
    mariadbHavingSection o st = .ok (l, st') →
    st' = st ++ myLitsHavingOpt o ∧
    (cleanHavingOpt '?' o = true → qInvList l (myLitsHavingOpt o).length) := by
  cases o with
  | none =>
      intro st l st' h
      simp only [mariadbHavingSection, Except.ok.injEq, Prod.mk.injEq] at h
      obtain ⟨hs, hst⟩ := h
      refine ⟨by simp [myLitsHavingOpt, hst.symm], fun _ => ?_⟩
      rw [← hs]
      simpa [myLitsHavingOpt] using phInvList_nil '?' none
  | some hv =>
      intro st l st' h
      simp only [mariadbHavingSection] at h
      split at h
      · cases h
      · rename_i hs st₁ h₁
        cases h
        obtain ⟨e₁, p₁⟩ := mariadbVisitHaving_inv hv st hs st' h₁
        exact ⟨e₁, fun hcl => phInvList_single (p₁ hcl)⟩

theorem mariadbOrderBySection_inv (o : Option (List OrderBy)) : ∀ st s st',
    mariadbOrderBySection o st = .ok (s, st') →
    st' = st ++ myLitsOrderSection o ∧
    (s = "" ↔ truthyList o = false) ∧
    (cleanOrderByListOpt '?' o = true →
      qInv s (myLitsOrderSection o).length) := by
  cases o with
  | none =>
      intro st s st' h
      simp only [mariadbOrderBySection, Except.ok.injEq, Prod.mk.injEq] at h
      obtain ⟨hs, hst⟩ := h
      refine ⟨by simp [myLitsOrderSection, hst.symm], ?_, fun _ => ?_⟩
      · simp [← hs, truthyList]
      · rw [← hs]
        simpa [myLitsOrderSection] using qT "" (by decide)
  | some items =>
      intro st s st' h
      simp only [mariadbOrderBySection] at h
      split at h
      · rename_i hempty
        simp only [Except.ok.injEq, Prod.mk.injEq] at h
        obtain ⟨hs, hst⟩ := h
        refine ⟨by simp [myLitsOrderSection, hempty, hst.symm], ?_, fun _ => ?_⟩
        · simp [← hs, truthyList, hempty]
        · rw [← hs]
          simpa [myLitsOrderSection, hempty] using qT "" (by decide)
      · rename_i hempty
        split at h
        · cases h
        · rename_i ss st₁ h₁
          cases h
          obtain ⟨e₁, p₁⟩ := mariadbVisitOrderByList_inv items st ss st' h₁
          refine ⟨by simp [myLitsOrderSection, hempty, e₁], ?_, fun hcl => ?_⟩
          · constructor
            · intro heq
              have hlen := congrArg String.length heq
              simp [String.length_append] at hlen
              exact absurd hlen.1 (by decide)
            · intro htr
              simp [truthyList, hempty] at htr
          · simp only [cleanOrderByListOpt] at hcl
            have := phInv_append (qT "ORDER BY " (by decide))
              (phInv_join ", " (p₁ hcl) (by decide))
            simpa [myLitsOrderSection, hempty] using this

theorem mariadbTopOrderSection_inv (tc : Option Top) (obSql : String) : ∀ st s' st₁,
    mariadbTopOrderSection tc obSql st = .ok (s', st₁) →
    st₁ = st ++ (if obSql = "" then myLitsTopExpr tc else []) ∧
    (cleanTopOpt '?' tc = true → ∀ m, qInv obSql m →
      qInv s' (m + (if obSql = "" then (myLitsTopExpr tc).length else 0))) := by
  intro st s' st₁ h
  match tc, h with
  | none, h =>
      simp only [mariadbTopOrderSection, Except.ok.injEq, Prod.mk.injEq] at h
      obtain ⟨hs, hst⟩ := h
      refine ⟨by simp [myLitsTopExpr, hst.symm], fun _ m hm => ?_⟩
      rw [← hs]
      have : qInv obSql (m + (if obSql = "" then 0 else 0)) := by simpa using hm
      simpa [myLitsTopExpr] using this
  | some (.topClauseNode cnt none dir), h =>
      simp only [mariadbTopOrderSection, Except.ok.injEq, Prod.mk.injEq] at h
      obtain ⟨hs, hst⟩ := h
      refine ⟨by simp [myLitsTopExpr, hst.symm], fun _ m hm => ?_⟩
      rw [← hs]
      have : qInv obSql (m + (if obSql = "" then 0 else 0)) := by simpa using hm
      simpa [myLitsTopExpr] using this
  | some (.topClauseNode cnt (some e) dir), h =>
      simp only [mariadbTopOrderSection] at h
      split at h
      · rename_i hob
        split at h
        · cases h
        · rename_i es st₂ h₁
          cases h
          obtain ⟨e₁, p₁⟩ := mariadbVisitExpr_inv e st es st₁ h₁
          refine ⟨by simp [myLitsTopExpr, hob, e₁], fun hcl m hm => ?_⟩
          simp only [cleanTop, cleanTopOpt, cleanExprOpt, Bool.and_eq_true] at hcl
          have hm0 : m = 0 := phInv_empty_eq_zero (hob ▸ hm)
          have := phInv_append (qT "ORDER BY " (by decide))
            (phInv_append (p₁ hcl.1) (phInv_append (qT " " (by decide))
              (phInv_of_strClean none hcl.2)))
          simpa [myLitsTopExpr, hob, hm0, String.append_assoc] using this
      · rename_i hob
        cases h
        refine ⟨by simp [hob], fun _ m hm => ?_⟩
        simpa [hob] using hm

theorem mariadbOverSection_inv (o : Option OverClause) : ∀ st s st',
    mariadbOverSection o st = .ok (s, st') →
    st' = st ++ myLitsOverOpt o ∧
    (cleanOverOpt '?' o = true → qInv s (myLitsOverOpt o).length) := by
  cases o with
  | none =>
      intro st s st' h
      simp only [mariadbOverSection, Except.ok.injEq, Prod.mk.injEq] at h
      obtain ⟨hs, hst⟩ := h
      refine ⟨by simp [myLitsOverOpt, hst.symm], fun _ => ?_⟩
      rw [← hs]
      simpa [myLitsOverOpt] using qT "" (by decide)
  | some ov =>
      intro st s st' h
      simp only [mariadbOverSection] at h
      split at h
      · cases h
      · rename_i ovs st₁ h₁
        cases h
        obtain ⟨e₁, p₁⟩ := mariadbVisitOverClauseNode_inv ov st ovs st' h₁
        refine ⟨by simp [myLitsOverOpt, e₁], fun hcl => ?_⟩
        simp only [cleanOverOpt] at hcl
        have := phInv_append (qT " OVER " (by decide)) (p₁ hcl)
        simpa [myLitsOverOpt] using this

theorem mariadbVisitOverClauseNode_inv (ov : OverClause) : ∀ st s st',
    mariadbVisitOverClauseNode ov st = .ok (s, st') →
    st' = st ++ myLitsOver ov ∧
    (cleanOver '?' ov = true → qInv s (myLitsOver ov).length) := by
  cases ov with
  | overClauseNode partition_by order_by =>
      intro st s st' h
      simp only [mariadbVisitOverClauseNode] at h
      split at h
      · cases h
      · rename_i pL st₁ h₁
        split at h
        · cases h
        · rename_i oL st₂ h₂
          cases h
          obtain ⟨e₁, p₁⟩ := mariadbOverPartitionSection_inv partition_by st pL st₁ h₁
          obtain ⟨e₂, p₂⟩ := mariadbOverOrderSection_inv order_by st₁ oL st' h₂
          refine ⟨by simp [myLitsOver, e₁, e₂, List.append_assoc], fun hcl => ?_⟩
          simp only [cleanOver, Bool.and_eq_true] at hcl
          have := phInv_append (qT "(" (by decide)) (phInv_append
            (phInv_join " " (phInvList_append (p₁ hcl.1) (p₂ hcl.2)) (by decide))
            (qT ")" (by decide)))
          simpa [myLitsOver, List.length_append, String.append_assoc] using this

theorem mariadbOverPartitionSection_inv (o : Option (List Expr)) : ∀ st l st',
    mariadbOverPartitionSection o st = .ok (l, st') →
    st' = st ++ myLitsPartitionSection o ∧
    (cleanExprListOpt '?' o = true →
      qInvList l (myLitsPartitionSection o).length) := by
  cases o with
  | none =>
      intro st l st' h
      simp only [mariadbOverPartitionSection, Except.ok.injEq, Prod.mk.injEq] at h
      obtain ⟨hs, hst⟩ := h
      refine ⟨by simp [myLitsPartitionSection, hst.symm], fun _ => ?_⟩
      rw [← hs]
      simpa [myLitsPartitionSection] using phInvList_nil '?' none
  | some es =>
      intro st l st' h
      simp only [mariadbOverPartitionSection] at h
      split at h
      · rename_i hempty
        simp only [Except.ok.injEq, Prod.mk.injEq] at h
        obtain ⟨hs, hst⟩ := h
        refine ⟨by simp [myLitsPartitionSection, hempty, hst.symm], fun _ => ?_⟩
        rw [← hs]
        simpa [myLitsPartitionSection, hempty] using phInvList_nil '?' none
      · rename_i hempty
        split at h
        · cases h
        · rename_i ss st₁ h₁
          cases h
          obtain ⟨e₁, p₁⟩ := mariadbVisitExprList_inv es st ss st' h₁
          refine ⟨by simp [myLitsPartitionSection, hempty, e₁], fun hcl => ?_⟩
          simp only [cleanExprListOpt] at hcl
          have := phInvList_single (phInv_append (qT "PARTITION BY " (by decide))
            (phInv_join ", " (p₁ hcl) (by decide)))
          simpa [myLitsPartitionSection, hempty] using this

theorem mariadbOverOrderSection_inv (o : Option (List OrderBy)) : ∀ st l st',
    mariadbOverOrderSection o st = .ok (l, st') →
    st' = st ++ myLitsOrderSection o ∧
    (cleanOrderByListOpt '?' o = true →
      qInvList l (myLitsOrderSection o).length) := by
  cases o with
  | none =>
      intro st l st' h
      simp only [mariadbOverOrderSection, Except.ok.injEq, Prod.mk.injEq] at h
      obtain ⟨hs, hst⟩ := h
      refine ⟨by simp [myLitsOrderSection, hst.symm], fun _ => ?_⟩
      rw [← hs]
      simpa [myLitsOrderSection] using phInvList_nil '?' none
  | some items =>
      intro st l st' h
      simp only [mariadbOverOrderSection] at h
      split at h
      · rename_i hempty
        simp only [Except.ok.injEq, Prod.mk.injEq] at h
        obtain ⟨hs, hst⟩ := h
        refine ⟨by simp [myLitsOrderSection, hempty, hst.symm], fun _ => ?_⟩
        rw [← hs]
        simpa [myLitsOrderSection, hempty] using phInvList_nil '?' none
      · rename_i hempty
        split at h
        · cases h
        · rename_i ss st₁ h₁
          cases h
          obtain ⟨e₁, p₁⟩ := mariadbVisitOrderByList_inv items st ss st' h₁
          refine ⟨by simp [myLitsOrderSection, hempty, e₁], fun hcl => ?_⟩
          simp only [cleanOrderByListOpt] at hcl
          have := phInvList_single (phInv_append (qT "ORDER BY " (by decide))
            (phInv_join ", " (p₁ hcl) (by decide)))
          simpa [myLitsOrderSection, hempty] using this

theorem mariadbVisitCte_inv (c : Cte) : ∀ st s st',
    mariadbVisitCte c st = .ok (s, st') →
    st' = st ++ myLitsCte c ∧
    (cleanCte '?' c = true → qInv s (myLitsCte c).length) := by
  cases c with
  | cteNode name sub =>
      intro st s st' h
      simp only [mariadbVisitCte] at h
      split at h
      · cases h
      · rename_i ss st₁ h₁
        cases h
        obtain ⟨e₁, p₁⟩ := mariadbVisitSelect_inv sub st ss st' h₁
        refine ⟨by simp [myLitsCte, e₁], fun hcl => ?_⟩
        simp only [cleanCte, Bool.and_eq_true] at hcl
        have := phInv_append (phInv_of_strClean none hcl.1)
          (phInv_append (qT " AS (" (by decide)) (phInv_append (p₁ hcl.2)
            (qT ")" (by decide))))
        simpa [myLitsCte, String.append_assoc] using this

theorem mariadbVisitCteList_inv (cs : List Cte) : ∀ st ss st',
    mariadbVisitCteList cs st = .ok (ss, st') →
    st' = st ++ myLitsCteList cs ∧
    (cleanCteList '?' cs = true →
      qInvList ss (myLitsCteList cs).length) := by
  cases cs with
  | nil =>
      intro st ss st' h
      simp only [mariadbVisitCteList, Except.ok.injEq, Prod.mk.injEq] at h
      obtain ⟨hs, hst⟩ := h
      refine ⟨by simp [myLitsCteList, hst.symm], fun _ => ?_⟩
      rw [← hs]
      simpa [myLitsCteList] using phInvList_nil '?' none
  | cons c rest =>
      intro st ss st' h
      simp only [mariadbVisitCteList] at h
      split at h
      · cases h
      · rename_i s₁ st₁ h₁
        split at h
        · cases h
        · rename_i ss₂ st₂ h₂
          cases h
          obtain ⟨e₁, p₁⟩ := mariadbVisitCte_inv c st s₁ st₁ h₁
          obtain ⟨e₂, p₂⟩ := mariadbVisitCteList_inv rest st₁ ss₂ st' h₂
          refine ⟨by simp [myLitsCteList, e₁, e₂, List.append_assoc], fun hcl => ?_⟩
          simp only [cleanCteList, Bool.and_eq_true] at hcl
          simpa [myLitsCteList, List.length_append, String.append_assoc] using
            phInvList_cons (p₁ hcl.1) (p₂ hcl.2)

theorem mariadbCteSection_inv (o : Option (List Cte)) : ∀ st l st',
    mariadbCteSection o st = .ok (l, st') →
    st' = st ++ myLitsCteSection o ∧
    (cleanCteListOpt '?' o = true →
      qInvList l (myLitsCteSection o).length) := by
  cases o with
  | none =>
      intro st l st' h
      simp only [mariadbCteSection, Except.ok.injEq, Prod.mk.injEq] at h
      obtain ⟨hs, hst⟩ := h
      refine ⟨by simp [myLitsCteSection, hst.symm], fun _ => ?_⟩
      rw [← hs]
      simpa [myLitsCteSection] using phInvList_nil '?' none
  | some cl =>
      intro st l st' h
      simp only [mariadbCteSection] at h
      split at h
      · rename_i hempty
        simp only [Except.ok.injEq, Prod.mk.injEq] at h
        obtain ⟨hs, hst⟩ := h
        refine ⟨by simp [myLitsCteSection, hempty, hst.symm], fun _ => ?_⟩
        rw [← hs]
        simpa [myLitsCteSection, hempty] using phInvList_nil '?' none
      · rename_i hempty
        split at h
        · cases h
        · rename_i ss st₁ h₁
          cases h
          obtain ⟨e₁, p₁⟩ := mariadbVisitCteList_inv cl st ss st' h₁
          refine ⟨by simp [myLitsCteSection, hempty, e₁], fun hcl => ?_⟩
          simp only [cleanCteListOpt] at hcl
          have := phInvList_single (phInv_append (qT "WITH " (by decide))
            (phInv_join ", " (p₁ hcl) (by decide)))
          simpa [myLitsCteSection, hempty] using this

theorem mariadbVisitSelect_inv (n : Select) : ∀ st s st',
    mariadbVisitSelect n st = .ok (s, st') →
    st' = st ++ myLitsSelect n ∧
    (cleanSelect '?' n = true → qInv s (myLitsSelect n).length) := by
  cases n with
  | mk sl dist ctes ft wc gb hc ob tc lim off lk =>
      intro st s st' h
      simp only [mariadbVisitSelect] at h
      split at h
      · cases h
      · split at h
        · cases h
        · rename_i cteL st₀ hcte
          split at h
          · cases h
          · rename_i items st₁ hsl
            split at h
            · cases h
            · rename_i fromL st₂ hft
              split at h
              · cases h
              · rename_i whereL st₃ hwc
                split at h
                · cases h
                · rename_i groupL st₄ hgb
                  split at h
                  · cases h
                  · rename_i havL st₅ hhc
                    split at h
                    · cases h
                    · rename_i obSql st₆ hob
                      split at h
                      · cases h
                      · rename_i obSql₂ st₇ htop
                        split at h
                        · cases h
                        · rename_i lockL st₈ hlk
                          cases h
                          obtain ⟨e₀, p₀⟩ := mariadbCteSection_inv ctes st cteL st₀ hcte
                          obtain ⟨e₁, p₁⟩ := mariadbVisitExprList_inv sl st₀ items st₁ hsl
                          obtain ⟨e₂, p₂⟩ := mariadbFromSection_inv ft st₁ fromL st₂ hft
                          obtain ⟨e₃, p₃⟩ := mariadbWhereSection_inv wc st₂ whereL st₃ hwc
                          obtain ⟨e₄, p₄⟩ := mariadbGroupSection_inv gb st₃ groupL st₄ hgb
                          obtain ⟨e₅, p₅⟩ := mariadbHavingSection_inv hc st₄ havL st₅ hhc
                          obtain ⟨e₆, hiff, p₆⟩ := mariadbOrderBySection_inv ob st₅ obSql st₆ hob
                          obtain ⟨e₇, p₇⟩ := mariadbTopOrderSection_inv tc obSql st₆ obSql₂ st₇ htop
                          obtain ⟨e₈, p₈⟩ := mariadbLockSection_inv lk st₇ lockL st' hlk
                          have hifeq : (if obSql = "" then myLitsTopExpr tc else []) =
                              (if truthyList ob = true then [] else myLitsTopExpr tc) := by
                            cases htr : truthyList ob with
                            | false => rw [if_pos (hiff.mpr htr), if_neg (by simp)]
                            | true =>
                                rw [if_neg, if_pos rfl]
                                intro hobq
                                rw [hiff] at hobq
                                rw [htr] at hobq
                                cases hobq
                          constructor
                          · rw [e₈, e₇, e₆, e₅, e₄, e₃, e₂, e₁, e₀, hifeq]
                            simp [myLitsSelect, List.append_assoc]
                          · intro hcl
                            simp only [cleanSelect, Bool.and_eq_true] at hcl
                            obtain ⟨⟨⟨⟨⟨⟨⟨⟨hC1, hC0⟩, hC2⟩, hC3⟩, hC4⟩, hC5⟩, hC6⟩, hC7⟩, _⟩ := hcl
                            have q₆ := p₆ hC6
                            have q₇ := p₇ hC7 _ q₆
                            have hdist : qInvList (if dist = true then ["DISTINCT"] else []) 0 := by
                              split
                              · simpa using phInvList_single (qT "DISTINCT" (by decide))
                              · exact phInvList_nil _ _
                            have hord : qInvList (if obSql₂ ≠ "" then [obSql₂] else [])
                                ((myLitsOrderSection ob).length +
                                  (if obSql = "" then (myLitsTopExpr tc).length else 0)) := by
                              split
                              · exact phInvList_single q₇
                              · rename_i hne
                                have hzero := phInv_empty_eq_zero
                                  ((not_not.mp (by simpa using hne)) ▸ q₇)
                                rw [hzero]
                                exact phInvList_nil _ _
                            have chain := phInvList_append (phInvList_append (phInvList_append
                              (phInvList_append (phInvList_append (phInvList_append
                                (phInvList_append (phInvList_append (phInvList_append
                                  (phInvList_append (p₀ hC0)
                                    (phInvList_single (qT "SELECT" (by decide)))) hdist)
                                  (phInvList_single (phInv_join ", " (p₁ hC1) (by decide))))
                                  (p₂ hC2)) (p₃ hC3)) (p₄ hC4)) (p₅ hC5)) hord)
                              (limitParts_qInv lim)) (offsetParts_qInv off)
                            have chain₂ := phInvList_append
                              (phInvList_append chain (topLimitParts_qInv tc)) p₈
                            apply phInv_cast (phInv_join " " chain₂ (by decide))
                            have hlen : (if obSql = "" then (myLitsTopExpr tc).length else 0) =
                                (if truthyList ob = true then [] else myLitsTopExpr tc).length := by
                              rw [← hifeq]
                              split <;> simp
                            rw [hlen]
                            simp [myLitsSelect, List.length_append]
                            omega

end

theorem mariadbVisitSetList_inv (sets : List (String × Expr)) : ∀ st ss st',
    mariadbVisitSetList sets st = .ok (ss, st') →
    st' = st ++ myLitsSetList sets ∧
    (cleanSetList '?' sets = true → qInvList ss (myLitsSetList sets).length) := by
  induction sets with
  | nil =>
      intro st ss st' h
      simp only [mariadbVisitSetList, Except.ok.injEq, Prod.mk.injEq] at h
      obtain ⟨hs, hst⟩ := h
      refine ⟨by simp [myLitsSetList, hst.symm], fun _ => ?_⟩
      rw [← hs]
      simpa [myLitsSetList] using phInvList_nil '?' none
  | cons p rest ih =>
      obtain ⟨col, e⟩ := p
      intro st ss st' h
      simp only [mariadbVisitSetList] at h
      split at h
      · cases h
      · rename_i s₁ st₁ h₁
        split at h
        · cases h
        · rename_i ss₂ st₂ h₂
          cases h
          obtain ⟨e₁, p₁⟩ := mariadbVisitExpr_inv e st s₁ st₁ h₁
          obtain ⟨e₂, p₂⟩ := ih st₁ ss₂ st' h₂
          refine ⟨by simp [myLitsSetList, e₁, e₂, List.append_assoc], fun hcl => ?_⟩
          simp only [cleanSetList, Bool.and_eq_true] at hcl
          obtain ⟨⟨h1, h2⟩, h3⟩ := hcl
          simpa [myLitsSetList, List.length_append, String.append_assoc] using
            phInvList_cons (phInv_append (phInv_of_strClean none h1)
              (phInv_append (qT " = " (by decide)) (p₁ h2))) (p₂ h3)

theorem mariadbVisitRows_inv (expected : Nat) (rows : List (List Expr)) : ∀ st ss st',
    mariadbVisitRows expected rows st = .ok (ss, st') →
    st' = st ++ myLitsRowList rows ∧
    (cleanRowList '?' rows = true → qInvList ss (myLitsRowList rows).length) := by
  induction rows with
  | nil =>
      intro st ss st' h
      simp only [mariadbVisitRows, Except.ok.injEq, Prod.mk.injEq] at h
      obtain ⟨hs, hst⟩ := h
      refine ⟨by simp [myLitsRowList, hst.symm], fun _ => ?_⟩
      rw [← hs]
      simpa [myLitsRowList] using phInvList_nil '?' none
  | cons row rest ih =>
      intro st ss st' h
      simp only [mariadbVisitRows] at h
      split at h
      · cases h
      · split at h
        · cases h
        · rename_i ss₁ st₁ h₁
          split at h
          · cases h
          · rename_i rs st₂ h₂
            cases h
            obtain ⟨e₁, p₁⟩ := mariadbVisitExprList_inv row st ss₁ st₁ h₁
            obtain ⟨e₂, p₂⟩ := ih st₁ rs st' h₂
            refine ⟨by simp [myLitsRowList, e₁, e₂, List.append_assoc], fun hcl => ?_⟩
            simp only [cleanRowList, Bool.and_eq_true] at hcl
            simpa [myLitsRowList, List.length_append, String.append_assoc] using
              phInvList_cons (phInv_append (qT "(" (by decide)) (phInv_append
                (phInv_join ", " (p₁ hcl.1) (by decide)) (qT ")" (by decide))))
                (p₂ hcl.2)

theorem mariadbCompileInsertValues_inv (values : Option (List Expr))
    (columns : Option (List ColumnRef)) (rows : Option (List (List Expr))) :
    ∀ st s st', mariadbCompileInsertValues values columns rows st = .ok (s, st') →
    st' = st ++ myLitsInsertSource values rows ∧
    (cleanExprListOpt '?' values = true → cleanRowListOpt '?' rows = true →
      qInv s (myLitsInsertSource values rows).length) := by
  match values, rows with
  | some vs, some rs =>
      intro st s st' h
      simp [mariadbCompileInsertValues] at h
  | none, none =>
      intro st s st' h
      simp [mariadbCompileInsertValues] at h
  | some vs, none =>
      intro st s st' h
      simp only [mariadbCompileInsertValues] at h
      split at h
      · cases h
      · split at h
        · cases h
        · rename_i ss st₁ h₁
          cases h
          obtain ⟨e₁, p₁⟩ := mariadbVisitExprList_inv vs st ss st' h₁
          refine ⟨by simp [myLitsInsertSource, e₁], fun hv _ => ?_⟩
          simp only [cleanExprListOpt] at hv
          have := phInv_append (qT "VALUES (" (by decide)) (phInv_append
            (phInv_join ", " (p₁ hv) (by decide)) (qT ")" (by decide)))
          simpa [myLitsInsertSource, String.append_assoc] using this
  | none, some [] =>
      intro st s st' h
      simp [mariadbCompileInsertValues] at h
  | none, some (row₀ :: rest) =>
      intro st s st' h
      simp only [mariadbCompileInsertValues] at h
      split at h
      · cases h
      · split at h
        · cases h
        · split at h
          · cases h
          · rename_i rowSql st₁ h₁
            cases h
            obtain ⟨e₁, p₁⟩ :=
              mariadbVisitRows_inv row₀.length (row₀ :: rest) st rowSql st' h₁
            refine ⟨by simp [myLitsInsertSource, e₁], fun _ hr => ?_⟩
            simp only [cleanRowListOpt] at hr
            have := phInv_append (qT "VALUES " (by decide))
              (phInv_join ", " (p₁ hr) (by decide))
            simpa [myLitsInsertSource, String.append_assoc] using this

theorem mariadbCompileUpsertClause_qInv {clause : Upsert} {s : String}
    (hu : upsertClean '?' clause = true)
    (h : mariadbCompileUpsertClause clause = .ok s) : qInv s 0 := by
  unfold mariadbCompileUpsertClause at h
  split at h
  · cases h
  · split at h
    · cases h
    · split at h
      · cases h
      · cases h
        have hall : ∀ p ∈ (clause.update_columns.getD []).map
            (fun col => col ++ " = VALUES(" ++ col ++ ")"), countChar '?' p = 0 := by
          intro p hp
          rcases List.mem_map.mp hp with ⟨col, hc, rfl⟩
          have hcol : strClean '?' col = true := by
            cases hcols : clause.update_columns with
            | none =>
                rw [hcols] at hc
                simp at hc
            | some cs =>
                rw [hcols] at hc
                simp only [upsertClean, hcols, List.all_eq_true] at hu
                exact hu col (by simpa using hc)
          have h0 := strClean_count hcol
          have h2 : countChar '?' " = VALUES(" = 0 := by decide
          have h3 : countChar '?' ")" = 0 := by decide
          simp [countChar_append, h0, h2, h3]
        have := phInv_append (qT "ON DUPLICATE KEY UPDATE " (by decide))
          (phInv_join ", " (phInvList_zero '?' none _ hall) (by decide))
        simpa using this

theorem mariadbUpsSuffix_qInv {u : Option Upsert}
    (hu : (match u with | none => true | some clause => upsertClean '?' clause) = true)
    {s : String} (h : mariadbUpsSuffix u = .ok s) : qInv s 0 := by
  cases u with
  | none =>
      simp only [mariadbUpsSuffix, Except.ok.injEq] at h
      rw [← h]
      exact qT "" (by decide)
  | some clause =>
      simp only [mariadbUpsSuffix] at h
      split at h
      · cases h
      · rename_i s₁ h₁
        cases h
        have := phInv_append (qT " " (by decide))
          (mariadbCompileUpsertClause_qInv hu h₁)
        simpa using this

theorem mariadbCompileReturningClause_inv (exprs : List Expr) : ∀ st s st',
    mariadbCompileReturningClause exprs st = .ok (s, st') →
    st' = st ++ myLitsExprList exprs ∧
    (cleanExprList '?' exprs = true → qInv s (myLitsExprList exprs).length) := by
  intro st s st' h
  simp only [mariadbCompileReturningClause] at h
  split at h
  · cases h
  · split at h
    · cases h
    · rename_i ss st₁ h₁
      cases h
      obtain ⟨e₁, p₁⟩ := mariadbVisitExprList_inv exprs st ss st' h₁
      refine ⟨e₁, fun hcl => ?_⟩
      have := phInv_append (qT "RETURNING " (by decide))
        (phInv_join ", " (p₁ hcl) (by decide))
      simpa [String.append_assoc] using this

theorem mariadbReturningSection_inv (o : Option (List Expr)) : ∀ st l st',
    mariadbReturningSection o st = .ok (l, st') →
    st' = st ++ myLitsReturningOpt o ∧
    (cleanExprListOpt '?' o = true → qInvList l (myLitsReturningOpt o).length) := by
  cases o with
  | none =>
      intro st l st' h
      simp only [mariadbReturningSection, Except.ok.injEq, Prod.mk.injEq] at h
      obtain ⟨hs, hst⟩ := h
      refine ⟨by simp [myLitsReturningOpt, hst.symm], fun _ => ?_⟩
      rw [← hs]
      simpa [myLitsReturningOpt] using phInvList_nil '?' none
  | some exprs =>
      intro st l st' h
      simp only [mariadbReturningSection] at h
      split at h
      · cases h
      · rename_i rs st₁ h₁
        cases h
        obtain ⟨e₁, p₁⟩ := mariadbCompileReturningClause_inv exprs st rs st' h₁
        refine ⟨by simpa [myLitsReturningOpt] using e₁, fun hcl => ?_⟩
        simp only [cleanExprListOpt] at hcl
        simpa [myLitsReturningOpt] using phInvList_single (p₁ hcl)

theorem mariadbVisitStmt_inv (node : Stmt) : ∀ st s st',
    mariadbVisitStmt node st = .ok (s, st') →
    st' = st ++ mariadbLitsStmt node ∧
    (cleanStmt '?' node = true → qInv s (mariadbLitsStmt node).length) := by
  cases node with
  | selectStatementNode n =>
      intro st s st' h
      have h' : mariadbVisitSelect n st = .ok (s, st') := h
      obtain ⟨e₁, p₁⟩ := mariadbVisitSelect_inv n st s st' h'
      exact ⟨e₁, fun hcl => by
        simp only [cleanStmt] at hcl
        simpa [mariadbLitsStmt] using p₁ hcl⟩
  | deleteStatementNode table wc ret =>
      intro st s st' h
      simp only [mariadbVisitStmt] at h
      split at h
      · cases h
      · rename_i whereL st₁ h₁
        split at h
        · cases h
        · rename_i retL st₂ h₂
          cases h
          obtain ⟨e₁, p₁⟩ := mariadbWhereSection_inv wc st whereL st₁ h₁
          obtain ⟨e₂, p₂⟩ := mariadbReturningSection_inv ret st₁ retL st' h₂
          refine ⟨by simp [mariadbLitsStmt, e₁, e₂, List.append_assoc], fun hcl => ?_⟩
          simp only [cleanStmt, Bool.and_eq_true] at hcl
          obtain ⟨⟨h1, h2⟩, h3⟩ := hcl
          have := phInv_join " " (phInvList_append (phInvList_append
            (phInvList_append
              (phInvList_single (qT "DELETE FROM" (by decide)))
              (phInvList_single
                (mariadbVisitTableNode_inv '?' none (by decide) (by decide) h1)))
            (p₁ h2)) (p₂ h3)) (by decide)
          simpa [mariadbLitsStmt, List.length_append] using this
  | insertStatementNode table values columns rows ups ret =>
      intro st s st' h
      simp only [mariadbVisitStmt] at h
      split at h
      · cases h
      · rename_i valuesSql st₁ h₁
        split at h
        · cases h
        · rename_i upsSuffix h₂
          split at h
          · cases h
          · rename_i retL st₂ h₃
            cases h
            obtain ⟨e₁, p₁⟩ :=
              mariadbCompileInsertValues_inv values columns rows st valuesSql st₁ h₁
            obtain ⟨e₃, p₃⟩ := mariadbReturningSection_inv ret st₁ retL st' h₃
            refine ⟨by simp [mariadbLitsStmt, e₁, e₃, List.append_assoc],
              fun hcl => ?_⟩
            simp only [cleanStmt, Bool.and_eq_true] at hcl
            obtain ⟨⟨⟨⟨⟨h1, h2⟩, h3⟩, h4⟩, h5⟩, h6⟩ := hcl
            have hups : qInv upsSuffix 0 := mariadbUpsSuffix_qInv h5 h₂
            have hbig := phInv_append (qT "INSERT INTO " (by decide)) (phInv_append
              (mariadbVisitTableNode_inv '?' none (by decide) (by decide) h1)
              (phInv_append (colsSuffix_qInv columns h3)
                (phInv_append (qT " " (by decide))
                  (phInv_append (p₁ h2 h4) hups))))
            have := phInv_join " "
              (phInvList_append (phInvList_single hbig) (p₃ h6)) (by decide)
            simpa [mariadbLitsStmt, List.length_append, String.append_assoc]
              using this
  | updateStatementNode table sets wc ret =>
      intro st s st' h
      simp only [mariadbVisitStmt] at h
      split at h
      · cases h
      · rename_i ss st₁ h₁
        split at h
        · cases h
        · rename_i whereL st₂ h₂
          split at h
          · cases h
          · cases h
            obtain ⟨e₁, p₁⟩ := mariadbVisitSetList_inv sets st ss st₁ h₁
            obtain ⟨e₂, p₂⟩ := mariadbWhereSection_inv wc st₁ whereL st' h₂
            refine ⟨by simp [mariadbLitsStmt, e₁, e₂, List.append_assoc],
              fun hcl => ?_⟩
            simp only [cleanStmt, Bool.and_eq_true] at hcl
            obtain ⟨⟨⟨h1, h2⟩, h3⟩, _⟩ := hcl
            have := phInv_join " " (phInvList_append (phInvList_single
              (phInv_append (qT "UPDATE " (by decide)) (phInv_append
                (mariadbVisitTableNode_inv '?' none (by decide) (by decide) h1)
                (phInv_append (qT " SET " (by decide))
                  (phInv_join ", " (p₁ h2) (by decide)))))) (p₂ h3)) (by decide)
            simpa [mariadbLitsStmt, List.length_append, String.append_assoc]
              using this
  | unionNode l r all =>
      intro st s st' h
      simp only [mariadbVisitStmt] at h
      split at h
      · cases h
      · rename_i ls st₁ h₁
        split at h
        · cases h
        · rename_i rs st₂ h₂
          cases h
          obtain ⟨e₁, p₁⟩ := mariadbVisitStmt_inv l st ls st₁ h₁
          obtain ⟨e₂, p₂⟩ := mariadbVisitStmt_inv r st₁ rs st' h₂
          refine ⟨by simp [mariadbLitsStmt, e₁, e₂, List.append_assoc],
            fun hcl => ?_⟩
          simp only [cleanStmt, Bool.and_eq_true] at hcl
          have hop : qInv (if all = true then "UNION ALL" else "UNION") 0 := by
            split <;> exact qT _ (by decide)
          have := phInv_append (p₁ hcl.1) (phInv_append (qT " " (by decide))
            (phInv_append hop (phInv_append (qT " " (by decide)) (p₂ hcl.2))))
          simpa [mariadbLitsStmt, List.length_append, String.append_assoc]
            using this
  | intersectNode l r all =>
      intro st s st' h
      simp only [mariadbVisitStmt] at h
      split at h
      · cases h
      · rename_i ls st₁ h₁
        split at h
        · cases h
        · rename_i rs st₂ h₂
          cases h
          obtain ⟨e₁, p₁⟩ := mariadbVisitStmt_inv l st ls st₁ h₁
          obtain ⟨e₂, p₂⟩ := mariadbVisitStmt_inv r st₁ rs st' h₂
          refine ⟨by simp [mariadbLitsStmt, e₁, e₂, List.append_assoc],
            fun hcl => ?_⟩
          simp only [cleanStmt, Bool.and_eq_true] at hcl
          have hop : qInv (if all = true then "INTERSECT ALL" else "INTERSECT") 0 := by
            split <;> exact qT _ (by decide)
          have := phInv_append (p₁ hcl.1) (phInv_append (qT " " (by decide))
            (phInv_append hop (phInv_append (qT " " (by decide)) (p₂ hcl.2))))
          simpa [mariadbLitsStmt, List.length_append, String.append_assoc]
            using this
  | exceptNode l r all =>
      intro st s st' h
      simp only [mariadbVisitStmt] at h
      split at h
      · cases h
      · rename_i ls st₁ h₁
        split at h
        · cases h
        · rename_i rs st₂ h₂
          cases h
          obtain ⟨e₁, p₁⟩ := mariadbVisitStmt_inv l st ls st₁ h₁
          obtain ⟨e₂, p₂⟩ := mariadbVisitStmt_inv r st₁ rs st' h₂
          refine ⟨by simp [mariadbLitsStmt, e₁, e₂, List.append_assoc],
            fun hcl => ?_⟩
          simp only [cleanStmt, Bool.and_eq_true] at hcl
          have hop : qInv (if all = true then "EXCEPT ALL" else "EXCEPT") 0 := by
            split <;> exact qT _ (by decide)
          have := phInv_append (p₁ hcl.1) (phInv_append (qT " " (by decide))
            (phInv_append hop (phInv_append (qT " " (by decide)) (p₂ hcl.2))))
          simpa [mariadbLitsStmt, List.length_append, String.append_assoc]
            using this

/-! ## Claims -/

/-- C1 (amended).  For every AST and every dialect compiler, a successful
compile returns `params` equal to the visit-order literal list — each
visited literal is appended exactly once, in order, and never inlined —
and, provided no identifier/text field of the AST contains the dialect
marker character, the returned `sql` contains exactly `params.length`
placeholder occurrences (`%s` for Postgres and MySQL, `?` for MariaDB), so
the i-th placeholder corresponds to `params[i]`.  The cleanliness proviso
is the correction: an AST whose column name is the literal text `"%s"`
defeats the original unconditional claim (see the counterexample). -/
theorem claim_C1 (node : Stmt) :
    (∀ q, pgCompile node = .ok q → q.params = pgLitsStmt node ∧
      (cleanStmt '%' node = true → psInv q.sql q.params.length)) ∧
    (∀ q, mysqlCompile node = .ok q → q.params = mysqlLitsStmt node ∧
      (cleanStmt '%' node = true → psInv q.sql q.params.length)) ∧
    (∀ q, mariadbCompile node = .ok q → q.params = mariadbLitsStmt node ∧
      (cleanStmt '?' node = true → qInv q.sql q.params.length)) := by
  refine ⟨?_, ?_, ?_⟩
  · intro q hq
    simp only [pgCompile] at hq
    split at hq
    · cases hq
    · rename_i s ps heq
      cases hq
      obtain ⟨e₁, p₁⟩ := pgVisitStmt_inv node [] s ps heq
      have e₂ : ps = pgLitsStmt node := by simpa using e₁
      refine ⟨e₂, fun hcl => ?_⟩
      show psInv s ps.length
      rw [e₂]
      exact p₁ hcl
  · intro q hq
    simp only [mysqlCompile] at hq
    split at hq
    · cases hq
    · rename_i s ps heq
      cases hq
      obtain ⟨e₁, p₁⟩ := mysqlVisitStmt_inv node [] s ps heq
      have e₂ : ps = mysqlLitsStmt node := by simpa using e₁
      refine ⟨e₂, fun hcl => ?_⟩
      show psInv s ps.length
      rw [e₂]
      exact p₁ hcl
  · intro q hq
    simp only [mariadbCompile] at hq
    split at hq
    · cases hq
    · rename_i s ps heq
      cases hq
      obtain ⟨e₁, p₁⟩ := mariadbVisitStmt_inv node [] s ps heq
      have e₂ : ps = mariadbLitsStmt node := by simpa using e₁
      refine ⟨e₂, fun hcl => ?_⟩
      show qInv s ps.length
      rw [e₂]
      exact p₁ hcl

theorem claim_C1_witness :
    ([Value.int 25] : List Value) = pgLitsStmt
      (.selectStatementNode (.mk [.columnNode "name" none] false none
        (some (.tableNode ⟨"users", none, none⟩))
        (some (.whereClauseNode (.binaryOperationNode (.columnNode "age" none) ">"
          (.literalNode (.int 25))))) none none none none none none none)) ∧
    psInv "SELECT name FROM users WHERE (age > %s)"
      ([Value.int 25] : List Value).length :=
  ⟨((claim_C1 (.selectStatementNode (.mk [.columnNode "name" none] false none
      (some (.tableNode ⟨"users", none, none⟩))
      (some (.whereClauseNode (.binaryOperationNode (.columnNode "age" none) ">"
        (.literalNode (.int 25))))) none none none none none none none))).1
      ⟨"SELECT name FROM users WHERE (age > %s)", [.int 25]⟩ rfl).1,
   ((claim_C1 (.selectStatementNode (.mk [.columnNode "name" none] false none
      (some (.tableNode ⟨"users", none, none⟩))
      (some (.whereClauseNode (.binaryOperationNode (.columnNode "age" none) ">"
        (.literalNode (.int 25))))) none none none none none none none))).1
      ⟨"SELECT name FROM users WHERE (age > %s)", [.int 25]⟩ rfl).2 (by decide)⟩

/-- C1, counterexample to the original unconditional statement: a column
whose name is the literal text `"%s"` is rendered into `sql` verbatim, so
the compiled query contains a placeholder occurrence with no
corresponding `params` entry — the placeholder/params correspondence
fails without the cleanliness proviso. -/
theorem claim_C1_counterexample :
    ∃ (node : Stmt) (q : CompiledQuery),
      pgCompile node = .ok q ∧ countChar '%' q.sql ≠ q.params.length := by
  refine ⟨.selectStatementNode (.mk [.columnNode "%s" none] false none
    (some (.tableNode ⟨"users", none, none⟩))
    none none none none none none none none),
    ⟨"SELECT %s FROM users", []⟩, rfl, by decide⟩

/-- C4.  An AST that carries both a `top_clause` and a `limit` or an
`offset` is rejected with an error by all three dialect compilers; no
compiled query is produced. -/
theorem claim_C4 (n : Select) (hTop : n.top_clause.isSome = true)
    (hLim : n.limit.isSome = true ∨ n.offset.isSome = true) :
    (∃ e, pgCompile (.selectStatementNode n) = .error e) ∧
    (∃ e, mysqlCompile (.selectStatementNode n) = .error e) ∧
    (∃ e, mariadbCompile (.selectStatementNode n) = .error e) := by
  cases n with
  | mk sl dist ctes ft wc gb hc ob tc lim off lk =>
      simp only [Select.top_clause] at hTop
      have hb : (tc.isSome && (lim.isSome || off.isSome)) = true := by
        rcases hLim with h | h <;>
          simp only [Select.limit, Select.offset] at h <;> simp [hTop, h]
      refine ⟨⟨.valueError "TOP clause is mutually exclusive with LIMIT and OFFSET.", ?_⟩,
        ⟨.valueError "TOP clause is mutually exclusive with LIMIT and OFFSET.", ?_⟩,
        ⟨.valueError "TOP clause is mutually exclusive with LIMIT and OFFSET.", ?_⟩⟩
      · simp [pgCompile, pgVisitStmt, pgVisitSelect, hb]
      · simp [mysqlCompile, mysqlVisitStmt, mysqlVisitSelect, hb]
      · simp [mariadbCompile, mariadbVisitStmt, mariadbVisitSelect, hb]

theorem claim_C4_witness :
    (∃ e, pgCompile (.selectStatementNode (.mk [.starNode] false none none none
      none none none (some (.topClauseNode 10 none "ASC")) (some 5) none none)) =
      .error e) ∧
    (∃ e, mysqlCompile (.selectStatementNode (.mk [.starNode] false none none none
      none none none (some (.topClauseNode 10 none "ASC")) (some 5) none none)) =
      .error e) ∧
    (∃ e, mariadbCompile (.selectStatementNode (.mk [.starNode] false none none none
      none none none (some (.topClauseNode 10 none "ASC")) (some 5) none none)) =
      .error e) :=
  claim_C4 (.mk [.starNode] false none none none none none none
    (some (.topClauseNode 10 none "ASC")) (some 5) none none) rfl (Or.inl rfl)

/-- C6 (code bug).  The claim — an Insert providing both `values` and
`rows` is rejected on every dialect — matches the repo intent (the
MariaDB compiler rejects it, and `test_batch_insert_compilers.py` expects
`PostgresCompiler`/`MySqlCompiler` to raise on it too), but the shipped
Postgres and MySQL compilers never look at `rows`: the same
both-`values`-and-`rows` Insert compiles successfully on Postgres and
MySQL while MariaDB rejects it. -/
theorem claim_C6 :
    ∃ (table : Table) (values : List Expr) (rows : List (List Expr))
      (q : CompiledQuery),
      pgCompile (.insertStatementNode table (some values) none (some rows)
        none none) = .ok q ∧
      mysqlCompile (.insertStatementNode table (some values) none (some rows)
        none none) = .ok q ∧
      ∃ e, mariadbCompile (.insertStatementNode table (some values) none
        (some rows) none none) = .error e :=
  ⟨⟨"users", none, none⟩, [.literalNode (.int 1)], [[.literalNode (.int 2)]],
    ⟨"INSERT INTO users VALUES (%s)", [.int 1]⟩, rfl, rfl,
    ⟨.valueError "Insert must provide exactly one of values or rows.", rfl⟩⟩

/-- C8.  Compiling the AST of `SELECT name FROM users WHERE age > 25`
yields exactly `SELECT name FROM users WHERE (age > %s)` with
`params = [25]` on Postgres, and the same structure with `?` on the
(spec-modelled) SQLite compiler. -/
theorem claim_C8 :
    pgCompile (.selectStatementNode (.mk [.columnNode "name" none] false none
      (some (.tableNode ⟨"users", none, none⟩))
      (some (.whereClauseNode (.binaryOperationNode (.columnNode "age" none) ">"
        (.literalNode (.int 25))))) none none none none none none none)) =
      .ok ⟨"SELECT name FROM users WHERE (age > %s)", [.int 25]⟩ ∧
    sqliteCompile (.selectStatementNode (.mk [.columnNode "name" none] false none
      (some (.tableNode ⟨"users", none, none⟩))
      (some (.whereClauseNode (.binaryOperationNode (.columnNode "age" none) ">"
        (.literalNode (.int 25))))) none none none none none none none)) =
      .ok ⟨"SELECT name FROM users WHERE (age > ?)", [.int 25]⟩ :=
  ⟨rfl, rfl⟩

/-- C10.  `execute_many` with an empty sequence of parameter sets returns
`None` immediately: the state is unchanged and the effect trace is empty —
no connection is sourced, no SQL runs, no observability event is emitted —
for every executor state, including a closed one, because the empty-input
check precedes the closed-state check. -/
theorem claim_C10 (env : SqliteEnv) (s : SqliteExecutorState) (sql : String) :
    SqliteExecutorExecuteMany env s sql [] = (.ok (), s, []) := rfl

/-! Trigger-row condition bridges between the source cascade of
`normalize_execution_error` and the spec trigger table. -/

theorem sqlstateIn_one (st : Option String) (a : String) :
    sqlstateIn st [a] = true ↔ st = some a := by
  cases st with
  | none => simp [sqlstateIn]
  | some s => simp [sqlstateIn, List.contains, List.elem_iff]

theorem sqlstateIn_pair (st : Option String) (a b : String) :
    sqlstateIn st [a, b] = true ↔ st = some a ∨ st = some b := by
  cases st with
  | none => simp [sqlstateIn]
  | some s => simp [sqlstateIn, List.contains, List.elem_iff]

theorem sqlstateIn_three (st : Option String) (a b c : String) :
    sqlstateIn st [a, b, c] = true ↔
    st = some a ∨ st = some b ∨ st = some c := by
  cases st with
  | none => simp [sqlstateIn]
  | some s => simp [sqlstateIn, List.contains, List.elem_iff]

theorem msgHasAny_iff (m : String) (ps : List String) :
    msgHasAny m ps = true ↔ ∃ p ∈ ps, strContains m p = true := by
  simp [msgHasAny, List.any_eq_true]

theorem sqlstateClass_match (st : Option String) (c : String) :
    (match st with | some s => s.take 2 == c | none => false) =
    sqlstateClass st c := by
  cases st <;> rfl

/-- C2.  `normalize_execution_error` is total and classifies every
exception into exactly one kind, and that kind is precisely the one the
spec trigger table (section 4.4) assigns to the extracted SQLSTATE and the
lower-cased message; exactly the four kinds Deadlock, Serialization,
LockTimeout and ConnectionTimeout are the transient
(`TransientExecutionError`) subclasses. -/
theorem claim_C2 (dialect operation : String) (exc : PyException) :
    (normalize_execution_error dialect operation exc).kind =
      specTriggerKind (extract_sqlstate exc) exc.message.toLower ∧
    (∀ k : ErrorKind, k.isTransientKind = true ↔
      k ∈ [ErrorKind.deadlockError, ErrorKind.serializationError,
        ErrorKind.lockTimeoutError, ErrorKind.connectionTimeoutError]) := by
  constructor
  · simp only [normalize_execution_error, specTriggerKind]
    have i1 : (sqlstateIn (extract_sqlstate exc) ["40P01", "1213"] ||
        msgHasAny exc.message.toLower ["deadlock"]) = true ↔
        (extract_sqlstate exc = some "40P01" ∨
          extract_sqlstate exc = some "1213" ∨
          strContains exc.message.toLower "deadlock" = true) := by
      rw [Bool.or_eq_true, sqlstateIn_pair, msgHasAny_iff]
      simp [or_assoc]
    have i2 : (sqlstateIn (extract_sqlstate exc) ["40001"] ||
        msgHasAny exc.message.toLower
          ["serialization failure", "could not serialize"]) = true ↔
        (extract_sqlstate exc = some "40001" ∨
          strContains exc.message.toLower "serialization failure" = true ∨
          strContains exc.message.toLower "could not serialize" = true) := by
      rw [Bool.or_eq_true, sqlstateIn_one, msgHasAny_iff]
      simp [or_assoc]
    have i3 : (sqlstateIn (extract_sqlstate exc) ["55P03", "57014", "1205"] ||
        msgHasAny exc.message.toLower
          ["lock wait timeout", "database is locked", "lock timeout"]) = true ↔
        (extract_sqlstate exc = some "55P03" ∨
          extract_sqlstate exc = some "57014" ∨
          extract_sqlstate exc = some "1205" ∨
          strContains exc.message.toLower "lock wait timeout" = true ∨
          strContains exc.message.toLower "database is locked" = true ∨
          strContains exc.message.toLower "lock timeout" = true) := by
      rw [Bool.or_eq_true, sqlstateIn_three, msgHasAny_iff]
      simp [or_assoc]
    have i4 : msgHasAny exc.message.toLower ["connection timed out", "timed out",
        "login timeout", "could not connect", "connection refused"] = true ↔
        (strContains exc.message.toLower "connection timed out" = true ∨
          strContains exc.message.toLower "timed out" = true ∨
          strContains exc.message.toLower "login timeout" = true ∨
          strContains exc.message.toLower "could not connect" = true ∨
          strContains exc.message.toLower "connection refused" = true) := by
      rw [msgHasAny_iff]
      simp [or_assoc]
    have i5 : (sqlstateClass (extract_sqlstate exc) "23" ||
        msgHasAny exc.message.toLower
          ["unique constraint", "foreign key constraint", "duplicate key"]) = true ↔
        ((match extract_sqlstate exc with
            | some s => s.take 2 == "23" | none => false) = true ∨
          (strContains exc.message.toLower "unique constraint" = true ∨
            strContains exc.message.toLower "foreign key constraint" = true ∨
            strContains exc.message.toLower "duplicate key" = true)) := by
      rw [Bool.or_eq_true, msgHasAny_iff, sqlstateClass_match]
      simp [or_assoc]
    have i6 : (sqlstateClass (extract_sqlstate exc) "42" ||
        msgHasAny exc.message.toLower
          ["syntax error", "invalid identifier", "unknown column"]) = true ↔
        ((match extract_sqlstate exc with
            | some s => s.take 2 == "42" | none => false) = true ∨
          (strContains exc.message.toLower "syntax error" = true ∨
            strContains exc.message.toLower "invalid identifier" = true ∨
            strContains exc.message.toLower "unknown column" = true)) := by
      rw [Bool.or_eq_true, msgHasAny_iff, sqlstateClass_match]
      simp [or_assoc]
    by_cases h1 : extract_sqlstate exc = some "40P01" ∨
        extract_sqlstate exc = some "1213" ∨
        strContains exc.message.toLower "deadlock" = true
    · rw [if_pos h1, if_pos (i1.mpr h1)]
    · rw [if_neg h1, if_neg (fun hc => h1 (i1.mp hc))]
      by_cases h2 : extract_sqlstate exc = some "40001" ∨
          strContains exc.message.toLower "serialization failure" = true ∨
          strContains exc.message.toLower "could not serialize" = true
      · rw [if_pos h2, if_pos (i2.mpr h2)]
      · rw [if_neg h2, if_neg (fun hc => h2 (i2.mp hc))]
        by_cases h3 : extract_sqlstate exc = some "55P03" ∨
            extract_sqlstate exc = some "57014" ∨
            extract_sqlstate exc = some "1205" ∨
            strContains exc.message.toLower "lock wait timeout" = true ∨
            strContains exc.message.toLower "database is locked" = true ∨
            strContains exc.message.toLower "lock timeout" = true
        · rw [if_pos h3, if_pos (i3.mpr h3)]
        · rw [if_neg h3, if_neg (fun hc => h3 (i3.mp hc))]
          by_cases h4 : strContains exc.message.toLower "connection timed out" = true ∨
              strContains exc.message.toLower "timed out" = true ∨
              strContains exc.message.toLower "login timeout" = true ∨
              strContains exc.message.toLower "could not connect" = true ∨
              strContains exc.message.toLower "connection refused" = true
          · rw [if_pos h4, if_pos (i4.mpr h4)]
          · rw [if_neg h4, if_neg (fun hc => h4 (i4.mp hc))]
            by_cases h5 : (match extract_sqlstate exc with
                | some s => s.take 2 == "23" | none => false) = true
            · rw [if_pos h5, if_pos (i5.mpr (Or.inl h5))]
            · by_cases h6 : strContains exc.message.toLower "unique constraint" = true ∨
                  strContains exc.message.toLower "foreign key constraint" = true ∨
                  strContains exc.message.toLower "duplicate key" = true
              · rw [if_neg h5, if_pos h6, if_pos (i5.mpr (Or.inr h6))]
              · rw [if_neg h5, if_neg h6,
                  if_neg (fun hc => (i5.mp hc).elim h5 h6)]
                by_cases h7 : (match extract_sqlstate exc with
                    | some s => s.take 2 == "42" | none => false) = true
                · rw [if_pos h7, if_pos (i6.mpr (Or.inl h7))]
                · by_cases h8 : strContains exc.message.toLower "syntax error" = true ∨
                      strContains exc.message.toLower "invalid identifier" = true ∨
                      strContains exc.message.toLower "unknown column" = true
                  · rw [if_neg h7, if_pos h8, if_pos (i6.mpr (Or.inr h8))]
                  · rw [if_neg h7, if_neg h8,
                      if_neg (fun hc => (i6.mp hc).elim h7 h8)]
  · intro k
    cases k <;> simp [ErrorKind.isTransientKind]

/-! Retry-loop attempt accounting. -/

theorem normalizedExc_match (nf : PyException → ExecError) (e : ExcRaised) :
    (match e with
      | ExcRaised.execError x => x
      | ExcRaised.rawExc x => nf x) = normalizedExc nf e := by
  cases e <;> rfl

theorem validate_ok_min {p : RetryPolicy} (hv : p.validate = .ok ()) :
    1 ≤ p.max_attempts := by
  by_cases h : p.max_attempts < 1
  · unfold RetryPolicy.validate at hv
    rw [if_pos h] at hv
    cases hv
  · omega

theorem runWithRetryGo_allfail {α : Type} (op : Int → OpOutcome α)
    (nf : PyException → ExecError) (policy : RetryPolicy)
    (hall : ∀ a, 1 ≤ a → a ≤ policy.max_attempts →
      ∃ e, op a = .raise e ∧ (normalizedExc nf e).kind.isTransientKind = true) :
    ∀ fuel : Nat, ∀ attempt : Int, 1 ≤ attempt →
    attempt ≤ policy.max_attempts →
    policy.max_attempts - attempt ≤ (fuel : Int) →
    ((runWithRetryGo op nf policy fuel attempt).2.filter
        RetryEvent.isInvoke).length = (policy.max_attempts - attempt + 1).toNat ∧
    ∃ e, (runWithRetryGo op nf policy fuel attempt).1 =
      .giveup (normalizedExc nf e) policy.max_attempts := by
  intro fuel
  induction fuel with
  | zero =>
      intro attempt ha1 ha2 ha3
      have heq : attempt = policy.max_attempts := by omega
      obtain ⟨e, hop, _⟩ := hall attempt ha1 ha2
      have hred : runWithRetryGo op nf policy 0 attempt =
          (.giveup (normalizedExc nf e) attempt,
            [.invoke attempt, .onGiveup attempt]) := by
        simp only [runWithRetryGo, hop, normalizedExc_match]
        rw [if_pos (Or.inl (le_of_eq heq.symm))]
      rw [hred]
      refine ⟨?_, ⟨e, by rw [heq]⟩⟩
      rw [heq]
      have h1 : (policy.max_attempts - policy.max_attempts + 1).toNat = 1 := by omega
      rw [h1]
      simp [RetryEvent.isInvoke]
  | succ fuel ih =>
      intro attempt ha1 ha2 ha3
      obtain ⟨e, hop, htr⟩ := hall attempt ha1 ha2
      by_cases hge : policy.max_attempts ≤ attempt
      · have heq : attempt = policy.max_attempts := le_antisymm ha2 hge
        have hred : runWithRetryGo op nf policy (fuel + 1) attempt =
            (.giveup (normalizedExc nf e) attempt,
              [.invoke attempt, .onGiveup attempt]) := by
          simp only [runWithRetryGo, hop, normalizedExc_match]
          rw [if_pos (Or.inl hge)]
        rw [hred]
        refine ⟨?_, ⟨e, by rw [heq]⟩⟩
        rw [heq]
        have h1 : (policy.max_attempts - policy.max_attempts + 1).toNat = 1 := by omega
        rw [h1]
        simp [RetryEvent.isInvoke]
      · have hcond : ¬ (attempt ≥ policy.max_attempts ∨
            ¬ (normalizedExc nf e).kind.isTransientKind = true) := by
          rintro (h | h)
          · exact hge h
          · exact h htr
        obtain ⟨ihlen, e', ihres⟩ := ih (attempt + 1) (by omega) (by omega) (by omega)
        rcases hrec : runWithRetryGo op nf policy fuel (attempt + 1) with ⟨res, evs⟩
        have hred : runWithRetryGo op nf policy (fuel + 1) attempt =
            (res, [.invoke attempt,
              .onRetry attempt (compute_delay policy attempt)] ++
              (if compute_delay policy attempt > 0
                then [.sleepFn (compute_delay policy attempt)] else []) ++ evs) := by
          simp only [runWithRetryGo, hop, normalizedExc_match]
          rw [if_neg hcond]
          simp [hrec]
        rw [hred]
        rw [hrec] at ihlen ihres
        constructor
        · have hfil : List.filter RetryEvent.isInvoke
              [RetryEvent.invoke attempt, RetryEvent.onRetry attempt
                (compute_delay policy attempt)] = [RetryEvent.invoke attempt] := by
            simp [RetryEvent.isInvoke]
          have hsleep : List.filter RetryEvent.isInvoke
              (if compute_delay policy attempt > 0
                then [RetryEvent.sleepFn (compute_delay policy attempt)] else []) = [] := by
            split <;> simp [RetryEvent.isInvoke]
          have hlen2 : (evs.filter RetryEvent.isInvoke).length =
              (policy.max_attempts - (attempt + 1) + 1).toNat := by simpa using ihlen
          simp only [List.filter_append, hfil, hsleep, List.length_append,
            List.length_cons, List.length_nil, hlen2]
          omega
        · exact ⟨e', by simpa using ihres⟩

/-- C3.  Under a validated policy (`max_attempts >= 1`): when the first
invocation raises an error whose normalization is non-transient, the
operation is invoked exactly once and the loop gives up at attempt 1 with
that normalized error; when every in-budget invocation raises a transient
error, the operation is invoked exactly `max_attempts` times and the loop
gives up at attempt `max_attempts` with a normalized error. -/
theorem claim_C3 {α : Type} (op : Int → OpOutcome α)
    (nf : PyException → ExecError) (policy : RetryPolicy)
    (hv : policy.validate = .ok ()) :
    (∀ e, op 1 = .raise e →
      (normalizedExc nf e).kind.isTransientKind = false →
      ((run_with_retry op nf policy).2.filter RetryEvent.isInvoke).length = 1 ∧
      (run_with_retry op nf policy).1 = .giveup (normalizedExc nf e) 1) ∧
    ((∀ a, 1 ≤ a → a ≤ policy.max_attempts →
        ∃ e, op a = .raise e ∧ (normalizedExc nf e).kind.isTransientKind = true) →
      ((run_with_retry op nf policy).2.filter RetryEvent.isInvoke).length =
        policy.max_attempts.toNat ∧
      ∃ e, (run_with_retry op nf policy).1 =
        .giveup (normalizedExc nf e) policy.max_attempts) := by
  have hmin : 1 ≤ policy.max_attempts := validate_ok_min hv
  have hrw : run_with_retry op nf policy =
      runWithRetryGo op nf policy policy.max_attempts.toNat 1 := rfl
  constructor
  · intro e hop htr
    have hgen : ∀ fuel : Nat, runWithRetryGo op nf policy fuel 1 =
        (.giveup (normalizedExc nf e) 1, [.invoke 1, .onGiveup 1]) := by
      intro fuel
      cases fuel with
      | zero =>
          simp only [runWithRetryGo, hop, normalizedExc_match]
          rw [if_pos (Or.inr (by simp [htr]))]
      | succ fuel =>
          simp only [runWithRetryGo, hop, normalizedExc_match]
          rw [if_pos (Or.inr (by simp [htr]))]
    have hred : run_with_retry op nf policy =
        (.giveup (normalizedExc nf e) 1, [.invoke 1, .onGiveup 1]) := by
      rw [hrw, hgen]
    rw [hred]
    exact ⟨by simp [RetryEvent.isInvoke], rfl⟩
  · intro hall
    obtain ⟨hlen, e, hres⟩ := runWithRetryGo_allfail op nf policy hall
      policy.max_attempts.toNat 1 le_rfl hmin (by omega)
    refine ⟨?_, ⟨e, ?_⟩⟩
    · rw [hrw, hlen]
      omega
    · rw [hrw]
      exact hres

theorem claim_C3_witness :
    ((run_with_retry retryWitnessOp retryWitnessNf retryWitnessPolicy).2.filter
        RetryEvent.isInvoke).length = (3 : Int).toNat ∧
    ∃ e, (run_with_retry retryWitnessOp retryWitnessNf retryWitnessPolicy).1 =
      .giveup (normalizedExc retryWitnessNf e) retryWitnessPolicy.max_attempts :=
  (claim_C3 retryWitnessOp retryWitnessNf retryWitnessPolicy rfl).2
    (fun _ _ _ => ⟨.execError retryWitnessErr, rfl, rfl⟩)

/-- C9.  `close()` is idempotent — on a closed executor it returns
immediately with no effect.  The first close of an executor holding an
open transaction rolls that transaction back (the rollback is issued and
any driver rollback error is swallowed: close always completes), clears
and releases the transaction, and marks the executor closed.  After
close, every other operation — execute, fetch_all, fetch_one, begin,
commit, rollback and the savepoint operations — fails with the
`"Executor is closed."` error, leaves the state unchanged, and performs
no connection-acquiring or connection-touching effect. -/
theorem claim_C9 (env : SqliteEnv) (s : SqliteExecutorState) :
    (s.closed = true → SqliteExecutorClose env s = (s, [])) ∧
    (s.closed = false → ∀ conn, s.transaction_connection = some conn →
      (SqliteExecutorClose env s).1.closed = true ∧
      (SqliteExecutorClose env s).1.transaction_connection = none ∧
      ∃ t, (SqliteExecutorClose env s).2 = .connRollback conn :: t) ∧
    (s.closed = true →
      (∀ q, closedRefusal s (SqliteExecutorExecute env s q)) ∧
      (∀ q, closedRefusal s (SqliteExecutorFetchAll env s q)) ∧
      (∀ q, closedRefusal s (SqliteExecutorFetchOne env s q)) ∧
      (∀ iso, closedRefusal s (SqliteExecutorBegin env s iso)) ∧
      closedRefusal s (SqliteExecutorCommit env s) ∧
      closedRefusal s (SqliteExecutorRollback env s) ∧
      (∀ name, closedRefusal s (SqliteExecutorSavepoint s name)) ∧
      (∀ name, closedRefusal s (SqliteExecutorRollbackToSavepoint s name)) ∧
      (∀ name, closedRefusal s (SqliteExecutorReleaseSavepoint s name))) := by
  refine ⟨?_, ?_, ?_⟩
  · intro h
    unfold SqliteExecutorClose
    rw [if_pos h]
  · intro h conn htx
    unfold SqliteExecutorClose
    rw [if_neg (by simp [h])]
    simp only [htx, finalizeTransaction]
    exact ⟨trivial, trivial, _, rfl⟩
  · intro h
    refine ⟨?_, ?_, ?_, ?_, ?_, ?_, ?_, ?_, ?_⟩ <;>
      try intro x
    · simp [closedRefusal, SqliteExecutorExecute, observeQuery, executeObserved,
        getConnectionForQuery, emitEvent, h, List.filter_append,
        apply_ite (List.filter EEffect.isConnEffect), EEffect.isConnEffect]
    · simp [closedRefusal, SqliteExecutorFetchAll, observeQuery, fetchAllObserved,
        getConnectionForQuery, emitEvent, h, List.filter_append,
        apply_ite (List.filter EEffect.isConnEffect), EEffect.isConnEffect]
    · simp [closedRefusal, SqliteExecutorFetchOne, observeQuery, fetchOneObserved,
        getConnectionForQuery, emitEvent, h, List.filter_append,
        apply_ite (List.filter EEffect.isConnEffect), EEffect.isConnEffect]
    · simp [closedRefusal, SqliteExecutorBegin, ensureOpen, h]
    · simp [closedRefusal, SqliteExecutorCommit,
        requireActiveTransactionConnection, h]
    · simp [closedRefusal, SqliteExecutorRollback,
        requireActiveTransactionConnection, h]
    · simp [closedRefusal, SqliteExecutorSavepoint,
        requireActiveTransactionConnection, h]
    · simp [closedRefusal, SqliteExecutorRollbackToSavepoint,
        requireActiveTransactionConnection, h]
    · simp [closedRefusal, SqliteExecutorReleaseSavepoint,
        requireActiveTransactionConnection, h]

theorem claim_C9_witness :
    SqliteExecutorClose executorWitnessEnv executorClosedState =
      (executorClosedState, []) ∧
    ((SqliteExecutorClose executorWitnessEnv executorOpenTxState).1.closed = true ∧
      (SqliteExecutorClose executorWitnessEnv
        executorOpenTxState).1.transaction_connection = none ∧
      ∃ t, (SqliteExecutorClose executorWitnessEnv executorOpenTxState).2 =
        .connRollback 7 :: t) ∧
    closedRefusal executorClosedState
      (SqliteExecutorCommit executorWitnessEnv executorClosedState) :=
  ⟨(claim_C9 executorWitnessEnv executorClosedState).1 rfl,
   (claim_C9 executorWitnessEnv executorOpenTxState).2.1 rfl 7 rfl,
   ((claim_C9 executorWitnessEnv executorClosedState).2.2 rfl).2.2.2.2.1⟩

/-! Clause-presence facts about the SELECT section helpers. -/

theorem pgFromSection_ne {f : FromClause} {st : St} {l : List String} {st' : St}
    (h : pgFromSection (some f) st = .ok (l, st')) : l ≠ [] := by
  simp only [pgFromSection] at h
  split at h
  · cases h
  · cases h
    simp

theorem pgWhereSection_ne {w : Where} {st : St} {l : List String} {st' : St}
    (h : pgWhereSection (some w) st = .ok (l, st')) : l ≠ [] := by
  simp only [pgWhereSection] at h
  split at h
  · cases h
  · cases h
    simp

theorem pgGroupSection_ne {g : GroupByClause} {st : St} {l : List String} {st' : St}
    (h : pgGroupSection (some g) st = .ok (l, st')) : l ≠ [] := by
  simp only [pgGroupSection] at h
  split at h
  · cases h
  · cases h
    simp

theorem pgHavingSection_ne {hv : Having} {st : St} {l : List String} {st' : St}
    (h : pgHavingSection (some hv) st = .ok (l, st')) : l ≠ [] := by
  simp only [pgHavingSection] at h
  split at h
  · cases h
  · cases h
    simp

theorem pgTopOrderSection_preserve (tc : Option Top) {obSql : String}
    (hne : ¬ obSql = "") {st : St} {s' : String} {st' : St}
    (h : pgTopOrderSection tc obSql st = .ok (s', st')) : s' = obSql := by
  match tc, h with
  | none, h =>
      simp only [pgTopOrderSection, Except.ok.injEq, Prod.mk.injEq] at h
      exact h.1.symm
  | some (.topClauseNode cnt none dir), h =>
      simp only [pgTopOrderSection, Except.ok.injEq, Prod.mk.injEq] at h
      exact h.1.symm
  | some (.topClauseNode cnt (some e) dir), h =>
      simp only [pgTopOrderSection] at h
      rw [if_neg hne] at h
      simp only [Except.ok.injEq, Prod.mk.injEq] at h
      exact h.1.symm

theorem mysqlCteSection_ne {cl : List Cte} (hemp : cl.isEmpty = false)
    {st : St} {l : List String} {st' : St}
    (h : mysqlCteSection (some cl) st = .ok (l, st')) : l ≠ [] := by
  simp only [mysqlCteSection] at h
  rw [hemp, if_neg (by simp)] at h
  split at h
  · cases h
  · cases h
    simp

theorem mysqlFromSection_ne {f : FromClause} {st : St} {l : List String} {st' : St}
    (h : mysqlFromSection (some f) st = .ok (l, st')) : l ≠ [] := by
  simp only [mysqlFromSection] at h
  split at h
  · cases h
  · cases h
    simp

theorem mysqlWhereSection_ne {w : Where} {st : St} {l : List String} {st' : St}
    (h : mysqlWhereSection (some w) st = .ok (l, st')) : l ≠ [] := by
  simp only [mysqlWhereSection] at h
  split at h
  · cases h
  · cases h
    simp

theorem mysqlGroupSection_ne {g : GroupByClause} {st : St} {l : List String} {st' : St}
    (h : mysqlGroupSection (some g) st = .ok (l, st')) : l ≠ [] := by
  simp only [mysqlGroupSection] at h
  split at h
  · cases h
  · cases h
    simp

theorem mysqlHavingSection_ne {hv : Having} {st : St} {l : List String} {st' : St}
    (h : mysqlHavingSection (some hv) st = .ok (l, st')) : l ≠ [] := by
  simp only [mysqlHavingSection] at h
  split at h
  · cases h
  · cases h
    simp

theorem mysqlLockSection_ne {lk : Lock} {st : St} {l : List String} {st' : St}
    (h : mysqlLockSection (some lk) st = .ok (l, st')) : l ≠ [] := by
  simp only [mysqlLockSection] at h
  split at h
  · cases h
  · cases h
    simp

theorem mysqlTopOrderSection_preserve (tc : Option Top) {obSql : String}
    (hne : ¬ obSql = "") {st : St} {s' : String} {st' : St}
    (h : mysqlTopOrderSection tc obSql st = .ok (s', st')) : s' = obSql := by
  match tc, h with
  | none, h =>
      simp only [mysqlTopOrderSection, Except.ok.injEq, Prod.mk.injEq] at h
      exact h.1.symm
  | some (.topClauseNode cnt none dir), h =>
      simp only [mysqlTopOrderSection, Except.ok.injEq, Prod.mk.injEq] at h
      exact h.1.symm
  | some (.topClauseNode cnt (some e) dir), h =>
      simp only [mysqlTopOrderSection] at h
      rw [if_neg hne] at h
      simp only [Except.ok.injEq, Prod.mk.injEq] at h
      exact h.1.symm

theorem mariadbCteSection_ne {cl : List Cte} (hemp : cl.isEmpty = false)
    {st : St} {l : List String} {st' : St}
    (h : mariadbCteSection (some cl) st = .ok (l, st')) : l ≠ [] := by
  simp only [mariadbCteSection] at h
  rw [hemp, if_neg (by simp)] at h
  split at h
  · cases h
  · cases h
    simp

theorem mariadbFromSection_ne {f : FromClause} {st : St} {l : List String} {st' : St}
    (h : mariadbFromSection (some f) st = .ok (l, st')) : l ≠ [] := by
  simp only [mariadbFromSection] at h
  split at h
  · cases h
  · cases h
    simp

theorem mariadbWhereSection_ne {w : Where} {st : St} {l : List String} {st' : St}
    (h : mariadbWhereSection (some w) st = .ok (l, st')) : l ≠ [] := by
  simp only [mariadbWhereSection] at h
  split at h
  · cases h
  · cases h
    simp

theorem mariadbGroupSection_ne {g : GroupByClause} {st : St} {l : List String} {st' : St}
    (h : mariadbGroupSection (some g) st = .ok (l, st')) : l ≠ [] := by
  simp only [mariadbGroupSection] at h
  split at h
  · cases h
  · cases h
    simp

theorem mariadbHavingSection_ne {hv : Having} {st : St} {l : List String} {st' : St}
    (h : mariadbHavingSection (some hv) st = .ok (l, st')) : l ≠ [] := by
  simp only [mariadbHavingSection] at h
  split at h
  · cases h
  · cases h
    simp

theorem mariadbLockSection_ne {lk : Lock} {st : St} {l : List String} {st' : St}
    (h : mariadbLockSection (some lk) st = .ok (l, st')) : l ≠ [] := by
  simp only [mariadbLockSection] at h
  split at h
  · cases h
  · cases h
    simp

theorem mariadbTopOrderSection_preserve (tc : Option Top) {obSql : String}
    (hne : ¬ obSql = "") {st : St} {s' : String} {st' : St}
    (h : mariadbTopOrderSection tc obSql st = .ok (s', st')) : s' = obSql := by
  match tc, h with
  | none, h =>
      simp only [mariadbTopOrderSection, Except.ok.injEq, Prod.mk.injEq] at h
      exact h.1.symm
  | some (.topClauseNode cnt none dir), h =>
      simp only [mariadbTopOrderSection, Except.ok.injEq, Prod.mk.injEq] at h
      exact h.1.symm
  | some (.topClauseNode cnt (some e) dir), h =>
      simp only [mariadbTopOrderSection] at h
      rw [if_neg hne] at h
      simp only [Except.ok.injEq, Prod.mk.injEq] at h
      exact h.1.symm

/-- C5 (amended).  Every successful SELECT emission follows the strict
clause order WITH ctes, SELECT [DISTINCT] select list, FROM, WHERE,
GROUP BY, HAVING, ORDER BY, LIMIT/OFFSET, lock clause, with every
populated clause present at its slot — on MySQL and MariaDB for the full
chain, and on Postgres for the sub-chain it emits.  The correction: the
Postgres compiler ignores `ctes` and `lock_clause` entirely (its output
is unchanged when they are erased), so on Postgres a populated WITH or
lock clause is silently absent rather than emitted at its position. -/
theorem claim_C5 (n : Select) :
    (∀ s st', mysqlVisitSelect n [] = .ok (s, st') →
      ∃ cteL items fromL whereL groupL havL ordSql lockL,
        s = pyJoin " " (cteL ++ ["SELECT"] ++
          (if n.distinct = true then ["DISTINCT"] else []) ++
          [items] ++ fromL ++ whereL ++ groupL ++ havL ++
          (if ordSql ≠ "" then [ordSql] else []) ++
          limitParts n.limit ++ offsetParts n.offset ++
          topLimitParts n.top_clause ++ lockL) ∧
        (truthyList n.ctes = true → cteL ≠ []) ∧
        (n.from_table.isSome = true → fromL ≠ []) ∧
        (n.where_clause.isSome = true → whereL ≠ []) ∧
        (n.group_by.isSome = true → groupL ≠ []) ∧
        (n.having_clause.isSome = true → havL ≠ []) ∧
        (truthyList n.order_by_clause = true → ordSql ≠ "") ∧
        (n.lock_clause.isSome = true → lockL ≠ [])) ∧
    (∀ s st', mariadbVisitSelect n [] = .ok (s, st') →
      ∃ cteL items fromL whereL groupL havL ordSql lockL,
        s = pyJoin " " (cteL ++ ["SELECT"] ++
          (if n.distinct = true then ["DISTINCT"] else []) ++
          [items] ++ fromL ++ whereL ++ groupL ++ havL ++
          (if ordSql ≠ "" then [ordSql] else []) ++
          limitParts n.limit ++ offsetParts n.offset ++
          topLimitParts n.top_clause ++ lockL) ∧
        (truthyList n.ctes = true → cteL ≠ []) ∧
        (n.from_table.isSome = true → fromL ≠ []) ∧
        (n.where_clause.isSome = true → whereL ≠ []) ∧
        (n.group_by.isSome = true → groupL ≠ []) ∧
        (n.having_clause.isSome = true → havL ≠ []) ∧
        (truthyList n.order_by_clause = true → ordSql ≠ "") ∧
        (n.lock_clause.isSome = true → lockL ≠ [])) ∧
    (∀ s st', pgVisitSelect n [] = .ok (s, st') →
      ∃ items fromL whereL groupL havL ordSql,
        s = pyJoin " " (["SELECT"] ++
          (if n.distinct = true then ["DISTINCT"] else []) ++
          [items] ++ fromL ++ whereL ++ groupL ++ havL ++
          (if ordSql ≠ "" then [ordSql] else []) ++
          limitParts n.limit ++ offsetParts n.offset ++
          topLimitParts n.top_clause) ∧
        (n.from_table.isSome = true → fromL ≠ []) ∧
        (n.where_clause.isSome = true → whereL ≠ []) ∧
        (n.group_by.isSome = true → groupL ≠ []) ∧
        (n.having_clause.isSome = true → havL ≠ []) ∧
        (truthyList n.order_by_clause = true → ordSql ≠ "")) ∧
    (∀ st, pgVisitSelect n st = pgVisitSelect (.mk n.select_list n.distinct none
      n.from_table n.where_clause n.group_by n.having_clause n.order_by_clause
      n.top_clause n.limit n.offset none) st) := by
  cases n with
  | mk sl dist ctes ft wc gb hc ob tc lim off lk =>
      refine ⟨?_, ?_, ?_, fun st => rfl⟩
      · intro s st' h
        simp only [Select.ctes, Select.distinct, Select.from_table,
          Select.where_clause, Select.group_by, Select.having_clause,
          Select.order_by_clause, Select.top_clause, Select.limit,
          Select.offset, Select.lock_clause]
        simp only [mysqlVisitSelect] at h
        split at h
        · cases h
        · split at h
          · cases h
          · rename_i cteL st₀ hcte
            split at h
            · cases h
            · rename_i items st₁ hsl
              split at h
              · cases h
              · rename_i fromL st₂ hft
                split at h
                · cases h
                · rename_i whereL st₃ hwc
                  split at h
                  · cases h
                  · rename_i groupL st₄ hgb
                    split at h
                    · cases h
                    · rename_i havL st₅ hhc
                      split at h
                      · cases h
                      · rename_i obSql st₆ hob
                        split at h
                        · cases h
                        · rename_i obSql₂ st₇ htop
                          split at h
                          · cases h
                          · rename_i lockL st₈ hlk
                            cases h
                            obtain ⟨_, hiff, _⟩ :=
                              mysqlOrderBySection_inv ob st₅ obSql st₆ hob
                            refine ⟨cteL, pyJoin ", " items, fromL, whereL,
                              groupL, havL, obSql₂, lockL, rfl,
                              ?_, ?_, ?_, ?_, ?_, ?_, ?_⟩
                            · intro htr
                              cases ctes with
                              | none => simp [truthyList] at htr
                              | some cl =>
                                  exact mysqlCteSection_ne
                                    (by simpa [truthyList] using htr) hcte
                            · intro hsome
                              cases ft with
                              | none => simp at hsome
                              | some f => exact mysqlFromSection_ne hft
                            · intro hsome
                              cases wc with
                              | none => simp at hsome
                              | some w => exact mysqlWhereSection_ne hwc
                            · intro hsome
                              cases gb with
                              | none => simp at hsome
                              | some g => exact mysqlGroupSection_ne hgb
                            · intro hsome
                              cases hc with
                              | none => simp at hsome
                              | some hv => exact mysqlHavingSection_ne hhc
                            · intro htr
                              have hne : ¬ obSql = "" :=
                                fun he => absurd htr (by simp [hiff.mp he])
                              rw [mysqlTopOrderSection_preserve tc hne htop]
                              exact hne
                            · intro hsome
                              cases lk with
                              | none => simp at hsome
                              | some l => exact mysqlLockSection_ne hlk
      · intro s st' h
        simp only [Select.ctes, Select.distinct, Select.from_table,
          Select.where_clause, Select.group_by, Select.having_clause,
          Select.order_by_clause, Select.top_clause, Select.limit,
          Select.offset, Select.lock_clause]
        simp only [mariadbVisitSelect] at h
        split at h
        · cases h
        · split at h
          · cases h
          · rename_i cteL st₀ hcte
            split at h
            · cases h
            · rename_i items st₁ hsl
              split at h
              · cases h
              · rename_i fromL st₂ hft
                split at h
                · cases h
                · rename_i whereL st₃ hwc
                  split at h
                  · cases h
                  · rename_i groupL st₄ hgb
                    split at h
                    · cases h
                    · rename_i havL st₅ hhc
                      split at h
                      · cases h
                      · rename_i obSql st₆ hob
                        split at h
                        · cases h
                        · rename_i obSql₂ st₇ htop
                          split at h
                          · cases h
                          · rename_i lockL st₈ hlk
                            cases h
                            obtain ⟨_, hiff, _⟩ :=
                              mariadbOrderBySection_inv ob st₅ obSql st₆ hob
                            refine ⟨cteL, pyJoin ", " items, fromL, whereL,
                              groupL, havL, obSql₂, lockL, rfl,
                              ?_, ?_, ?_, ?_, ?_, ?_, ?_⟩
                            · intro htr
                              cases ctes with
                              | none => simp [truthyList] at htr
                              | some cl =>
                                  exact mariadbCteSection_ne
                                    (by simpa [truthyList] using htr) hcte
                            · intro hsome
                              cases ft with
                              | none => simp at hsome
                              | some f => exact mariadbFromSection_ne hft
                            · intro hsome
                              cases wc with
                              | none => simp at hsome
                              | some w => exact mariadbWhereSection_ne hwc
                            · intro hsome
                              cases gb with
                              | none => simp at hsome
                              | some g => exact mariadbGroupSection_ne hgb
                            · intro hsome
                              cases hc with
                              | none => simp at hsome
                              | some hv => exact mariadbHavingSection_ne hhc
                            · intro htr
                              have hne : ¬ obSql = "" :=
                                fun he => absurd htr (by simp [hiff.mp he])
                              rw [mariadbTopOrderSection_preserve tc hne htop]
                              exact hne
                            · intro hsome
                              cases lk with
                              | none => simp at hsome
                              | some l => exact mariadbLockSection_ne hlk
      · intro s st' h
        simp only [Select.distinct, Select.from_table, Select.where_clause,
          Select.group_by, Select.having_clause, Select.order_by_clause,
          Select.top_clause, Select.limit, Select.offset]
        simp only [pgVisitSelect] at h
        split at h
        · cases h
        · split at h
          · cases h
          · rename_i items st₁ hsl
            split at h
            · cases h
            · rename_i fromL st₂ hft
              split at h
              · cases h
              · rename_i whereL st₃ hwc
                split at h
                · cases h
                · rename_i groupL st₄ hgb
                  split at h
                  · cases h
                  · rename_i havL st₅ hhc
                    split at h
                    · cases h
                    · rename_i obSql st₆ hob
                      split at h
                      · cases h
                      · rename_i obSql₂ st₇ htop
                        cases h
                        obtain ⟨_, hiff, _⟩ :=
                          pgOrderBySection_inv ob st₅ obSql st₆ hob
                        refine ⟨pyJoin ", " items, fromL, whereL, groupL, havL,
                          obSql₂, rfl, ?_, ?_, ?_, ?_, ?_⟩
                        · intro hsome
                          cases ft with
                          | none => simp at hsome
                          | some f => exact pgFromSection_ne hft
                        · intro hsome
                          cases wc with
                          | none => simp at hsome
                          | some w => exact pgWhereSection_ne hwc
                        · intro hsome
                          cases gb with
                          | none => simp at hsome
                          | some g => exact pgGroupSection_ne hgb
                        · intro hsome
                          cases hc with
                          | none => simp at hsome
                          | some hv => exact pgHavingSection_ne hhc
                        · intro htr
                          have hne : ¬ obSql = "" :=
                            fun he => absurd htr (by simp [hiff.mp he])
                          rw [pgTopOrderSection_preserve tc hne htop]
                          exact hne

/-- The witnessing AST for a concrete MySQL clause-order decomposition:
`SELECT * FROM t WHERE (a = 1)`. -/
def c5node : Select :=
  .mk [.starNode] false none (some (.tableNode ⟨"t", none, none⟩))
    (some (.whereClauseNode (.binaryOperationNode (.columnNode "a" none) "="
      (.literalNode (.int 1))))) none none none none none none none

theorem claim_C5_witness :
    ∃ cteL items fromL whereL groupL havL ordSql lockL,
      "SELECT * FROM t WHERE (a = %s)" = pyJoin " " (cteL ++ ["SELECT"] ++
        (if Select.distinct c5node = true then ["DISTINCT"] else []) ++
        [items] ++ fromL ++ whereL ++ groupL ++ havL ++
        (if ordSql ≠ "" then [ordSql] else []) ++
        limitParts (Select.limit c5node) ++ offsetParts (Select.offset c5node) ++
        topLimitParts (Select.top_clause c5node) ++ lockL) ∧
      (truthyList (Select.ctes c5node) = true → cteL ≠ []) ∧
      ((Select.from_table c5node).isSome = true → fromL ≠ []) ∧
      ((Select.where_clause c5node).isSome = true → whereL ≠ []) ∧
      ((Select.group_by c5node).isSome = true → groupL ≠ []) ∧
      ((Select.having_clause c5node).isSome = true → havL ≠ []) ∧
      (truthyList (Select.order_by_clause c5node) = true → ordSql ≠ "") ∧
      ((Select.lock_clause c5node).isSome = true → lockL ≠ []) :=
  (claim_C5 c5node).1 "SELECT * FROM t WHERE (a = %s)" [Value.int 1] rfl

/-- C5, counterexample to the original all-dialects statement: a valid
SELECT with a populated `lock_clause` compiles on Postgres to SQL that
contains no lock text at all (while MySQL appends ` FOR UPDATE` to the
same query), so the Postgres emission does not place the populated lock
clause at its position in the chain. -/
theorem claim_C5_counterexample :
    ∃ (n : Select) (q : CompiledQuery),
      (Select.lock_clause n).isSome = true ∧
      pgCompile (.selectStatementNode n) = .ok q ∧
      strContains q.sql "FOR " = false := by
  refine ⟨.mk [.starNode] false none (some (.tableNode ⟨"users", none, none⟩))
    none none none none none none none (some ⟨"UPDATE", false, false⟩),
    ⟨"SELECT * FROM users", []⟩, rfl, rfl, by decide⟩

/-- C7.  When a Select has a `top_clause` carrying `on_expression` and no
`order_by_clause`, each non-SQL-Server compiler (Postgres, MySQL,
MariaDB) synthesizes `ORDER BY <rendering of top.on_expression>
<top.direction>` — the ORDER BY text is built from the visitor's own
rendering of that expression — and renders `top.count` as a `LIMIT`
placed immediately after the ORDER BY; concretely, `SELECT * FROM users`
with `top = {count: 10, on: score, dir: DESC}` compiles on Postgres to
exactly `SELECT * FROM users ORDER BY score DESC LIMIT 10` with empty
params. -/
theorem claim_C7 :
    (∀ (sl : List Expr) (dist : Bool) (ctes : Option (List Cte))
        (ft : Option FromClause) (wc : Option Where) (gb : Option GroupByClause)
        (hc : Option Having) (cnt : Int) (e : Expr) (dir : String)
        (lim off : Option Int) (lk : Option Lock) (s : String) (st' : St),
      pgVisitSelect (.mk sl dist ctes ft wc gb hc none
        (some (.topClauseNode cnt (some e) dir)) lim off lk) [] = .ok (s, st') →
      ∃ (pre : List String) (es : String) (st₁ st₂ : St),
        pgVisitExpr e st₁ = .ok (es, st₂) ∧
        s = pyJoin " " (pre ++ ["ORDER BY " ++ (es ++ " " ++ dir),
          "LIMIT " ++ toString cnt])) ∧
    (∀ (sl : List Expr) (dist : Bool) (ctes : Option (List Cte))
        (ft : Option FromClause) (wc : Option Where) (gb : Option GroupByClause)
        (hc : Option Having) (cnt : Int) (e : Expr) (dir : String)
        (lim off : Option Int) (lk : Option Lock) (s : String) (st' : St),
      mysqlVisitSelect (.mk sl dist ctes ft wc gb hc none
        (some (.topClauseNode cnt (some e) dir)) lim off lk) [] = .ok (s, st') →
      ∃ (pre : List String) (es : String) (st₁ st₂ : St) (post : List String),
        mysqlVisitExpr e st₁ = .ok (es, st₂) ∧
        s = pyJoin " " (pre ++ ["ORDER BY " ++ (es ++ " " ++ dir),
          "LIMIT " ++ toString cnt] ++ post)) ∧
    (∀ (sl : List Expr) (dist : Bool) (ctes : Option (List Cte))
        (ft : Option FromClause) (wc : Option Where) (gb : Option GroupByClause)
        (hc : Option Having) (cnt : Int) (e : Expr) (dir : String)
        (lim off : Option Int) (lk : Option Lock) (s : String) (st' : St),
      mariadbVisitSelect (.mk sl dist ctes ft wc gb hc none
        (some (.topClauseNode cnt (some e) dir)) lim off lk) [] = .ok (s, st') →
      ∃ (pre : List String) (es : String) (st₁ st₂ : St) (post : List String),
        mariadbVisitExpr e st₁ = .ok (es, st₂) ∧
        s = pyJoin " " (pre ++ ["ORDER BY " ++ (es ++ " " ++ dir),
          "LIMIT " ++ toString cnt] ++ post)) ∧
    pgCompile (.selectStatementNode (.mk [.starNode] false none
      (some (.tableNode ⟨"users", none, none⟩)) none none none none
      (some (.topClauseNode 10 (some (.columnNode "score" none)) "DESC"))
      none none none)) =
      .ok ⟨"SELECT * FROM users ORDER BY score DESC LIMIT 10", []⟩ := by
  refine ⟨?_, ?_, ?_, rfl⟩
  · intro sl dist ctes ft wc gb hc cnt e dir lim off lk s st' h
    simp only [pgVisitSelect] at h
    split at h
    · cases h
    · rename_i hguard
      have hlim : lim = none := by
        cases lim with
        | none => rfl
        | some v => exact absurd (by simp) hguard
      have hoff : off = none := by
        cases off with
        | none => rfl
        | some v => exact absurd (by simp) hguard
      subst hlim hoff
      split at h
      · cases h
      · rename_i items st₁ hsl
        split at h
        · cases h
        · rename_i fromL st₂ hft
          split at h
          · cases h
          · rename_i whereL st₃ hwc
            split at h
            · cases h
            · rename_i groupL st₄ hgb
              split at h
              · cases h
              · rename_i havL st₅ hhc
                simp only [pgOrderBySection, pgTopOrderSection, if_true] at h
                split at h
                · cases h
                · rename_i es st₆ hexp
                  cases h
                  split at hexp
                  · cases hexp
                  · rename_i es2 st₇ hexp2
                    cases hexp
                    refine ⟨["SELECT"] ++ (if dist = true then ["DISTINCT"] else []) ++
                      [pyJoin ", " items] ++ fromL ++ whereL ++ groupL ++ havL,
                      es2, st₅, st', hexp2, ?_⟩
                    have hne : ("ORDER BY " ++ (es2 ++ " " ++ dir)) ≠ "" := by
                      intro heq
                      have hlen := congrArg String.length heq
                      simp [String.length_append] at hlen
                      exact absurd hlen.1 (by decide)
                    rw [if_pos hne]
                    simp [limitParts, offsetParts, topLimitParts, Top.count,
                      List.append_assoc]
  · intro sl dist ctes ft wc gb hc cnt e dir lim off lk s st' h
    simp only [mysqlVisitSelect] at h
    split at h
    · cases h
    · rename_i hguard
      have hlim : lim = none := by
        cases lim with
        | none => rfl
        | some v => exact absurd (by simp) hguard
      have hoff : off = none := by
        cases off with
        | none => rfl
        | some v => exact absurd (by simp) hguard
      subst hlim hoff
      split at h
      · cases h
      · rename_i cteL st₀ hcte
        split at h
        · cases h
        · rename_i items st₁ hsl
          split at h
          · cases h
          · rename_i fromL st₂ hft
            split at h
            · cases h
            · rename_i whereL st₃ hwc
              split at h
              · cases h
              · rename_i groupL st₄ hgb
                split at h
                · cases h
                · rename_i havL st₅ hhc
                  simp only [mysqlOrderBySection, mysqlTopOrderSection, if_true] at h
                  split at h
                  · cases h
                  · rename_i ordSql st₆ hexp
                    split at h
                    · cases h
                    · rename_i lockL st₈ hlk
                      cases h
                      split at hexp
                      · cases hexp
                      · rename_i es2 st₇ hexp2
                        cases hexp
                        refine ⟨cteL ++ ["SELECT"] ++
                          (if dist = true then ["DISTINCT"] else []) ++
                          [pyJoin ", " items] ++ fromL ++ whereL ++ groupL ++ havL,
                          es2, st₅, st₆, lockL, hexp2, ?_⟩
                        have hne : ("ORDER BY " ++ (es2 ++ " " ++ dir)) ≠ "" := by
                          intro heq
                          have hlen := congrArg String.length heq
                          simp [String.length_append] at hlen
                          exact absurd hlen.1 (by decide)
                        rw [if_pos hne]
                        simp [limitParts, offsetParts, topLimitParts, Top.count,
                          List.append_assoc]
  · intro sl dist ctes ft wc gb hc cnt e dir lim off lk s st' h
    simp only [mariadbVisitSelect] at h
    split at h
    · cases h
    · rename_i hguard
      have hlim : lim = none := by
        cases lim with
        | none => rfl
        | some v => exact absurd (by simp) hguard
      have hoff : off = none := by
        cases off with
        | none => rfl
        | some v => exact absurd (by simp) hguard
      subst hlim hoff
      split at h
      · cases h
      · rename_i cteL st₀ hcte
        split at h
        · cases h
        · rename_i items st₁ hsl
          split at h
          · cases h
          · rename_i fromL st₂ hft
            split at h
            · cases h
            · rename_i whereL st₃ hwc
              split at h
              · cases h
              · rename_i groupL st₄ hgb
                split at h
                · cases h
                · rename_i havL st₅ hhc
                  simp only [mariadbOrderBySection, mariadbTopOrderSection,
                    if_true] at h
                  split at h
                  · cases h
                  · rename_i ordSql st₆ hexp
                    split at h
                    · cases h
                    · rename_i lockL st₈ hlk
                      cases h
                      split at hexp
                      · cases hexp
                      · rename_i es2 st₇ hexp2
                        cases hexp
                        refine ⟨cteL ++ ["SELECT"] ++
                          (if dist = true then ["DISTINCT"] else []) ++
                          [pyJoin ", " items] ++ fromL ++ whereL ++ groupL ++ havL,
                          es2, st₅, st₆, lockL, hexp2, ?_⟩
                        have hne : ("ORDER BY " ++ (es2 ++ " " ++ dir)) ≠ "" := by
                          intro heq
                          have hlen := congrArg String.length heq
                          simp [String.length_append] at hlen
                          exact absurd hlen.1 (by decide)
                        rw [if_pos hne]
                        simp [limitParts, offsetParts, topLimitParts, Top.count,
                          List.append_assoc]

theorem claim_C7_witness :
    (∃ (pre : List String) (es : String) (st₁ st₂ : St),
      pgVisitExpr (.columnNode "score" none) st₁ = .ok (es, st₂) ∧
      "SELECT * FROM users ORDER BY score DESC LIMIT 10" =
        pyJoin " " (pre ++ ["ORDER BY " ++ (es ++ " " ++ "DESC"),
          "LIMIT " ++ toString (10 : Int)])) ∧
    (∃ (pre : List String) (es : String) (st₁ st₂ : St) (post : List String),
      mysqlVisitExpr (.columnNode "score" none) st₁ = .ok (es, st₂) ∧
      "SELECT * FROM users ORDER BY score DESC LIMIT 10" =
        pyJoin " " (pre ++ ["ORDER BY " ++ (es ++ " " ++ "DESC"),
          "LIMIT " ++ toString (10 : Int)] ++ post)) ∧
    (∃ (pre : List String) (es : String) (st₁ st₂ : St) (post : List String),
      mariadbVisitExpr (.columnNode "score" none) st₁ = .ok (es, st₂) ∧
      "SELECT * FROM users ORDER BY score DESC LIMIT 10" =
        pyJoin " " (pre ++ ["ORDER BY " ++ (es ++ " " ++ "DESC"),
          "LIMIT " ++ toString (10 : Int)] ++ post)) :=
  ⟨claim_C7.1 [.starNode] false none (some (.tableNode ⟨"users", none, none⟩))
    none none none 10 (.columnNode "score" none) "DESC" none none none
    "SELECT * FROM users ORDER BY score DESC LIMIT 10" [] rfl,
   claim_C7.2.1 [.starNode] false none (some (.tableNode ⟨"users", none, none⟩))
    none none none 10 (.columnNode "score" none) "DESC" none none none
    "SELECT * FROM users ORDER BY score DESC LIMIT 10" [] rfl,
   claim_C7.2.2.1 [.starNode] false none (some (.tableNode ⟨"users", none, none⟩))
    none none none 10 (.columnNode "score" none) "DESC" none none none
    "SELECT * FROM users ORDER BY score DESC LIMIT 10" [] rfl⟩

end Buildaquery
